import Mathlib

set_option autoImplicit false

/-!
# PDF-Tools: the merge and split compositors

A shallow embedding of the two React components of `pdf-merger/src/components`
that compose documents: `PDFMerger.jsx` (function `mergePDFs`) and
`PDFSplitter.jsx` (function `splitPDF`).

* The `useState` cells of a component are the fields of a state record; an event
  handler is a function from the state before the event to the state after it.
* What a handler does to the outside world is recorded in the same record:
  `downloads` (every `link.click()` on a download link, with the file name and
  the document that was serialised), `console` (every `console.error`) and
  `calls` (every call into the `pdf-lib` codec, in program order).
* `pdf-lib` is an external library.  A document is the ordered list of its
  pages; a page carries its size and an opaque content label.  `save()`
  serialises the document it is called on, after giving it a page when it has
  none; a download is recorded as the document that was serialised.
* A JavaScript exception is a value of `Thrown`; code that may throw returns
  `Except Thrown _`.
* The `async` handlers of the splitter that bind a file set state before their
  `await`s and after them; they are given in two parts, `...Begin` and `...End`,
  and the handler itself is the second part applied to the result of the first.
* The cleanup of an effect runs in the render that follows a change of its
  dependencies; it is part of the handler that makes the change.
* A number is the integer it holds; `parseInt` rounds as a double does.
-/

namespace PDFTools

/-! ## The codec (`pdf-lib`) as the components use it -/

/-- A page: `content = none` is a page without content (a blank page), and
`width`, `height` are what `getSize()` returns, in hundredths of a point.
Sizes are only ever read and written back, never computed with. -/
structure PDFPage where
  content : Option Nat
  width : Nat
  height : Nat
deriving DecidableEq, Repr

/-- A document is its ordered page list. -/
structure PDFDocument where
  pages : List PDFPage
deriving DecidableEq, Repr

/-- Values that the modelled code can throw. -/
inductive Thrown where
  /-- `PDFDocument.load` rejected the bytes; `msg` is the library's message. -/
  | loadError (msg : String)
  /-- The `TypeError` of reading `property` of `undefined`. -/
  | typeError (property : String)
  /-- `copyPages` was handed an index with no page behind it. -/
  | undefinedPage (index : Int)
deriving DecidableEq, Repr

deriving instance DecidableEq for Except

/-- A browser `File`: `content` stands for the bytes, identified with what
`PDFDocument.load` makes of them, the decoded document or the error message. -/
structure File where
  name : String
  size : Nat
  type : String
  content : Except String PDFDocument
deriving DecidableEq

/-- One call into the codec, as logged in `calls`. -/
inductive CodecCall where
  | create
  | load (fileName : String)
  | copyPages (indices : List Int)
  | addPage
  | save
deriving DecidableEq, Repr

/-- A download handed to the browser: `link.download` and the saved document. -/
structure Download where
  name : String
  document : PDFDocument
deriving DecidableEq, Repr

/-- `PDFDocument.create()`. -/
def PDFDocument.create : PDFDocument := ⟨[]⟩

/-- `PDFDocument.load(await file.arrayBuffer())`. -/
def PDFDocument.load (file : File) : Except Thrown PDFDocument :=
  match file.content with
  | .ok pdf => .ok pdf
  | .error msg => .error (.loadError msg)

/-- `pdf.getPageCount()`. -/
def PDFDocument.getPageCount (pdf : PDFDocument) : Nat := pdf.pages.length

/-- `pdf.getPageIndices()`: `0, 1, ..., getPageCount() - 1`. -/
def PDFDocument.getPageIndices (pdf : PDFDocument) : List Int :=
  (List.range pdf.getPageCount).map Int.ofNat

/-- `pdf.getPage(index)`: the element `pages[index]` of the page array,
`undefined` (here `none`) when there is no such page. -/
def PDFDocument.getPage (pdf : PDFDocument) (index : Nat) : Option PDFPage :=
  pdf.pages[index]?

/-- `page.getSize()`, the pair `{ width, height }`; on `undefined` the call
throws the `TypeError`. -/
def getSize (page : Option PDFPage) : Except Thrown (Nat × Nat) :=
  match page with
  | some page => .ok (page.width, page.height)
  | none => .error (.typeError "getSize")

/-- The element `srcPages[i]` of a JavaScript array: `undefined` (here `none`)
for a negative index or one past the end. -/
def pageAt (srcPages : List PDFPage) (i : Int) : Option PDFPage :=
  if 0 ≤ i then srcPages[i.toNat]? else none

/-- `dst.copyPages(src, indices)`: the pages of `src` at `indices`, in the order
of `indices`; throws at the first index that has no page. -/
def PDFDocument.copyPages (src : PDFDocument) : List Int → Except Thrown (List PDFPage)
  | [] => .ok []
  | i :: rest =>
    match pageAt src.pages i with
    | none => .error (.undefinedPage i)
    | some page =>
      match PDFDocument.copyPages src rest with
      | .error e => .error e
      | .ok pages => .ok (page :: pages)

/-- `copiedPages.forEach(page => doc.addPage(page))`. -/
def PDFDocument.addPages (doc : PDFDocument) (copiedPages : List PDFPage) : PDFDocument :=
  ⟨doc.pages ++ copiedPages⟩

/-- The page `doc.addPage()` creates: a page without content of the size
`PageSizes.A4`, 595.28 by 841.89 points. -/
def defaultPage : PDFPage :=
  { content := none, width := 59528, height := 84189 }

/-- `page.setSize(width, height)`. -/
def PDFPage.setSize (page : PDFPage) (width height : Nat) : PDFPage :=
  { page with width := width, height := height }

/-- `doc.addPage()`: a new page at the end of the document. -/
def PDFDocument.addPage (doc : PDFDocument) : PDFDocument :=
  ⟨doc.pages ++ [defaultPage]⟩

/-- The page `doc.addPage()` creates, after `setSize(width, height)`. -/
def blankPage (width height : Nat) : PDFPage :=
  defaultPage.setSize width height

/-- `doc.addPage()` followed by `blankPage.setSize(width, height)` on the page
it has returned. -/
def PDFDocument.addBlankPage (doc : PDFDocument) (width height : Nat) : PDFDocument :=
  ⟨doc.pages ++ [blankPage width height]⟩

/-- The document `doc.save()` serialises. Called without options, `save` first
adds a page to a document that has none (`addDefaultPage`, on by default). -/
def PDFDocument.save (doc : PDFDocument) : PDFDocument :=
  if doc.getPageCount = 0 then doc.addPage else doc

/-! ## JavaScript strings -/

/-- The code points `String.prototype.trim` strips: ECMAScript `WhiteSpace` and
`LineTerminator`. -/
def isJSWhiteSpace (c : Char) : Bool :=
  let n := c.toNat
  n == 0x09 || n == 0x0A || n == 0x0B || n == 0x0C || n == 0x0D || n == 0x20 ||
  n == 0xA0 || n == 0x1680 || (0x2000 ≤ n && n ≤ 0x200A) || n == 0x2028 ||
  n == 0x2029 || n == 0x202F || n == 0x205F || n == 0x3000 || n == 0xFEFF

/-- `s.trim()`. -/
def jsTrim (s : String) : String :=
  ⟨((s.data.dropWhile isJSWhiteSpace).reverse.dropWhile isJSWhiteSpace).reverse⟩

/-- `s.endsWith(suffix)`. -/
def jsEndsWith (s suffix : String) : Bool :=
  suffix.data.isSuffixOf s.data

/-- The value of a digit of `parseInt`: `0`-`9`, then the letters, either case,
for 10 to 35. -/
def digitValue (c : Char) : Option Nat :=
  if '0' ≤ c ∧ c ≤ '9' then some (c.toNat - '0'.toNat)
  else if 'a' ≤ c ∧ c ≤ 'z' then some (c.toNat - 'a'.toNat + 10)
  else if 'A' ≤ c ∧ c ≤ 'Z' then some (c.toNat - 'A'.toNat + 10)
  else none

/-- The values of the longest prefix of `chars` made of digits of the radix. -/
def radixDigits (radix : Nat) : List Char → List Nat
  | [] => []
  | c :: chars =>
    match digitValue c with
    | some d => if d < radix then d :: radixDigits radix chars else []
    | none => []

/-- The integer `parseInt(string)` reads, called without a radix (`mathInt`
with its sign in ECMAScript): leading white space is skipped, then a sign, then
`0x` or `0X` (which makes the radix 16, otherwise it is 10), then the longest
run of digits is read; `none` when there is no digit. -/
def mathInt (string : String) : Option Int :=
  let s := string.data.dropWhile isJSWhiteSpace
  let negative := decide (s.head? = some '-')
  let s := match s with
    | '+' :: rest => rest
    | '-' :: rest => rest
    | _ => s
  let hex := match s with
    | '0' :: 'x' :: _ => true
    | '0' :: 'X' :: _ => true
    | _ => false
  let radix := if hex then 16 else 10
  let s := if hex then s.drop 2 else s
  let digits := radixDigits radix s
  if digits = [] then none
  else
    let value : Int := ((digits.foldl (fun acc d => acc * radix + d) 0 : Nat) : Int)
    some (if negative then -value else value)

/-! ## JavaScript numbers -/

/-- A JavaScript number, as far as `parseInt` can return it: `NaN`, a double
that is an integer, `Infinity` or `-Infinity`. -/
inductive JSNumber where
  | nan
  | finite (value : Int)
  | infinity (negative : Bool)
deriving DecidableEq, Repr

/-- The number of binary digits of `n`, for `n < 2 ^ fuel`. -/
def bitLength : Nat → Nat → Nat
  | 0, _ => 0
  | fuel + 1, n => if n = 0 then 0 else bitLength fuel (n / 2) + 1

/-- The double nearest to the natural number `n`, when it is finite: a double
has 53 significant binary digits, so `n` is rounded to a multiple of
`unit = 2 ^ (bits - 53)` (written as a shift), to the nearest one, and of two
that are equally near to the one with the even multiplier. `none`: the result
is `2 ^ 1024` (the long number below) or more, which is no finite double: the
number is `Infinity`. -/
def roundToDouble (n : Nat) : Option Nat :=
  let bits := bitLength n n
  if bits ≤ 53 then some n
  else
    let unit := 1 <<< (bits - 53)
    let low := n / unit * unit
    let rounded :=
      if 2 * (n - low) < unit then low
      else if unit < 2 * (n - low) then low + unit
      else if n / unit % 2 = 0 then low
      else low + unit
    if rounded < 179769313486231590772930519078902473361797697894230657273430081157732675805500963132708477322407536021120113879871393357658789768814416622492847430639474124377767893424865485276302219601246094119453082952085005768838150682342462881473913110540827237163350510684586298239947245938479716304835356329624224137216 then some rounded
    else none

/-- The number value of an integer (`𝔽` in ECMAScript). -/
def toNumber (value : Int) : JSNumber :=
  match roundToDouble value.natAbs with
  | some rounded => .finite (if value < 0 then -(rounded : Int) else (rounded : Int))
  | none => .infinity (decide (value < 0))

/-- `parseInt(string)`, called without a radix: `NaN` when no digit is read,
otherwise the number value of the integer read. -/
def parseInt (string : String) : JSNumber :=
  match mathInt string with
  | none => .nan
  | some value => toNumber value

/-- The multiple of `p` next to the double `x`, below or above, that rounds to
`x`, if there is one; of two there are, the nearer, and of two equally near the
one with the even multiplier. -/
def shortestAt (x p : Nat) : Option Nat :=
  let low := x / p * p
  let high := low + p
  let lowRounds := decide (roundToDouble low = some x)
  let highRounds := decide (roundToDouble high = some x)
  if lowRounds && highRounds then
    if x - low < high - x then some low
    else if high - x < x - low then some high
    else if x / p % 2 = 0 then some low
    else some high
  else if lowRounds then some low
  else if highRounds then some high
  else none

/-- The integer with the fewest significant decimal digits among those that
round to the double `x` (the digits `Number.prototype.toString` prints): the
scales `10 ^ m` are tried from the largest on. -/
def shortestDecimal (x : Nat) : Nat :=
  (((List.range (Nat.toDigits 10 x).length).reverse.filterMap
    (fun m => shortestAt x (10 ^ m))).head?).getD x

/-- `value.toString()` for a number that is an integer: the digits of
`shortestDecimal`, written out in full when there are at most 21 of them, and
otherwise in exponent form, as in `1e+21` or `1.2e+21`. -/
def numberToString (value : Int) : String :=
  let digits := Nat.toDigits 10 (shortestDecimal value.natAbs)
  let sign := if value < 0 then "-" else ""
  if digits.length ≤ 21 then sign ++ String.mk digits
  else
    match (digits.reverse.dropWhile (fun c => c == '0')).reverse with
    | [] => sign ++ String.mk digits
    | [d] => sign ++ String.mk [d] ++ "e+" ++ toString (digits.length - 1)
    | d :: rest => sign ++ String.mk (d :: '.' :: rest) ++ "e+" ++ toString (digits.length - 1)

/-! ## JavaScript objects used as maps, arrays -/

/-- `obj[key]`; `none` is `undefined`. -/
def objGet {κ ν : Type} [DecidableEq κ] (obj : List (κ × ν)) (key : κ) : Option ν :=
  (obj.find? (fun entry => decide (entry.1 = key))).map (fun entry => entry.2)

/-- `{...obj, [key]: value}`: the value under `key` is replaced, or the key is
added. -/
def objSet {κ ν : Type} [DecidableEq κ] (obj : List (κ × ν)) (key : κ) (value : ν) :
    List (κ × ν) :=
  if obj.any (fun entry => decide (entry.1 = key)) then
    obj.map (fun entry => if entry.1 = key then (key, value) else entry)
  else
    obj ++ [(key, value)]

/-- `delete obj[key]`. -/
def objDelete {κ ν : Type} [DecidableEq κ] (obj : List (κ × ν)) (key : κ) : List (κ × ν) :=
  obj.filter (fun entry => decide (entry.1 ≠ key))

/-- `array.findIndex(p)`: the index of the first element that satisfies `p`, or
`-1`. -/
def findIndex {α : Type} (array : List α) (p : α → Bool) : Int :=
  if array.findIdx p < array.length then (array.findIdx p : Int) else -1

/-- The index at which `array.splice(start, ...)` works on an array of `length`
elements: a negative `start` counts from the end, and the result is clamped to
`[0, length]`. -/
def spliceStart (length : Nat) (start : Int) : Nat :=
  if start < 0 then ((length : Int) + start).toNat else min start.toNat length

/-- `arrayMove(array, from, to)` of `@dnd-kit/sortable`:
`newArray.splice(to < 0 ? newArray.length + to : to, 0, newArray.splice(from, 1)[0])`
on a copy of `array`. The first argument is computed before the inner `splice`
takes its element out. When the inner `splice` removes nothing, JavaScript
inserts `undefined`; the result is then no list of elements, which is `none`. -/
def arrayMove {α : Type} (array : List α) (fromIndex toIndex : Int) : Option (List α) :=
  let target : Int := if toIndex < 0 then (array.length : Int) + toIndex else toIndex
  let removeAt := spliceStart array.length fromIndex
  match array[removeAt]? with
  | none => none
  | some moved =>
    let rest := array.eraseIdx removeAt
    some (rest.insertIdx (spliceStart rest.length target) moved)

/-! ## Object URLs -/

/-- The blob URLs of the page: `live` are the URLs created by
`URL.createObjectURL` and not revoked since, `created` counts the URLs ever
created. A URL is identified with its number. -/
structure URLStore where
  live : List Nat
  created : Nat
deriving DecidableEq, Repr

/-- `URL.createObjectURL(blob)`: a URL that was never handed out before. -/
def URLStore.createObjectURL (store : URLStore) : Nat × URLStore :=
  (store.created, { live := store.live ++ [store.created], created := store.created + 1 })

/-- `URL.revokeObjectURL(url)`. -/
def URLStore.revokeObjectURL (store : URLStore) (url : Nat) : URLStore :=
  { store with live := store.live.filter (fun u => decide (u ≠ url)) }

/-! ## `PDFMerger.jsx` -/

namespace PDFMerger

/-- An entry of `pdfFiles`. -/
structure PdfFile where
  id : String
  file : File
  name : String
  size : Nat
deriving DecidableEq

/-- The state cells of the component that `mergePDFs` reads or writes, and the
effects it has had. -/
structure State where
  pdfFiles : List PdfFile
  isMerging : Bool
  error : Option String
  addBlankPages : Bool
  outputFileName : String
  downloads : List Download
  console : List (String × Thrown)
  calls : List CodecCall
  previewUrls : List (String × Nat) := []
  isDragOver : Bool := false
  urls : URLStore := { live := [], created := 0 }
deriving DecidableEq

/-- The body of the `for` loop of `mergePDFs` from index `i` on: `files` are the
entries `pdfFiles[i], pdfFiles[i+1], ...`, `length` is `pdfFiles.length`,
`mergedPdf` the document built so far.  Returns the codec calls made and either
the finished document or what was thrown. -/
def mergeLoop (addBlankPages : Bool) (length : Nat) :
    List PdfFile → Nat → PDFDocument → List CodecCall →
      Except Thrown PDFDocument × List CodecCall
  | [], _, mergedPdf, calls => (.ok mergedPdf, calls)
  | pdfFile :: files, i, mergedPdf, calls =>
    match PDFDocument.load pdfFile.file with
    | .error e => (.error e, calls ++ [.load pdfFile.file.name])
    | .ok pdf =>
      match pdf.copyPages pdf.getPageIndices with
      | .error e =>
        (.error e, calls ++ [.load pdfFile.file.name, .copyPages pdf.getPageIndices])
      | .ok copiedPages =>
        let mergedPdf := mergedPdf.addPages copiedPages
        let calls := calls ++ [.load pdfFile.file.name, .copyPages pdf.getPageIndices]
        if addBlankPages && decide (i < length - 1) then
          match getSize (pdf.getPage 0) with
          | .error e => (.error e, calls ++ [.addPage])
          | .ok size =>
            mergeLoop addBlankPages length files (i + 1)
              (mergedPdf.addBlankPage size.1 size.2)
              (calls ++ [.addPage])
        else
          mergeLoop addBlankPages length files (i + 1) mergedPdf calls

/-- The download name: `outputFileName.trim() || 'merged.pdf'`, then `.pdf` is
appended unless the name already ends with it. -/
def finalFileName (outputFileName : String) : String :=
  let fileName := if jsTrim outputFileName = "" then "merged.pdf" else jsTrim outputFileName
  if jsEndsWith fileName ".pdf" then fileName else fileName ++ ".pdf"

/-- The handler `mergePDFs`. -/
def mergePDFs (s : State) : State :=
  if s.pdfFiles.length = 0 then
    { s with error := some "Please upload at least one PDF file" }
  else
    match mergeLoop s.addBlankPages s.pdfFiles.length s.pdfFiles 0 PDFDocument.create
        (s.calls ++ [.create]) with
    | (.ok mergedPdf, calls) =>
      { s with
        isMerging := false
        error := none
        calls := calls ++ [.save]
        downloads := s.downloads ++ [⟨finalFileName s.outputFileName, mergedPdf.save⟩] }
    | (.error err, calls) =>
      { s with
        isMerging := false
        error := some "Error merging PDFs. Please try again."
        calls := calls
        console := s.console ++ [("Error merging PDFs:", err)] }

/-- The `event` of `onDragEnd`, as far as `handleDragEnd` reads it: `active.id`
and `over.id`. -/
structure DragEndEvent where
  activeId : String
  overId : String
deriving DecidableEq, Repr

/-- The handler `handleDragEnd`. `none`: `arrayMove` has put `undefined` into
the array, `pdfFiles` is no list of entries any more. -/
def handleDragEnd (s : State) (event : DragEndEvent) : Option State :=
  if event.activeId ≠ event.overId then
    let oldIndex := findIndex s.pdfFiles (fun item => decide (item.id = event.activeId))
    let newIndex := findIndex s.pdfFiles (fun item => decide (item.id = event.overId))
    (arrayMove s.pdfFiles oldIndex newIndex).map (fun items => { s with pdfFiles := items })
  else
    some s

/-- The function `createPreviewUrl`: a URL is created for the file and stored
under the file's name. -/
def createPreviewUrl (s : State) (file : File) : State :=
  { s with
    urls := s.urls.createObjectURL.2
    previewUrls := objSet s.previewUrls file.name s.urls.createObjectURL.1 }

/-- The cleanup of the effect with dependency `previewUrls`
(`Object.values(previewUrls).forEach(url => URL.revokeObjectURL(url))`): the
render that follows a change of `previewUrls` runs it on the object that
`previewUrls` was before the change, `previous`, and so revokes every URL of
that object. -/
def cleanupPreviewUrls (previous : List (String × Nat)) (s : State) : State :=
  { s with urls := previous.foldl (fun store entry => store.revokeObjectURL entry.2) s.urls }

/-- The entries made of the accepted files:
`.map(file => ({ id: Math.random().toString(36).substr(2, 9), file, name: file.name, size: file.size }))`.
`randomId k` is the id the `k`-th call produces. -/
def toPdfFiles (randomId : Nat → String) : Nat → List File → List PdfFile
  | _, [] => []
  | k, file :: files =>
    { id := randomId k, file := file, name := file.name, size := file.size } ::
      toPdfFiles randomId (k + 1) files

/-- The entries `newFiles` of a batch: those of the files whose type is
`application/pdf`. -/
def newFiles (randomId : Nat → String) (files : List File) : List PdfFile :=
  toPdfFiles randomId 0 (files.filter (fun file => decide (file.type = "application/pdf")))

/-- The handler `handleFileChange`; `files` is `event.target.files`. When a
preview URL has been stored, `previewUrls` has changed and the effect cleanup
runs on what it was before. -/
def handleFileChange (s : State) (files : Option (List File)) (randomId : Nat → String) :
    State :=
  match files with
  | none => s
  | some files =>
    let s' := (newFiles randomId files).foldl (fun st entry => createPreviewUrl st entry.file) s
    let s' :=
      if (newFiles randomId files).length = 0 then s' else cleanupPreviewUrls s.previewUrls s'
    { s' with pdfFiles := s'.pdfFiles ++ newFiles randomId files, error := none }

/-- The handler `handleDrop`; `files` is `Array.from(e.dataTransfer.files)`. -/
def handleDrop (s : State) (files : List File) (randomId : Nat → String) : State :=
  if files.length = 0 then
    { s with isDragOver := false }
  else if (newFiles randomId files).length = 0 then
    { s with isDragOver := false, error := some "Please drop valid PDF files only" }
  else
    let s' := (newFiles randomId files).foldl (fun st entry => createPreviewUrl st entry.file)
      { s with isDragOver := false }
    let s' := cleanupPreviewUrls s.previewUrls s'
    { s' with pdfFiles := s'.pdfFiles ++ newFiles randomId files, error := none }

/-- The handler `removeFile`. When an entry is found, `setPreviewUrls` is called:
`previewUrls` has changed and the effect cleanup runs on what it was before. -/
def removeFile (s : State) (id : String) : State :=
  match s.pdfFiles.find? (fun file => decide (file.id = id)) with
  | some fileToRemove =>
    cleanupPreviewUrls s.previewUrls
      { s with
        urls :=
          match objGet s.previewUrls fileToRemove.name with
          | some url => s.urls.revokeObjectURL url
          | none => s.urls
        previewUrls := objDelete s.previewUrls fileToRemove.name
        pdfFiles := s.pdfFiles.filter (fun file => decide (file.id ≠ id)) }
  | none => { s with pdfFiles := s.pdfFiles.filter (fun file => decide (file.id ≠ id)) }

/-- Whether the preview handle of an entry is registered: the page shows
`previewUrls[file.name]`, so there must be a URL under the name of the entry's
file, and that URL must not have been revoked. -/
def hasPreview (s : State) (entry : PdfFile) : Bool :=
  match objGet s.previewUrls entry.file.name with
  | some url => decide (url ∈ s.urls.live)
  | none => false

/-- The position of the first entry with the given id (the length of the list
when there is none). -/
def positionOf (pdfFiles : List PdfFile) (id : String) : Nat :=
  pdfFiles.findIdx (fun item => decide (item.id = id))

/-- The pages a source contributes: those of its decoded document (none when the
file does not decode). -/
def sourcePages (pdfFile : PdfFile) : List PDFPage :=
  match pdfFile.file.content with
  | .ok pdf => pdf.pages
  | .error _ => []

/-- Whether `PDFDocument.load` accepts the file of this entry. -/
def decodable (pdfFile : PdfFile) : Bool :=
  match pdfFile.file.content with
  | .ok _ => true
  | .error _ => false

/-- The separator that follows a source with these pages: a blank page of the
size of the first of them.  (A source without pages has no first page; the
size given for it is never used, `mergePDFs` fails there.) -/
def separatorFor (pages : List PDFPage) : PDFPage :=
  match pages with
  | firstPage :: _ => blankPage firstPage.width firstPage.height
  | [] => blankPage 0 0

/-- The page sequence the specification asks of a merge with separators: the
page lists in order, with one separator after each list but the last. -/
def withSeparators : List (List PDFPage) → List PDFPage
  | [] => []
  | [pages] => pages
  | pages :: rest => pages ++ separatorFor pages :: withSeparators rest

/-! ### Sample inputs -/

/-- A page with content label `label` and the given size. -/
def samplePage (label width height : Nat) : PDFPage :=
  { content := some label, width := width, height := height }

/-- An entry of `pdfFiles` for a PDF file with the given pages. -/
def sampleSource (name : String) (pages : List PDFPage) : PdfFile :=
  { id := name
    file := { name := name, size := 1024, type := "application/pdf", content := .ok ⟨pages⟩ }
    name := name
    size := 1024 }

/-- An entry of `pdfFiles` for a file whose bytes are no PDF. -/
def sampleBrokenSource (name : String) : PdfFile :=
  { id := name
    file :=
      { name := name, size := 0, type := "application/pdf"
        content := .error "Failed to parse PDF document (line:0 col:0 offset=0): No PDF header found" }
    name := name
    size := 0 }

/-- Source `S1` with pages `a`, `b`. -/
def sampleS1 : PdfFile :=
  sampleSource "s1.pdf" [samplePage 1 612 792, samplePage 2 612 792]

/-- Source `S2` with the single page `c`. -/
def sampleS2 : PdfFile :=
  sampleSource "s2.pdf" [samplePage 3 595 842]

/-- A fresh component holding `pdfFiles`, with the separator toggle set to
`addBlankPages` and nothing typed into the file name field. -/
def sampleState (pdfFiles : List PdfFile) (addBlankPages : Bool) : State :=
  { pdfFiles := pdfFiles, isMerging := false, error := none, addBlankPages := addBlankPages
    outputFileName := "", downloads := [], console := [], calls := [] }

end PDFMerger

/-! ## `PDFSplitter.jsx` -/

namespace PDFSplitter

/-- An entry of `splitRanges`: 1-based inclusive page numbers `start`, `end`
(JavaScript numbers holding integers) and the output name. -/
structure SplitRange where
  id : Nat
  start : Int
  «end» : Int
  name : String
deriving DecidableEq, Repr

/-- The texts of the two number fields of a range, an entry of `inputValues`;
a field that is not set is the empty string. -/
structure InputValue where
  start : String
  «end» : String
deriving DecidableEq, Repr

/-- The state cells of the component that `splitPDF` reads or writes, and the
effects it has had. -/
structure State where
  pdfFile : Option File
  isProcessing : Bool
  error : Option String
  totalPages : Nat
  splitRanges : List SplitRange
  downloads : List Download
  console : List (String × Thrown)
  calls : List CodecCall
  inputValues : List (Nat × InputValue) := []
  splitPreviews : List (Nat × Nat) := []
  previewUrl : Option Nat := none
  urls : URLStore := { live := [], created := 0 }
  isDragOver : Bool := false
  blobs : List (Nat × PDFDocument) := []
deriving DecidableEq

/-- The test guarding the body of the loop over `splitRanges`:
`range.start <= range.end && range.start <= totalPages && range.end <= totalPages`. -/
def eligible (totalPages : Nat) (range : SplitRange) : Bool :=
  decide (range.start ≤ range.«end») && decide (range.start ≤ (totalPages : Int)) &&
    decide (range.«end» ≤ (totalPages : Int))

/-- The array `pageIndices` built by
`for (let i = range.start - 1; i < range.end; i++) if (i < pdf.getPageCount()) pageIndices.push(i)`. -/
def pageIndices (pdf : PDFDocument) (range : SplitRange) : List Int :=
  ((List.range (range.«end» - (range.start - 1)).toNat).map
      (fun (k : Nat) => range.start - 1 + (k : Int))).filter
    (fun i => decide (i < (pdf.getPageCount : Int)))

/-- The loop `for (const range of splitRanges)` of `splitPDF`: every download is
made inside the loop, as soon as its range has been composed.  Returns what was
thrown (if anything), the downloads and the codec calls made. -/
def splitLoop (pdf : PDFDocument) (totalPages : Nat) :
    List SplitRange → List Download → List CodecCall →
      Option Thrown × List Download × List CodecCall
  | [], downloads, calls => (none, downloads, calls)
  | range :: ranges, downloads, calls =>
    if eligible totalPages range then
      match pdf.copyPages (pageIndices pdf range) with
      | .error e =>
        (some e, downloads, calls ++ [.create, .copyPages (pageIndices pdf range)])
      | .ok copiedPages =>
        splitLoop pdf totalPages ranges
          (downloads ++
            [⟨range.name ++ ".pdf", (PDFDocument.create.addPages copiedPages).save⟩])
          (calls ++ [.create, .copyPages (pageIndices pdf range), .save])
    else
      splitLoop pdf totalPages ranges downloads calls

/-- The handler `splitPDF`. -/
def splitPDF (s : State) : State :=
  match s.pdfFile with
  | none => { s with error := some "Please upload a PDF file and define split ranges" }
  | some pdfFile =>
    if s.splitRanges.length = 0 then
      { s with error := some "Please upload a PDF file and define split ranges" }
    else
      match PDFDocument.load pdfFile with
      | .error err =>
        { s with
          isProcessing := false
          error := some "Error splitting PDF. Please try again."
          calls := s.calls ++ [.load pdfFile.name]
          console := s.console ++ [("Error splitting PDF:", err)] }
      | .ok pdf =>
        match splitLoop pdf s.totalPages s.splitRanges s.downloads
            (s.calls ++ [.load pdfFile.name]) with
        | (none, downloads, calls) =>
          { s with
            isProcessing := false
            error := none
            downloads := downloads
            calls := calls }
        | (some err, downloads, calls) =>
          { s with
            isProcessing := false
            error := some "Error splitting PDF. Please try again."
            downloads := downloads
            calls := calls
            console := s.console ++ [("Error splitting PDF:", err)] }

/-- The number fields of a range. -/
inductive Field where
  | start
  | «end»
deriving DecidableEq, Repr

/-- A call `updateSplitRange(id, field, value)`: the field and the value it gets. -/
inductive FieldValue where
  | name (value : String)
  | start (value : Int)
  | «end» (value : Int)
deriving DecidableEq, Repr

/-- The cleanup of the effect with dependencies `previewUrl` and
`splitPreviews`: the render that follows a change of one of them runs it on what
the two were before the change, and so revokes the URL `previousUrl` and every
URL of `previousPreviews`. -/
def cleanupPreviews (previousUrl : Option Nat) (previousPreviews : List (Nat × Nat))
    (store : URLStore) : URLStore :=
  previousPreviews.foldl (fun st entry => st.revokeObjectURL entry.2)
    (match previousUrl with
      | some url => store.revokeObjectURL url
      | none => store)

/-- The arguments `field, value` of a call `updateSplitRange(id, field, value)`
for a number field. -/
def FieldValue.of (field : Field) (value : Int) : FieldValue :=
  match field with
  | .start => .start value
  | .«end» => .«end» value

/-- The function `createPreviewUrl`; `previewUrl` changes, so the effect cleanup
runs on what `previewUrl` and `splitPreviews` were before. -/
def createPreviewUrl (s : State) : State :=
  { s with
    urls := cleanupPreviews s.previewUrl s.splitPreviews s.urls.createObjectURL.2
    previewUrl := some s.urls.createObjectURL.1 }

/-- The first part of `handleFileChange` on a file of type `application/pdf`,
up to the first `await`: the file is bound, the error cleared and the preview
URL created. The component is rendered in this state, with the new file next to
`totalPages` and the ranges from before, while the file is read and decoded. -/
def handleFileChangeBegin (s : State) (file : File) : State :=
  createPreviewUrl { s with pdfFile := some file, error := none }

/-- The second part of `handleFileChange`, after the `await`s: `file` has been
decoded, or the decoder has thrown. A page count is written with its decimal
digits (it is far below `2^53`). -/
def handleFileChangeEnd (s : State) (file : File) : State :=
  match PDFDocument.load file with
  | .error err =>
    { s with
      calls := s.calls ++ [.load file.name]
      console := s.console ++ [("Error processing file:", err)]
      error := some "Error processing file. Please try again." }
  | .ok pdf =>
    { s with
      calls := s.calls ++ [.load file.name]
      totalPages := pdf.getPageCount
      splitRanges := [{ id := 1, start := 1, «end» := pdf.getPageCount, name := "Part 1" }]
      inputValues := [(1, { start := "1", «end» := toString pdf.getPageCount })] }

/-- The handler `handleFileChange`, run from its first statement to its last
with nothing in between; `file` is `event.target.files[0]`. -/
def handleFileChange (s : State) (file : Option File) : State :=
  match file with
  | none => { s with error := some "Please select a valid PDF file" }
  | some file =>
    if file.type ≠ "application/pdf" then
      { s with error := some "Please select a valid PDF file" }
    else
      handleFileChangeEnd (handleFileChangeBegin s file) file

/-- The handler `addSplitRange`. -/
def addSplitRange (s : State) : State :=
  { s with
    splitRanges := s.splitRanges ++
      [{ id := s.splitRanges.length + 1, start := 1, «end» := s.totalPages,
         name := "Part " ++ toString (s.splitRanges.length + 1) }]
    inputValues := objSet s.inputValues (s.splitRanges.length + 1)
      { start := "1", «end» := toString s.totalPages } }

/-- The handler `removeSplitRange`; `splitPreviews` changes, so the effect
cleanup runs on what `previewUrl` and `splitPreviews` were before. -/
def removeSplitRange (s : State) (id : Nat) : State :=
  { s with
    splitRanges := s.splitRanges.filter (fun range => decide (range.id ≠ id))
    splitPreviews := objDelete s.splitPreviews id
    inputValues := objDelete s.inputValues id
    urls := cleanupPreviews s.previewUrl s.splitPreviews s.urls }

/-- `{ ...range, [field]: value }`. -/
def SplitRange.update (range : SplitRange) : FieldValue → SplitRange
  | .name value => { range with name := value }
  | .start value => { range with start := value }
  | .«end» value => { range with «end» := value }

/-- The function `updateSplitRange`. -/
def updateSplitRange (s : State) (id : Nat) (fieldValue : FieldValue) : State :=
  { s with
    splitRanges := s.splitRanges.map
      (fun range => if range.id = id then range.update fieldValue else range) }

/-- `{ ...value, [field]: text }` on an entry of `inputValues` (`none`: the
entry is `undefined`). -/
def InputValue.update (value : Option InputValue) (field : Field) (text : String) : InputValue :=
  match field with
  | .start => { start := text, «end» := (value.map (fun v => v.«end»)).getD "" }
  | .«end» => { start := (value.map (fun v => v.start)).getD "", «end» := text }

/-- The handler `handleInputChange`. -/
def handleInputChange (s : State) (id : Nat) (field : Field) (value : String) : State :=
  { s with
    inputValues := objSet s.inputValues id (InputValue.update (objGet s.inputValues id) field value) }

/-- `currentValue === '' ? fallback : parseInt(currentValue) || fallback`: the
fallback is taken for the empty text, for `NaN` and for `0`. -/
def committedValue (currentValue : String) (fallback : Int) : JSNumber :=
  if currentValue = "" then .finite fallback
  else
    match parseInt currentValue with
    | .nan => .finite fallback
    | .finite value => if value = 0 then .finite fallback else .finite value
    | .infinity negative => .infinity negative

/-- The text `currentValue` of `handleInputBlur`: `inputValues[id]?.[field] || ''`. -/
def currentValue (s : State) (id : Nat) (field : Field) : String :=
  match objGet s.inputValues id, field with
  | some value, .start => value.start
  | some value, .«end» => value.«end»
  | none, _ => ""

/-- The number `finalValue` of `handleInputBlur`. -/
def finalValue (s : State) (id : Nat) (field : Field) : JSNumber :=
  match field with
  | .start => committedValue (currentValue s id field) 1
  | .«end» => committedValue (currentValue s id field) s.totalPages

/-- What `handleInputBlur` does with the integer `value` for `finalValue`: the
field of the range is updated, and the text of the field becomes
`finalValue.toString()`. -/
def commitValue (s : State) (id : Nat) (field : Field) (value : Int) : State :=
  let s' := updateSplitRange s id (FieldValue.of field value)
  { s' with
    inputValues := objSet s'.inputValues id
      (InputValue.update (objGet s'.inputValues id) field (numberToString value)) }

/-- The handler `handleInputBlur`. `none`: `finalValue` is `Infinity` or
`-Infinity` (the text has some 309 digits or more); what the range holds then is
no integer, which `SplitRange` does not express. -/
def handleInputBlur (s : State) (id : Nat) (field : Field) : Option State :=
  match finalValue s id field with
  | .finite value => some (commitValue s id field value)
  | _ => none

/-- The value `handleInputBlur` falls back to: `1` for `start`, `totalPages` for
`end`. -/
def defaultValue (totalPages : Nat) : Field → Int
  | .start => 1
  | .«end» => (totalPages : Int)

/-- The value of a field of a range. -/
def SplitRange.get (range : SplitRange) : Field → Int
  | .start => range.start
  | .«end» => range.«end»

/-- The component before any file is selected. -/
def initialState : State :=
  { pdfFile := none, isProcessing := false, error := none, totalPages := 0, splitRanges := []
    downloads := [], console := [], calls := [] }

/-- The first part of `handleDrop` on a file of type `application/pdf`, up to
the first `await`; the component is rendered in this state while the file is
read and decoded. -/
def handleDropBegin (s : State) (file : File) : State :=
  createPreviewUrl { s with isDragOver := false, pdfFile := some file, error := none }

/-- The second part of `handleDrop`, after the `await`s. -/
def handleDropEnd (s : State) (file : File) : State :=
  match PDFDocument.load file with
  | .error err =>
    { s with
      calls := s.calls ++ [.load file.name]
      console := s.console ++ [("Error processing dropped file:", err)]
      error := some "Error processing dropped file. Please try again." }
  | .ok pdf =>
    { s with
      calls := s.calls ++ [.load file.name]
      totalPages := pdf.getPageCount
      splitRanges := [{ id := 1, start := 1, «end» := pdf.getPageCount, name := "Part 1" }]
      inputValues := [(1, { start := "1", «end» := toString pdf.getPageCount })] }

/-- The handler `handleDrop`, run from its first statement to its last with
nothing in between; `files` is `Array.from(e.dataTransfer.files)`, of which the
first is taken. -/
def handleDrop (s : State) (files : List File) : State :=
  match files with
  | [] => { s with isDragOver := false }
  | file :: _ =>
    if file.type ≠ "application/pdf" then
      { s with isDragOver := false, error := some "Please drop a valid PDF file" }
    else
      handleDropEnd (handleDropBegin s file) file

/-- What the loop of `generateSplitPreviews` works on: the object `newPreviews`,
the object URLs of the page, the documents behind the URLs it has created
(`blobs`) and the codec calls made. -/
structure PreviewRun where
  newPreviews : List (Nat × Nat)
  urls : URLStore
  blobs : List (Nat × PDFDocument)
  calls : List CodecCall
deriving DecidableEq

/-- The loop `for (const range of splitRanges)` of `generateSplitPreviews`: for
a range that passes the test a document is composed, a URL is created for it and
put into `newPreviews` under the id of the range.  Returns what was thrown (if
anything) and the run so far. -/
def previewLoop (pdf : PDFDocument) (totalPages : Nat) :
    List SplitRange → PreviewRun → Option Thrown × PreviewRun
  | [], run => (none, run)
  | range :: ranges, run =>
    if eligible totalPages range then
      match pdf.copyPages (pageIndices pdf range) with
      | .error e =>
        (some e,
          { run with calls := run.calls ++ [.create, .copyPages (pageIndices pdf range)] })
      | .ok copiedPages =>
        previewLoop pdf totalPages ranges
          { newPreviews := objSet run.newPreviews range.id run.urls.createObjectURL.1
            urls := run.urls.createObjectURL.2
            blobs := run.blobs ++
              [(run.urls.createObjectURL.1, (PDFDocument.create.addPages copiedPages).save)]
            calls := run.calls ++ [.create, .copyPages (pageIndices pdf range), .save] }
    else
      previewLoop pdf totalPages ranges run

/-- The function `generateSplitPreviews`: `splitPreviews` is set once, after the
loop, and the effect cleanup then runs on what `previewUrl` and `splitPreviews`
were before; when the loop throws `splitPreviews` keeps its old value. -/
def generateSplitPreviews (s : State) : State :=
  match s.pdfFile with
  | none => s
  | some pdfFile =>
    if s.splitRanges.length = 0 then s
    else
      match PDFDocument.load pdfFile with
      | .error err =>
        { s with
          calls := s.calls ++ [.load pdfFile.name]
          console := s.console ++ [("Error generating previews:", err)]
          error := some "Error generating previews. Please try again." }
      | .ok pdf =>
        match previewLoop pdf s.totalPages s.splitRanges
            { newPreviews := [], urls := s.urls, blobs := s.blobs
              calls := s.calls ++ [.load pdfFile.name] } with
        | (none, run) =>
          { s with
            splitPreviews := run.newPreviews
            urls := cleanupPreviews s.previewUrl s.splitPreviews run.urls
            blobs := run.blobs
            calls := run.calls }
        | (some err, run) =>
          { s with
            urls := run.urls
            blobs := run.blobs
            calls := run.calls
            console := s.console ++ [("Error generating previews:", err)]
            error := some "Error generating previews. Please try again." }

/-- The page count the card of a range displays: `range.end - range.start + 1`. -/
def displayedPageCount (range : SplitRange) : Int :=
  range.«end» - range.start + 1

/-- The ranges for which a run over `ranges` composes a document: those that
pass the test, up to the first of them for which `copyPages` throws. -/
def composedRanges (pdf : PDFDocument) (totalPages : Nat) : List SplitRange → List SplitRange
  | [] => []
  | range :: ranges =>
    if eligible totalPages range then
      match pdf.copyPages (pageIndices pdf range) with
      | .error _ => []
      | .ok _ => range :: composedRanges pdf totalPages ranges
    else
      composedRanges pdf totalPages ranges

/-- The document composed for a range and serialised by `save()`: the pages
`copyPages` returns for its `pageIndices`. -/
def composedDocument (pdf : PDFDocument) (range : SplitRange) : PDFDocument :=
  match pdf.copyPages (pageIndices pdf range) with
  | .ok copiedPages => (PDFDocument.create.addPages copiedPages).save
  | .error _ => ⟨[]⟩

/-- The ranges for which a run in state `s` composes a document, each with that
document: none without a bound file or when the file does not decode. -/
def composed (s : State) : List (SplitRange × PDFDocument) :=
  match s.pdfFile with
  | none => []
  | some pdfFile =>
    match pdfFile.content with
    | .error _ => []
    | .ok pdf =>
      (composedRanges pdf s.totalPages s.splitRanges).map
        (fun range => (range, composedDocument pdf range))

/-- The pages the specification asks of the output for `range`: the source pages
with 0-based indices `start - 1, ..., end - 1`, in that order. -/
def rangePages (pdf : PDFDocument) (range : SplitRange) : List PDFPage :=
  (pdf.pages.drop (range.start - 1).toNat).take (range.«end» - range.start + 1).toNat

/-- The output the specification asks for `range`: `rangePages` under the name
`splitPDF` gives its download. -/
def rangeOutput (pdf : PDFDocument) (range : SplitRange) : Download :=
  ⟨range.name ++ ".pdf", ⟨rangePages pdf range⟩⟩

/-! ### Sample inputs -/

/-- A PDF file of `n` pages, labelled `1, ..., n`. -/
def sampleFile (n : Nat) : File :=
  { name := "source.pdf", size := 4096, type := "application/pdf"
    content := .ok ⟨(List.range n).map (fun i => ⟨some (i + 1), 612, 792⟩)⟩ }

/-- The component after a file of `n` pages has been selected and the ranges
edited to `splitRanges`. -/
def sampleState (n : Nat) (splitRanges : List SplitRange) : State :=
  { pdfFile := some (sampleFile n), isProcessing := false, error := none, totalPages := n
    splitRanges := splitRanges, downloads := [], console := [], calls := [] }

/-- A text is typed into a number field of a range, and the field is left. -/
def typeInto (s : State) (id : Nat) (field : Field) (text : String) : Option State :=
  handleInputBlur (handleInputChange s id field text) id field

/-- The component after a 10-page file has been selected, a range added, and
`-2`, `3` typed into the fields of `Part 1` and `4`, `5` into those of
`Part 2`. -/
def sampleTyped : Option State :=
  (((typeInto (addSplitRange (handleFileChange initialState (some (sampleFile 10))))
        1 .start "-2").bind
      (fun s => typeInto s 1 .«end» "3")).bind
    (fun s => typeInto s 2 .start "4")).bind
  (fun s => typeInto s 2 .«end» "5")

/-- A PDF file of 3 pages. -/
def sampleShortFile : File :=
  { name := "short.pdf", size := 2048, type := "application/pdf"
    content := .ok ⟨(List.range 3).map (fun i => ⟨some (i + 101), 612, 792⟩)⟩ }

/-- A file of type `application/pdf` whose bytes are no PDF. -/
def sampleBrokenFile : File :=
  { name := "broken.pdf", size := 0, type := "application/pdf"
    content := .error "No PDF header found" }

end PDFSplitter

end PDFTools

/-! # Theorems -/

namespace PDFTools

/-! ## The codec -/

theorem pageAt_ofNat (srcPages : List PDFPage) (a : Nat) :
    pageAt srcPages (Int.ofNat a) = srcPages[a]? := by
  simp [pageAt]

theorem copyPages_range' (src : PDFDocument) (n : Nat) :
    ∀ a : Nat, a + n ≤ src.pages.length →
      src.copyPages ((List.range' a n).map Int.ofNat) = .ok ((src.pages.drop a).take n) := by
  induction n with
  | zero => intro a _; simp [PDFDocument.copyPages]
  | succ n ih =>
    intro a h
    have ha : a < src.pages.length := by omega
    have hstep := ih (a + 1) (by omega)
    rw [List.range'_succ, List.map_cons, PDFDocument.copyPages, pageAt_ofNat,
      List.getElem?_eq_getElem ha]
    simp only [hstep]
    rw [List.drop_eq_getElem_cons ha, List.take_succ_cons]

theorem copyPages_getPageIndices (pdf : PDFDocument) :
    pdf.copyPages pdf.getPageIndices = .ok pdf.pages := by
  have h := copyPages_range' pdf pdf.pages.length 0 (by omega)
  simpa [PDFDocument.getPageIndices, PDFDocument.getPageCount, List.range_eq_range'] using h

/-- `save()` leaves a document with pages as it is. -/
theorem save_of_ne_nil (doc : PDFDocument) (h : doc.pages ≠ []) : doc.save = doc := by
  have hlen : doc.pages.length ≠ 0 := by
    intro h0
    exact h (List.length_eq_zero.1 h0)
  simp [PDFDocument.save, PDFDocument.getPageCount, hlen]

/-- `save()` gives a document without pages the default page. -/
theorem save_of_eq_nil (doc : PDFDocument) (h : doc.pages = []) :
    doc.save = ⟨[defaultPage]⟩ := by
  simp [PDFDocument.save, PDFDocument.getPageCount, PDFDocument.addPage, h]

/-! ## The merge loop -/

namespace PDFMerger

theorem decodable_iff (pdfFile : PdfFile) :
    decodable pdfFile = true ↔ ∃ pdf, pdfFile.file.content = .ok pdf := by
  unfold decodable
  cases h : pdfFile.file.content <;> simp

theorem sourcePages_of_ok {pdfFile : PdfFile} {pdf : PDFDocument}
    (h : pdfFile.file.content = .ok pdf) : sourcePages pdfFile = pdf.pages := by
  simp [sourcePages, h]

/-- One iteration of the loop on a source that does not decode. -/
theorem mergeLoop_cons_error (sep : Bool) (n : Nat) (pdfFile : PdfFile) (files : List PdfFile)
    (i : Nat) (mergedPdf : PDFDocument) (calls : List CodecCall) (msg : String)
    (h : pdfFile.file.content = .error msg) :
    mergeLoop sep n (pdfFile :: files) i mergedPdf calls =
      (.error (.loadError msg), calls ++ [.load pdfFile.file.name]) := by
  simp [mergeLoop, PDFDocument.load, h]

/-- One iteration of the loop on a source that decodes, when no separator is due. -/
theorem mergeLoop_cons_plain (sep : Bool) (n : Nat) (pdfFile : PdfFile) (files : List PdfFile)
    (i : Nat) (mergedPdf : PDFDocument) (calls : List CodecCall) (pdf : PDFDocument)
    (h : pdfFile.file.content = .ok pdf) (hsep : (sep && decide (i < n - 1)) = false) :
    mergeLoop sep n (pdfFile :: files) i mergedPdf calls =
      mergeLoop sep n files (i + 1) (mergedPdf.addPages pdf.pages)
        (calls ++ [.load pdfFile.file.name, .copyPages pdf.getPageIndices]) := by
  rw [mergeLoop]
  simp only [PDFDocument.load, h, copyPages_getPageIndices, hsep]
  simp

/-- One iteration of the loop on a source that decodes and has a first page,
when a separator is due. -/
theorem mergeLoop_cons_separator (n : Nat) (pdfFile : PdfFile) (files : List PdfFile)
    (i : Nat) (mergedPdf : PDFDocument) (calls : List CodecCall) (firstPage : PDFPage)
    (pages : List PDFPage)
    (h : pdfFile.file.content = .ok ⟨firstPage :: pages⟩) (hi : i < n - 1) :
    mergeLoop true n (pdfFile :: files) i mergedPdf calls =
      mergeLoop true n files (i + 1)
        ((mergedPdf.addPages (firstPage :: pages)).addBlankPage firstPage.width firstPage.height)
        (calls ++ [.load pdfFile.file.name,
          .copyPages (PDFDocument.getPageIndices ⟨firstPage :: pages⟩)] ++ [.addPage]) := by
  rw [mergeLoop]
  simp only [PDFDocument.load, h, copyPages_getPageIndices]
  simp [hi, PDFDocument.getPage, getSize]

/-- One iteration of the loop on a source that decodes but has no page, when a
separator is due: `getPage(0)` is `undefined` and `getSize()` throws. -/
theorem mergeLoop_cons_noFirstPage (n : Nat) (pdfFile : PdfFile) (files : List PdfFile)
    (i : Nat) (mergedPdf : PDFDocument) (calls : List CodecCall)
    (h : pdfFile.file.content = .ok ⟨[]⟩) (hi : i < n - 1) :
    mergeLoop true n (pdfFile :: files) i mergedPdf calls =
      (.error (.typeError "getSize"),
        calls ++ [.load pdfFile.file.name, .copyPages []] ++ [.addPage]) := by
  rw [mergeLoop]
  simp only [PDFDocument.load, h, copyPages_getPageIndices]
  simp [hi, PDFDocument.getPage, getSize, PDFDocument.getPageCount, PDFDocument.getPageIndices]

/-- Without separators the loop appends the pages of every source, in order. -/
theorem mergeLoop_plain (n : Nat) (files : List PdfFile) :
    ∀ (i : Nat) (mergedPdf : PDFDocument) (calls : List CodecCall),
      (∀ f ∈ files, decodable f = true) →
      ∃ calls', mergeLoop false n files i mergedPdf calls =
        (.ok ⟨mergedPdf.pages ++ (files.map sourcePages).flatten⟩, calls') := by
  induction files with
  | nil => intro i mergedPdf calls _; exact ⟨calls, by simp [mergeLoop]⟩
  | cons f files ih =>
    intro i mergedPdf calls hdec
    obtain ⟨pdf, hpdf⟩ := (decodable_iff f).1 (hdec f (List.mem_cons_self _ _))
    obtain ⟨calls', h⟩ := ih (i + 1) (mergedPdf.addPages pdf.pages)
      (calls ++ [.load f.file.name, .copyPages pdf.getPageIndices])
      (fun g hg => hdec g (List.mem_cons_of_mem _ hg))
    refine ⟨calls', ?_⟩
    rw [mergeLoop_cons_plain false n f files i mergedPdf calls pdf hpdf (by simp), h]
    simp [PDFDocument.addPages, sourcePages_of_ok hpdf]

/-- A source that does not decode makes the loop throw, wherever it stands. -/
theorem mergeLoop_throws (sep : Bool) (n : Nat) (bad : PdfFile) (hbad : decodable bad = false)
    (files : List PdfFile) :
    ∀ (i : Nat) (mergedPdf : PDFDocument) (calls : List CodecCall), bad ∈ files →
      ∃ err calls', mergeLoop sep n files i mergedPdf calls = (.error err, calls') := by
  induction files with
  | nil => intro i mergedPdf calls h; simp at h
  | cons f files ih =>
    intro i mergedPdf calls hmem
    cases hf : f.file.content with
    | error msg => exact ⟨_, _, mergeLoop_cons_error sep n f files i mergedPdf calls msg hf⟩
    | ok pdf =>
      have hne : bad ≠ f := by
        intro heq
        rw [heq, decodable, hf] at hbad
        simp at hbad
      have hmem' : bad ∈ files := by
        rcases List.mem_cons.1 hmem with h | h
        · exact absurd h hne
        · exact h
      cases hsep : (sep && decide (i < n - 1)) with
      | false =>
        rw [mergeLoop_cons_plain sep n f files i mergedPdf calls pdf hf hsep]
        exact ih _ _ _ hmem'
      | true =>
        have hs : sep = true := by
          cases sep <;> simp_all
        have hi : i < n - 1 := by
          simpa [hs] using hsep
        subst hs
        obtain ⟨pages⟩ := pdf
        cases pages with
        | nil => exact ⟨_, _, mergeLoop_cons_noFirstPage n f files i mergedPdf calls hf hi⟩
        | cons firstPage pages =>
          rw [mergeLoop_cons_separator n f files i mergedPdf calls firstPage pages hf hi]
          exact ih _ _ _ hmem'

/-- With separators the loop succeeds when every source decodes and every source
but the last has a page, and then builds `withSeparators`. -/
theorem mergeLoop_separators (n : Nat) (files : List PdfFile) :
    ∀ (i : Nat) (mergedPdf : PDFDocument) (calls : List CodecCall),
      i + files.length = n →
      (∀ f ∈ files, decodable f = true) →
      (∀ f ∈ files.dropLast, sourcePages f ≠ []) →
      ∃ calls', mergeLoop true n files i mergedPdf calls =
        (.ok ⟨mergedPdf.pages ++ withSeparators (files.map sourcePages)⟩, calls') := by
  induction files with
  | nil => intro i mergedPdf calls _ _ _; exact ⟨calls, by simp [mergeLoop, withSeparators]⟩
  | cons f files ih =>
    intro i mergedPdf calls hn hdec hfirst
    obtain ⟨pdf, hpdf⟩ := (decodable_iff f).1 (hdec f (List.mem_cons_self _ _))
    cases files with
    | nil =>
      have hi : ¬ i < n - 1 := by simp at hn; omega
      refine ⟨calls ++ [.load f.file.name, .copyPages pdf.getPageIndices], ?_⟩
      rw [mergeLoop_cons_plain true n f [] i mergedPdf calls pdf hpdf (by simp [hi])]
      simp [mergeLoop, withSeparators, PDFDocument.addPages, sourcePages_of_ok hpdf]
    | cons g rest =>
      have hi : i < n - 1 := by simp at hn; omega
      have hf : sourcePages f ≠ [] := hfirst f (by simp [List.dropLast])
      rw [sourcePages_of_ok hpdf] at hf
      obtain ⟨pages⟩ := pdf
      cases pages with
      | nil => exact absurd rfl hf
      | cons firstPage pages =>
        obtain ⟨calls', h⟩ := ih (i + 1)
          ((mergedPdf.addPages (firstPage :: pages)).addBlankPage firstPage.width firstPage.height)
          (calls ++ [.load f.file.name,
            .copyPages (PDFDocument.getPageIndices ⟨firstPage :: pages⟩)] ++ [.addPage])
          (by simp at hn ⊢; omega)
          (fun x hx => hdec x (List.mem_cons_of_mem _ hx))
          (fun x hx => hfirst x (by simp [List.dropLast] at hx ⊢; exact Or.inr hx))
        refine ⟨calls', ?_⟩
        rw [mergeLoop_cons_separator n f (g :: rest) i mergedPdf calls firstPage pages hpdf hi, h]
        simp [withSeparators, separatorFor, PDFDocument.addPages, PDFDocument.addBlankPage,
          sourcePages_of_ok hpdf]

/-- With separators the loop succeeds only if every source decodes and every
source but the last has a page. -/
theorem mergeLoop_ok_inv (n : Nat) (files : List PdfFile) :
    ∀ (i : Nat) (mergedPdf out : PDFDocument) (calls calls' : List CodecCall),
      i + files.length = n →
      mergeLoop true n files i mergedPdf calls = (.ok out, calls') →
      (∀ f ∈ files, decodable f = true) ∧ (∀ f ∈ files.dropLast, sourcePages f ≠ []) := by
  induction files with
  | nil => intro i mergedPdf out calls calls' _ _; simp
  | cons f files ih =>
    intro i mergedPdf out calls calls' hn hok
    cases hf : f.file.content with
    | error msg =>
      rw [mergeLoop_cons_error true n f files i mergedPdf calls msg hf] at hok
      simp at hok
    | ok pdf =>
      have hdecf : decodable f = true := (decodable_iff f).2 ⟨pdf, hf⟩
      cases files with
      | nil =>
        refine ⟨?_, by simp⟩
        intro x hx
        simp at hx
        rw [hx]; exact hdecf
      | cons g rest =>
        have hi : i < n - 1 := by simp at hn; omega
        obtain ⟨pages⟩ := pdf
        cases pages with
        | nil =>
          rw [mergeLoop_cons_noFirstPage n f (g :: rest) i mergedPdf calls hf hi] at hok
          simp at hok
        | cons firstPage pages =>
          rw [mergeLoop_cons_separator n f (g :: rest) i mergedPdf calls firstPage pages hf hi]
            at hok
          obtain ⟨h1, h2⟩ := ih (i + 1) _ out _ calls' (by simp at hn ⊢; omega) hok
          constructor
          · intro x hx
            rcases List.mem_cons.1 hx with h | h
            · rw [h]; exact hdecf
            · exact h1 x h
          · intro x hx
            simp only [List.dropLast_cons₂, List.mem_cons] at hx
            rcases hx with h | h
            · rw [h, sourcePages_of_ok hf]; simp
            · exact h2 x h

theorem withSeparators_length (sources : List (List PDFPage)) :
    (withSeparators sources).length = (sources.map List.length).sum + (sources.length - 1) := by
  induction sources with
  | nil => simp [withSeparators]
  | cons pages rest ih =>
    cases rest with
    | nil => simp [withSeparators]
    | cons q rest =>
      simp only [withSeparators, List.length_append, List.length_cons, ih, List.map_cons,
        List.sum_cons]
      omega

theorem withSeparators_append (pre : List (List PDFPage)) (pages : List PDFPage)
    (post : List (List PDFPage)) (hpost : post ≠ []) :
    withSeparators (pre ++ pages :: post) =
      (pre.map (fun q => q ++ [separatorFor q])).flatten ++
        (pages ++ separatorFor pages :: withSeparators post) := by
  induction pre with
  | nil =>
    cases post with
    | nil => exact absurd rfl hpost
    | cons q post => simp [withSeparators]
  | cons p pre ih =>
    cases hpre : pre ++ pages :: post with
    | nil => simp at hpre
    | cons q rest =>
      rw [List.cons_append, hpre, withSeparators, ← hpre, ih]
      · simp
      · simp

theorem separated_prefix_length (pre : List (List PDFPage)) :
    ((pre.map (fun q => q ++ [separatorFor q])).flatten).length =
      (pre.map (fun q => q.length + 1)).sum := by
  induction pre with
  | nil => simp
  | cons p pre ih =>
    simp only [List.map_cons, List.flatten_cons, List.length_append, List.length_cons,
      List.length_nil, List.sum_cons, ih]

/-! ## `mergePDFs` -/

theorem mergePDFs_of_ok (s : State) (out : PDFDocument) (calls' : List CodecCall)
    (hne : s.pdfFiles ≠ [])
    (h : mergeLoop s.addBlankPages s.pdfFiles.length s.pdfFiles 0 PDFDocument.create
      (s.calls ++ [.create]) = (.ok out, calls')) :
    mergePDFs s =
      { s with
        isMerging := false
        error := none
        calls := calls' ++ [.save]
        downloads := s.downloads ++ [⟨finalFileName s.outputFileName, out.save⟩] } := by
  have hlen : s.pdfFiles.length ≠ 0 := by simpa using hne
  simp [mergePDFs, hlen, h]

theorem mergePDFs_of_error (s : State) (err : Thrown) (calls' : List CodecCall)
    (hne : s.pdfFiles ≠ [])
    (h : mergeLoop s.addBlankPages s.pdfFiles.length s.pdfFiles 0 PDFDocument.create
      (s.calls ++ [.create]) = (.error err, calls')) :
    mergePDFs s =
      { s with
        isMerging := false
        error := some "Error merging PDFs. Please try again."
        calls := calls'
        console := s.console ++ [("Error merging PDFs:", err)] } := by
  have hlen : s.pdfFiles.length ≠ 0 := by simpa using hne
  simp [mergePDFs, hlen, h]

/-- The loop only adds codec calls, and `save` is not among them. -/
theorem mergeLoop_calls (sep : Bool) (n : Nat) (files : List PdfFile) :
    ∀ (i : Nat) (mergedPdf : PDFDocument) (calls : List CodecCall),
      ∃ made, (mergeLoop sep n files i mergedPdf calls).2 = calls ++ made ∧
        CodecCall.save ∉ made := by
  induction files with
  | nil => intro i mergedPdf calls; exact ⟨[], by simp [mergeLoop]⟩
  | cons f files ih =>
    intro i mergedPdf calls
    cases hf : f.file.content with
    | error msg =>
      rw [mergeLoop_cons_error sep n f files i mergedPdf calls msg hf]
      exact ⟨[.load f.file.name], rfl, by simp⟩
    | ok pdf =>
      cases hsep : (sep && decide (i < n - 1)) with
      | false =>
        rw [mergeLoop_cons_plain sep n f files i mergedPdf calls pdf hf hsep]
        obtain ⟨made, h1, h2⟩ := ih (i + 1) (mergedPdf.addPages pdf.pages)
          (calls ++ [.load f.file.name, .copyPages pdf.getPageIndices])
        exact ⟨[.load f.file.name, .copyPages pdf.getPageIndices] ++ made,
          by rw [h1, List.append_assoc], by simp [h2]⟩
      | true =>
        have hs : sep = true := by
          cases sep <;> simp_all
        have hi : i < n - 1 := by
          simpa [hs] using hsep
        subst hs
        obtain ⟨pages⟩ := pdf
        cases pages with
        | nil =>
          rw [mergeLoop_cons_noFirstPage n f files i mergedPdf calls hf hi]
          exact ⟨[.load f.file.name, .copyPages []] ++ [.addPage], by simp, by simp⟩
        | cons firstPage pages =>
          rw [mergeLoop_cons_separator n f files i mergedPdf calls firstPage pages hf hi]
          obtain ⟨made, h1, h2⟩ := ih (i + 1)
            ((mergedPdf.addPages (firstPage :: pages)).addBlankPage firstPage.width
              firstPage.height)
            (calls ++ [.load f.file.name,
              .copyPages (PDFDocument.getPageIndices ⟨firstPage :: pages⟩)] ++ [.addPage])
          exact ⟨[.load f.file.name,
              .copyPages (PDFDocument.getPageIndices ⟨firstPage :: pages⟩)] ++ [.addPage] ++ made,
            by rw [h1]; simp, by simp [h2]⟩

/-- What `mergePDFs` does when some source does not decode. -/
theorem mergePDFs_of_undecodable (s : State) (bad : PdfFile) (hmem : bad ∈ s.pdfFiles)
    (hbad : decodable bad = false) :
    ∃ err made, CodecCall.save ∉ made ∧ mergePDFs s =
      { s with
        isMerging := false
        error := some "Error merging PDFs. Please try again."
        calls := s.calls ++ made
        console := s.console ++ [("Error merging PDFs:", err)] } := by
  obtain ⟨err, calls', h⟩ := mergeLoop_throws s.addBlankPages s.pdfFiles.length bad hbad
    s.pdfFiles 0 PDFDocument.create (s.calls ++ [.create]) hmem
  obtain ⟨made, h1, h2⟩ := mergeLoop_calls s.addBlankPages s.pdfFiles.length s.pdfFiles 0
    PDFDocument.create (s.calls ++ [.create])
  rw [h] at h1
  simp only at h1
  refine ⟨err, [.create] ++ made, by simp [h2], ?_⟩
  rw [mergePDFs_of_error s err calls' (List.ne_nil_of_mem hmem) h, h1, List.append_assoc]

/-- When `mergePDFs` hands out a document, the loop has succeeded and the
document is what `save()` makes of its result. -/
theorem mergePDFs_download_inv (s : State) (d : Download) (hne : s.pdfFiles ≠ [])
    (hout : (mergePDFs s).downloads = s.downloads ++ [d]) :
    ∃ out calls', mergeLoop s.addBlankPages s.pdfFiles.length s.pdfFiles 0 PDFDocument.create
      (s.calls ++ [.create]) = (.ok out, calls') ∧ d.document = out.save := by
  cases h : mergeLoop s.addBlankPages s.pdfFiles.length s.pdfFiles 0 PDFDocument.create
      (s.calls ++ [.create]) with
  | mk result calls' =>
    cases result with
    | error err =>
      rw [mergePDFs_of_error s err calls' hne h] at hout
      have hlen := congrArg List.length hout
      simp at hlen
    | ok out =>
      rw [mergePDFs_of_ok s out calls' hne h] at hout
      simp at hout
      exact ⟨out, calls', rfl, by rw [← hout]⟩

theorem withSeparators_ne_nil (sources : List (List PDFPage))
    (h : ∃ pages ∈ sources, pages ≠ []) : withSeparators sources ≠ [] := by
  obtain ⟨pages, hmem, hpages⟩ := h
  cases sources with
  | nil => simp at hmem
  | cons p rest =>
    cases rest with
    | nil =>
      simp at hmem
      rw [withSeparators, ← hmem]
      exact hpages
    | cons q rest => simp [withSeparators]

theorem flatten_ne_nil (sources : List (List PDFPage))
    (h : ∃ pages ∈ sources, pages ≠ []) : sources.flatten ≠ [] := by
  obtain ⟨pages, hmem, hpages⟩ := h
  intro hnil
  exact hpages (List.flatten_eq_nil_iff.1 hnil pages hmem)

theorem flatten_eq_nil (sources : List (List PDFPage))
    (h : ∀ pages ∈ sources, pages = []) : sources.flatten = [] :=
  List.flatten_eq_nil_iff.2 h

/-- C1, as the code has it. For a non-empty list of sources that all decode,
`mergePDFs` with separators disabled hands out one document and reports no
error. When at least one source has a page, the page sequence of the document is
the concatenation of the sources' page sequences, in collection order and,
within a source, in page order. When no source has a page, the document is not
the empty concatenation: it holds the one page that `save()` adds, a page
without content of 595.28 by 841.89 points. -/
theorem merge_order_preserving (s : State) (hne : s.pdfFiles ≠ [])
    (hdec : ∀ f ∈ s.pdfFiles, decodable f = true) (hsep : s.addBlankPages = false) :
    ((∃ f ∈ s.pdfFiles, sourcePages f ≠ []) →
        (mergePDFs s).downloads =
          s.downloads ++
            [⟨finalFileName s.outputFileName, ⟨(s.pdfFiles.map sourcePages).flatten⟩⟩]) ∧
      ((∀ f ∈ s.pdfFiles, sourcePages f = []) →
        (mergePDFs s).downloads =
          s.downloads ++
            [⟨finalFileName s.outputFileName,
              ⟨[{ content := none, width := 59528, height := 84189 }]⟩⟩]) ∧
      (mergePDFs s).error = none := by
  obtain ⟨calls', h⟩ := mergeLoop_plain s.pdfFiles.length s.pdfFiles 0 PDFDocument.create
    (s.calls ++ [.create]) hdec
  rw [← hsep] at h
  rw [mergePDFs_of_ok s _ calls' hne h]
  refine ⟨?_, ?_, rfl⟩
  · intro hpage
    have hpages : (s.pdfFiles.map sourcePages).flatten ≠ [] := by
      apply flatten_ne_nil
      obtain ⟨f, hf, hfp⟩ := hpage
      exact ⟨sourcePages f, List.mem_map.2 ⟨f, hf, rfl⟩, hfp⟩
    rw [save_of_ne_nil _ (by simpa [PDFDocument.create] using hpages)]
    simp [PDFDocument.create]
  · intro hnone
    have hpages : (s.pdfFiles.map sourcePages).flatten = [] := by
      apply flatten_eq_nil
      intro pages hmem
      obtain ⟨f, hf, rfl⟩ := List.mem_map.1 hmem
      exact hnone f hf
    rw [save_of_eq_nil _ (by simpa [PDFDocument.create] using hpages)]
    rfl

/-- C1, on the sources of the specification: `[S1, S2]` with `S1 = [a, b]` and
`S2 = [c]` gives `[a, b, c]`, and `[S2, S1]` gives `[c, a, b]`. -/
theorem merge_order_preserving_witness :
    (sampleState [sampleS1, sampleS2] false).pdfFiles ≠ [] ∧
      (∃ f ∈ [sampleS1, sampleS2], sourcePages f ≠ []) ∧
      (mergePDFs (sampleState [sampleS1, sampleS2] false)).downloads =
        [⟨"merged.pdf",
          ⟨[samplePage 1 612 792, samplePage 2 612 792, samplePage 3 595 842]⟩⟩] ∧
      (mergePDFs (sampleState [sampleS2, sampleS1] false)).downloads =
        [⟨"merged.pdf",
          ⟨[samplePage 3 595 842, samplePage 1 612 792, samplePage 2 612 792]⟩⟩] :=
  ⟨by decide, ⟨sampleS1, by decide, by decide⟩,
    (merge_order_preserving (sampleState [sampleS1, sampleS2] false) (by decide) (by decide)
      rfl).1 ⟨sampleS1, by decide, by decide⟩,
    (merge_order_preserving (sampleState [sampleS2, sampleS1] false) (by decide) (by decide)
      rfl).1 ⟨sampleS1, by decide, by decide⟩⟩

/-- C1 fails as stated: a single source that decodes to a document without
pages, separators disabled. The concatenation of the sources' page sequences is
empty, and the document handed out has one page, the blank page of the default
size that `save()` adds to a document without pages. -/
theorem merge_order_preserving_counterexample :
    (sampleState [sampleSource "empty.pdf" []] false).pdfFiles ≠ [] ∧
      [sampleSource "empty.pdf" []].all decodable = true ∧
      ([sampleSource "empty.pdf" []].map sourcePages).flatten = [] ∧
      (mergePDFs (sampleState [sampleSource "empty.pdf" []] false)).downloads =
        [⟨"merged.pdf", ⟨[{ content := none, width := 59528, height := 84189 }]⟩⟩] ∧
      (mergePDFs (sampleState [sampleSource "empty.pdf" []] false)).error = none := by
  decide

/-- Separators away from sources without pages. For a non-empty list of sources
that all decode, of which every one but the last has at least one page (and the
only one too, when there is only one), `mergePDFs` with separators enabled hands
out one document: the sources' pages in order, with exactly one blank page right
after the pages of each source that is not the last and none after the last,
hence (sum of the page counts) + (n - 1) pages; for a single source the document
is that source's pages, without separator. -/
theorem merge_separators (s : State) (hne : s.pdfFiles ≠ [])
    (hdec : ∀ f ∈ s.pdfFiles, decodable f = true)
    (hfirst : ∀ f ∈ s.pdfFiles.dropLast, sourcePages f ≠ [])
    (hpage : ∃ f ∈ s.pdfFiles, sourcePages f ≠ [])
    (hsep : s.addBlankPages = true) :
    (mergePDFs s).downloads =
        s.downloads ++
          [⟨finalFileName s.outputFileName, ⟨withSeparators (s.pdfFiles.map sourcePages)⟩⟩] ∧
      (withSeparators (s.pdfFiles.map sourcePages)).length =
        (s.pdfFiles.map (fun f => (sourcePages f).length)).sum + (s.pdfFiles.length - 1) ∧
      (∀ f, s.pdfFiles = [f] → withSeparators (s.pdfFiles.map sourcePages) = sourcePages f) ∧
      (mergePDFs s).error = none := by
  obtain ⟨calls', h⟩ := mergeLoop_separators s.pdfFiles.length s.pdfFiles 0 PDFDocument.create
    (s.calls ++ [.create]) (by simp) hdec hfirst
  rw [← hsep] at h
  rw [mergePDFs_of_ok s _ calls' hne h]
  have hpages : withSeparators (s.pdfFiles.map sourcePages) ≠ [] := by
    apply withSeparators_ne_nil
    obtain ⟨f, hf, hfp⟩ := hpage
    exact ⟨sourcePages f, List.mem_map.2 ⟨f, hf, rfl⟩, hfp⟩
  rw [save_of_ne_nil _ (by simpa [PDFDocument.create] using hpages)]
  refine ⟨by simp [PDFDocument.create], ?_, ?_, rfl⟩
  · rw [withSeparators_length]
    simp [Function.comp_def]
  · intro f hf
    simp [hf, withSeparators]

/-- Separators on the sources of the specification: `[S1 (2 pages), S2 (1 page)]`
gives 2 + 1 + 1 = 4 pages, the blank page right after the pages of `S1`. -/
theorem merge_separators_witness :
    (sampleState [sampleS1, sampleS2] true).pdfFiles ≠ [] ∧
      (mergePDFs (sampleState [sampleS1, sampleS2] true)).downloads =
        [⟨"merged.pdf",
          ⟨[samplePage 1 612 792, samplePage 2 612 792, blankPage 612 792,
            samplePage 3 595 842]⟩⟩] :=
  ⟨by decide,
    (merge_separators (sampleState [sampleS1, sampleS2] true) (by decide) (by decide)
      (by decide) ⟨sampleS1, by decide, by decide⟩ rfl).1⟩

/-- C2 fails in the code: a first source that decodes to a document without
pages, followed by `S2` (one page), separators enabled. The claim has an output
of 0 + 1 + 1 = 2 pages, a blank page followed by the page of `S2`. The code adds
the blank page (`addPage` is the last codec call), then reads the size of the
first page of the source: `getPage(0)` is `undefined`, `getSize()` throws the
`TypeError`, the merge ends in the `catch` block and no document is handed out:
`S2` is never decoded and `save` is never called. -/
theorem merge_separators_pageless_source :
    [sampleSource "empty.pdf" [], sampleS2].all decodable = true ∧
      (mergePDFs (sampleState [sampleSource "empty.pdf" [], sampleS2] true)).downloads = [] ∧
      (mergePDFs (sampleState [sampleSource "empty.pdf" [], sampleS2] true)).error =
        some "Error merging PDFs. Please try again." ∧
      (mergePDFs (sampleState [sampleSource "empty.pdf" [], sampleS2] true)).console =
        [("Error merging PDFs:", Thrown.typeError "getSize")] ∧
      (mergePDFs (sampleState [sampleSource "empty.pdf" [], sampleS2] true)).calls =
        [.create, .load "empty.pdf", .copyPages [], .addPage] := by
  decide

/-- C3. Every separator has the size of the first page of the source it
follows: when `mergePDFs`, separators enabled, hands out document `d` and `f` is
a source that is not the last, then `f` has a first page and the page of `d`
right after the pages of `f` (those of the sources before `f` and their
separators come first) is a page without content whose width is the width of
that first page and whose height is the height of that first page. -/
theorem separator_size (s : State) (pre post : List PdfFile) (f : PdfFile) (d : Download)
    (hfiles : s.pdfFiles = pre ++ f :: post) (hpost : post ≠ [])
    (hsep : s.addBlankPages = true)
    (hout : (mergePDFs s).downloads = s.downloads ++ [d]) :
    ∃ firstPage rest separator, sourcePages f = firstPage :: rest ∧
      d.document.pages[(pre.map (fun g => (sourcePages g).length + 1)).sum +
          (sourcePages f).length]? = some separator ∧
      separator.content = none ∧
      separator.width = firstPage.width ∧
      separator.height = firstPage.height := by
  have hne : s.pdfFiles ≠ [] := by rw [hfiles]; simp
  obtain ⟨out, calls', hloop, hsaved⟩ := mergePDFs_download_inv s d hne hout
  rw [hsep] at hloop
  obtain ⟨hdec, hfirst⟩ := mergeLoop_ok_inv s.pdfFiles.length s.pdfFiles 0 PDFDocument.create
    out (s.calls ++ [.create]) calls' (by simp) hloop
  obtain ⟨calls'', hloop'⟩ := mergeLoop_separators s.pdfFiles.length s.pdfFiles 0
    PDFDocument.create (s.calls ++ [.create]) (by simp) hdec hfirst
  rw [hloop] at hloop'
  have hdoc : out.pages = withSeparators (s.pdfFiles.map sourcePages) := by
    have h := congrArg (fun r => r.1) hloop'
    simp only [Except.ok.injEq] at h
    rw [h]
    simp [PDFDocument.create]
  have hf : sourcePages f ≠ [] := by
    apply hfirst
    rw [hfiles]
    obtain ⟨g, post', rfl⟩ := List.exists_cons_of_ne_nil hpost
    rw [List.dropLast_append_of_ne_nil _ (by simp)]
    simp [List.dropLast]
  have hpages' : out.pages ≠ [] := by
    rw [hdoc]
    apply withSeparators_ne_nil
    exact ⟨sourcePages f, List.mem_map.2 ⟨f, by rw [hfiles]; simp, rfl⟩, hf⟩
  rw [save_of_ne_nil out hpages'] at hsaved
  obtain ⟨firstPage, rest, hpages⟩ := List.exists_cons_of_ne_nil hf
  refine ⟨firstPage, rest, blankPage firstPage.width firstPage.height, hpages, ?_, rfl, rfl,
    rfl⟩
  have hlen : (pre.map (fun g => (sourcePages g).length + 1)).sum =
      ((((pre.map sourcePages).map (fun q => q ++ [separatorFor q])).flatten).length) := by
    rw [separated_prefix_length, List.map_map]
    rfl
  rw [hsaved, hdoc, hfiles, List.map_append, List.map_cons,
    withSeparators_append _ _ _ (by simpa using hpost), hlen]
  rw [List.getElem?_append_right (by omega)]
  rw [List.getElem?_append_right (by omega)]
  have hidx : ∀ a b : Nat, a + b - a - b = 0 := by intro a b; omega
  rw [hidx]
  simp [hpages, separatorFor]

/-- C3 on `[S2, S1, S2]`: the page after the two pages of `S1` (index 4: before it
come the page of `S2`, its separator and the pages of `S1`) is a page without
content of the size of the first page of `S1`, 612 x 792, not of the size
595 x 842 of the source that follows. -/
theorem separator_size_witness :
    (mergePDFs (sampleState [sampleS2, sampleS1, sampleS2] true)).downloads =
        [⟨"merged.pdf",
          ⟨[samplePage 3 595 842, { content := none, width := 595, height := 842 },
            samplePage 1 612 792, samplePage 2 612 792,
            { content := none, width := 612, height := 792 }, samplePage 3 595 842]⟩⟩] ∧
      ∃ separator : PDFPage,
        [samplePage 3 595 842, { content := none, width := 595, height := 842 },
          samplePage 1 612 792, samplePage 2 612 792,
          { content := none, width := 612, height := 792 }, samplePage 3 595 842][4]? =
            some separator ∧
        separator.content = none ∧ separator.width = 612 ∧ separator.height = 792 := by
  refine ⟨by decide, ?_⟩
  obtain ⟨firstPage, rest, separator, hpages, hat, hcontent, hwidth, hheight⟩ :=
    separator_size (sampleState [sampleS2, sampleS1, sampleS2] true) [sampleS2] [sampleS2]
      sampleS1
      ⟨"merged.pdf",
        ⟨[samplePage 3 595 842, { content := none, width := 595, height := 842 },
          samplePage 1 612 792, samplePage 2 612 792,
          { content := none, width := 612, height := 792 }, samplePage 3 595 842]⟩⟩
      rfl (by decide) rfl (by decide)
  have hfirst : firstPage = samplePage 1 612 792 := by
    have h := congrArg List.head? hpages
    simp [sourcePages, sampleS1, sampleSource] at h
    exact h.symm
  rw [hfirst] at hwidth hheight
  exact ⟨separator, hat, hcontent, hwidth, hheight⟩

/-- C4. On an empty source collection `mergePDFs` reports the empty-input error
and does nothing else: no download, no codec call (nothing is created, decoded
or saved), nothing logged, `isMerging` untouched. -/
theorem merge_empty_input (s : State) (hempty : s.pdfFiles = []) :
    mergePDFs s = { s with error := some "Please upload at least one PDF file" } ∧
      (mergePDFs s).downloads = s.downloads ∧
      (mergePDFs s).calls = s.calls ∧
      (mergePDFs s).console = s.console ∧
      (mergePDFs s).isMerging = s.isMerging := by
  simp [mergePDFs, hempty]

/-- C4 on a fresh component without sources. -/
theorem merge_empty_input_witness :
    (sampleState [] true).pdfFiles = [] ∧
      (mergePDFs (sampleState [] true)).error = some "Please upload at least one PDF file" ∧
      (mergePDFs (sampleState [] true)).downloads = [] ∧
      (mergePDFs (sampleState [] true)).calls = [] :=
  ⟨rfl, congrArg State.error (merge_empty_input (sampleState [] true) rfl).1,
    (merge_empty_input (sampleState [] true) rfl).2.1,
    (merge_empty_input (sampleState [] true) rfl).2.2.1⟩

/-- C5. Merge is all-or-nothing: when some source of the list does not decode,
wherever it stands, `mergePDFs` reports an error and hands out nothing: the
downloads are those from before, and `save` is not among the codec calls
made. -/
theorem merge_all_or_nothing (s : State) (bad : PdfFile) (hmem : bad ∈ s.pdfFiles)
    (hbad : decodable bad = false) :
    (mergePDFs s).downloads = s.downloads ∧
      (mergePDFs s).error = some "Error merging PDFs. Please try again." ∧
      ∃ made, (mergePDFs s).calls = s.calls ++ made ∧ CodecCall.save ∉ made := by
  obtain ⟨err, made, hsave, h⟩ := mergePDFs_of_undecodable s bad hmem hbad
  rw [h]
  exact ⟨rfl, rfl, made, rfl, hsave⟩

/-- C5 on `[S1, S2, broken]`: the pages of `S1` and `S2` have been copied when
the third source fails, and still nothing is handed out. -/
theorem merge_all_or_nothing_witness :
    sampleBrokenSource "broken.pdf" ∈ [sampleS1, sampleS2, sampleBrokenSource "broken.pdf"] ∧
      decodable (sampleBrokenSource "broken.pdf") = false ∧
      (mergePDFs (sampleState [sampleS1, sampleS2, sampleBrokenSource "broken.pdf"]
        false)).downloads = [] ∧
      (mergePDFs (sampleState [sampleS1, sampleS2, sampleBrokenSource "broken.pdf"]
        false)).error = some "Error merging PDFs. Please try again." :=
  ⟨by decide, by decide,
    (merge_all_or_nothing
      (sampleState [sampleS1, sampleS2, sampleBrokenSource "broken.pdf"] false)
      (sampleBrokenSource "broken.pdf") (by decide) (by decide)).1,
    (merge_all_or_nothing
      (sampleState [sampleS1, sampleS2, sampleBrokenSource "broken.pdf"] false)
      (sampleBrokenSource "broken.pdf") (by decide) (by decide)).2.1⟩

/-- C6, as the code has it. When a source fails to decode, the error `mergePDFs`
reports is the fixed message `Error merging PDFs. Please try again.`, whichever
source failed: any two failing merges report the same error. -/
theorem merge_error_message_fixed (s₁ s₂ : State) (bad₁ bad₂ : PdfFile)
    (hmem₁ : bad₁ ∈ s₁.pdfFiles) (hbad₁ : decodable bad₁ = false)
    (hmem₂ : bad₂ ∈ s₂.pdfFiles) (hbad₂ : decodable bad₂ = false) :
    (mergePDFs s₁).error = some "Error merging PDFs. Please try again." ∧
      (mergePDFs s₁).error = (mergePDFs s₂).error := by
  obtain ⟨err₁, made₁, _, h₁⟩ := mergePDFs_of_undecodable s₁ bad₁ hmem₁ hbad₁
  obtain ⟨err₂, made₂, _, h₂⟩ := mergePDFs_of_undecodable s₂ bad₂ hmem₂ hbad₂
  rw [h₁, h₂]
  exact ⟨rfl, rfl⟩

/-- C6 on two merges that fail on different sources, at different positions. -/
theorem merge_error_message_fixed_witness :
    sampleBrokenSource "first.pdf" ∈ [sampleBrokenSource "first.pdf", sampleS1] ∧
      sampleBrokenSource "second.pdf" ∈ [sampleS1, sampleBrokenSource "second.pdf"] ∧
      (mergePDFs (sampleState [sampleBrokenSource "first.pdf", sampleS1] false)).error =
        (mergePDFs (sampleState [sampleS1, sampleBrokenSource "second.pdf"] false)).error :=
  ⟨by decide, by decide,
    (merge_error_message_fixed
      (sampleState [sampleBrokenSource "first.pdf", sampleS1] false)
      (sampleState [sampleS1, sampleBrokenSource "second.pdf"] false)
      (sampleBrokenSource "first.pdf") (sampleBrokenSource "second.pdf")
      (by decide) (by decide) (by decide) (by decide)).2⟩

/-- C6 fails as stated: two merges that fail on different sources, the first of
`[first.pdf, S1]` and the second of `[S1, second.pdf]`, leave the same error
message and the same console entry: nothing reported tells them apart. -/
theorem merge_error_identity_counterexample :
    sampleBrokenSource "first.pdf" ≠ sampleBrokenSource "second.pdf" ∧
      decodable (sampleBrokenSource "first.pdf") = false ∧
      decodable (sampleBrokenSource "second.pdf") = false ∧
      decodable sampleS1 = true ∧
      (mergePDFs (sampleState [sampleBrokenSource "first.pdf", sampleS1] false)).error =
        (mergePDFs (sampleState [sampleS1, sampleBrokenSource "second.pdf"] false)).error ∧
      (mergePDFs (sampleState [sampleBrokenSource "first.pdf", sampleS1] false)).console =
        (mergePDFs (sampleState [sampleS1, sampleBrokenSource "second.pdf"] false)).console := by
  decide

/-! ## The download name of a merge -/

theorem jsTrim_data (s : String) :
    (jsTrim s).data = (s.data.dropWhile isJSWhiteSpace).rdropWhile isJSWhiteSpace := rfl

/-- A string that neither starts nor ends with white space is left alone by `trim`. -/
theorem jsTrim_eq_self (s : String)
    (hhead : ∀ a, s.data.head? = some a → isJSWhiteSpace a = false)
    (hlast : ∀ a, s.data.getLast? = some a → isJSWhiteSpace a = false) :
    jsTrim s = s := by
  apply String.ext
  rw [jsTrim_data]
  have hdrop : s.data.dropWhile isJSWhiteSpace = s.data := by
    cases hdata : s.data with
    | nil => rfl
    | cons a l =>
      have := hhead a (by rw [hdata]; rfl)
      simp [List.dropWhile_cons, this]
  rw [hdrop, List.rdropWhile_eq_self_iff]
  intro hl
  have := hlast (s.data.getLast hl) (List.getLast?_eq_getLast _ hl)
  simp [this]

theorem jsTrim_head (s : String) (a : Char) (h : (jsTrim s).data.head? = some a) :
    isJSWhiteSpace a = false := by
  rw [jsTrim_data] at h
  have hpre : (s.data.dropWhile isJSWhiteSpace).rdropWhile isJSWhiteSpace <+:
      s.data.dropWhile isJSWhiteSpace := List.rdropWhile_prefix _ _
  obtain ⟨t, ht⟩ := hpre
  have hnot := List.head?_dropWhile_not isJSWhiteSpace s.data
  rw [← ht] at hnot
  cases hr : (s.data.dropWhile isJSWhiteSpace).rdropWhile isJSWhiteSpace with
  | nil => rw [hr] at h; simp at h
  | cons b l =>
    rw [hr] at h hnot
    simp at h hnot
    rw [← h]; exact hnot

theorem jsTrim_last (s : String) (a : Char) (h : (jsTrim s).data.getLast? = some a) :
    isJSWhiteSpace a = false := by
  rw [jsTrim_data] at h
  have hne : (s.data.dropWhile isJSWhiteSpace).rdropWhile isJSWhiteSpace ≠ [] := by
    intro hnil; rw [hnil] at h; simp at h
  have hnot := List.rdropWhile_last_not isJSWhiteSpace _ hne
  rw [List.getLast?_eq_getLast _ hne] at h
  simp only [Option.some.injEq] at h
  rw [← h]
  simpa using hnot

theorem jsTrim_idempotent (s : String) : jsTrim (jsTrim s) = jsTrim s :=
  jsTrim_eq_self _ (jsTrim_head s) (jsTrim_last s)

/-- A trimmed, non-empty name followed by `.pdf` is left alone by `trim`. -/
theorem jsTrim_append_pdf (s : String) (hne : jsTrim s ≠ "") :
    jsTrim (jsTrim s ++ ".pdf") = jsTrim s ++ ".pdf" := by
  have hdata : (jsTrim s).data ≠ [] := by
    intro h
    apply hne
    apply String.ext
    rw [h]
  apply jsTrim_eq_self
  · intro a ha
    rw [String.data_append, List.head?_append_of_ne_nil _ hdata] at ha
    exact jsTrim_head s a ha
  · intro a ha
    have hpdf : (".pdf" : String).data = ['.', 'p', 'd'] ++ ['f'] := rfl
    rw [String.data_append, hpdf, ← List.append_assoc, List.getLast?_concat] at ha
    simp only [Option.some.injEq] at ha
    rw [← ha]
    decide

theorem jsEndsWith_append_self (s suffix : String) : jsEndsWith (s ++ suffix) suffix = true := by
  simp [jsEndsWith]

theorem finalFileName_of_trimmed (t : String) (htrim : jsTrim t = t) (hne : t ≠ "")
    (hends : jsEndsWith t ".pdf" = true) : finalFileName t = t := by
  simp [finalFileName, htrim, hne, hends]

theorem append_pdf_ne_empty (t : String) : t ++ ".pdf" ≠ "" := by
  intro h
  have := congrArg (fun x => x.data.length) h
  simp at this

/-- The name of a download made by `mergePDFs` is `finalFileName outputFileName`. -/
theorem mergePDFs_download_name (s : State) (d : Download)
    (hout : (mergePDFs s).downloads = s.downloads ++ [d]) :
    d.name = finalFileName s.outputFileName := by
  by_cases hne : s.pdfFiles = []
  · have h := (congrArg State.downloads (show mergePDFs s =
        { s with error := some "Please upload at least one PDF file" } by
          simp [mergePDFs, hne]))
    rw [h] at hout
    have hlen := congrArg List.length hout
    simp at hlen
  · cases h : mergeLoop s.addBlankPages s.pdfFiles.length s.pdfFiles 0 PDFDocument.create
        (s.calls ++ [.create]) with
    | mk result calls' =>
      cases result with
      | error err =>
        rw [mergePDFs_of_error s err calls' hne h] at hout
        have hlen := congrArg List.length hout
        simp at hlen
      | ok out =>
        rw [mergePDFs_of_ok s out calls' hne h] at hout
        simp at hout
        rw [← hout]

/-- C7. The download name of a merge: `merged.pdf` when the trimmed name is
empty, the trimmed name itself when it already ends with `.pdf`, and the trimmed
name followed by `.pdf` otherwise; the result always ends with `.pdf`,
normalising it again changes nothing, and it is the name of the download
`mergePDFs` makes. -/
theorem merge_output_name (outputFileName : String) :
    (jsTrim outputFileName = "" → finalFileName outputFileName = "merged.pdf") ∧
      (jsTrim outputFileName ≠ "" → jsEndsWith (jsTrim outputFileName) ".pdf" = true →
        finalFileName outputFileName = jsTrim outputFileName) ∧
      (jsTrim outputFileName ≠ "" → jsEndsWith (jsTrim outputFileName) ".pdf" = false →
        finalFileName outputFileName = jsTrim outputFileName ++ ".pdf") ∧
      jsEndsWith (finalFileName outputFileName) ".pdf" = true ∧
      finalFileName (finalFileName outputFileName) = finalFileName outputFileName ∧
      ∀ (s : State) (d : Download), s.outputFileName = outputFileName →
        (mergePDFs s).downloads = s.downloads ++ [d] → d.name = finalFileName outputFileName := by
  have hempty : jsTrim outputFileName = "" → finalFileName outputFileName = "merged.pdf" := by
    intro h
    simp only [finalFileName, h]
    decide
  have hkeep : jsTrim outputFileName ≠ "" → jsEndsWith (jsTrim outputFileName) ".pdf" = true →
      finalFileName outputFileName = jsTrim outputFileName := by
    intro hne hends
    simp [finalFileName, hne, hends]
  have hadd : jsTrim outputFileName ≠ "" → jsEndsWith (jsTrim outputFileName) ".pdf" = false →
      finalFileName outputFileName = jsTrim outputFileName ++ ".pdf" := by
    intro hne hends
    simp [finalFileName, hne, hends]
  refine ⟨hempty, hkeep, hadd, ?_, ?_, ?_⟩
  · by_cases hne : jsTrim outputFileName = ""
    · rw [hempty hne]; decide
    · cases hends : jsEndsWith (jsTrim outputFileName) ".pdf" with
      | true => rw [hkeep hne hends, hends]
      | false => rw [hadd hne hends]; exact jsEndsWith_append_self _ _
  · by_cases hne : jsTrim outputFileName = ""
    · rw [hempty hne]; decide
    · cases hends : jsEndsWith (jsTrim outputFileName) ".pdf" with
      | true =>
        rw [hkeep hne hends]
        exact finalFileName_of_trimmed _ (jsTrim_idempotent _) hne hends
      | false =>
        rw [hadd hne hends]
        exact finalFileName_of_trimmed _ (jsTrim_append_pdf _ hne) (append_pdf_ne_empty _)
          (jsEndsWith_append_self _ _)
  · intro s d hname hout
    rw [← hname]
    exact mergePDFs_download_name s d hout

/-- C7 on three names: blank, already ending with `.pdf`, and without it. -/
theorem merge_output_name_witness :
    finalFileName "  \t " = "merged.pdf" ∧
      finalFileName " report.pdf " = "report.pdf" ∧
      finalFileName " my report" = "my report.pdf" :=
  ⟨(merge_output_name "  \t ").1 (by decide),
    (merge_output_name " report.pdf ").2.1 (by decide) (by decide),
    (merge_output_name " my report").2.2.1 (by decide) (by decide)⟩

end PDFMerger

/-! ## The split loop -/

namespace PDFSplitter

theorem eligible_iff (totalPages : Nat) (range : SplitRange) :
    eligible totalPages range = true ↔
      range.start ≤ range.«end» ∧ range.start ≤ (totalPages : Int) ∧
        range.«end» ≤ (totalPages : Int) := by
  simp [eligible, and_assoc]

/-- For a range that passes the test and starts at page 1 or later, `pageIndices`
is `start - 1, ..., end - 1`: the inner guard drops nothing. -/
theorem pageIndices_eq_range' (pdf : PDFDocument) (totalPages : Nat) (range : SplitRange)
    (hN : totalPages = pdf.getPageCount) (helig : eligible totalPages range = true)
    (hstart : 1 ≤ range.start) :
    pageIndices pdf range =
      (List.range' (range.start - 1).toNat (range.«end» - range.start + 1).toNat).map
        Int.ofNat := by
  obtain ⟨h1, h2, h3⟩ := (eligible_iff totalPages range).1 helig
  have hn : (range.«end» - (range.start - 1)).toNat = (range.«end» - range.start + 1).toNat := by
    congr 1; omega
  unfold pageIndices
  rw [hn, List.filter_eq_self.2, List.range'_eq_map_range, List.map_map]
  · apply List.map_congr_left
    intro k _
    simp only [Function.comp_apply, Int.ofNat_eq_coe, Nat.cast_add]
    rw [Int.toNat_of_nonneg (by omega)]
  · intro i hi
    simp only [List.mem_map, List.mem_range] at hi
    obtain ⟨k, hk, rfl⟩ := hi
    simp only [decide_eq_true_eq]
    rw [← hN]
    have hk' : (k : Int) < range.«end» - range.start + 1 := by omega
    omega

/-- For such a range `copyPages` succeeds, with the pages `rangePages`. -/
theorem copyPages_pageIndices (pdf : PDFDocument) (totalPages : Nat) (range : SplitRange)
    (hN : totalPages = pdf.getPageCount) (helig : eligible totalPages range = true)
    (hstart : 1 ≤ range.start) :
    pdf.copyPages (pageIndices pdf range) = .ok (rangePages pdf range) := by
  obtain ⟨h1, h2, h3⟩ := (eligible_iff totalPages range).1 helig
  rw [pageIndices_eq_range' pdf totalPages range hN helig hstart]
  apply copyPages_range'
  rw [hN, PDFDocument.getPageCount] at h3
  omega

theorem rangePages_length (pdf : PDFDocument) (totalPages : Nat) (range : SplitRange)
    (hN : totalPages = pdf.getPageCount) (helig : eligible totalPages range = true)
    (hstart : 1 ≤ range.start) :
    ((rangePages pdf range).length : Int) = range.«end» - range.start + 1 := by
  obtain ⟨h1, h2, h3⟩ := (eligible_iff totalPages range).1 helig
  rw [hN, PDFDocument.getPageCount] at h3
  simp only [rangePages, List.length_take, List.length_drop]
  omega

/-- Such a range has a page, so `save()` serialises the document composed for it
as it is. -/
theorem save_rangePages (pdf : PDFDocument) (totalPages : Nat) (range : SplitRange)
    (hN : totalPages = pdf.getPageCount) (helig : eligible totalPages range = true)
    (hstart : 1 ≤ range.start) :
    (PDFDocument.create.addPages (rangePages pdf range)).save = ⟨rangePages pdf range⟩ := by
  have hlen := rangePages_length pdf totalPages range hN helig hstart
  obtain ⟨h1, _, _⟩ := (eligible_iff totalPages range).1 helig
  have hne : rangePages pdf range ≠ [] := by
    intro h
    rw [h] at hlen
    simp at hlen
    omega
  have hdoc : PDFDocument.create.addPages (rangePages pdf range) = ⟨rangePages pdf range⟩ := by
    simp [PDFDocument.addPages, PDFDocument.create]
  rw [hdoc]
  exact save_of_ne_nil _ hne

/-- The loop over a first stretch `pre` of ranges, all of which start at page 1
or later when they pass the test: their outputs are downloaded, in order, and
the loop goes on with what follows. -/
theorem splitLoop_append (pdf : PDFDocument) (totalPages : Nat)
    (hN : totalPages = pdf.getPageCount) (pre rest : List SplitRange) :
    ∀ (downloads : List Download) (calls : List CodecCall),
      (∀ q ∈ pre, eligible totalPages q = true → 1 ≤ q.start) →
      ∃ calls', splitLoop pdf totalPages (pre ++ rest) downloads calls =
        splitLoop pdf totalPages rest
          (downloads ++ (pre.filter (eligible totalPages)).map (rangeOutput pdf)) calls' := by
  induction pre with
  | nil => intro downloads calls _; exact ⟨calls, by simp⟩
  | cons r pre ih =>
    intro downloads calls hstart
    have hpre : ∀ q ∈ pre, eligible totalPages q = true → 1 ≤ q.start :=
      fun q hq => hstart q (List.mem_cons_of_mem _ hq)
    cases helig : eligible totalPages r with
    | false =>
      obtain ⟨calls', h⟩ := ih downloads calls hpre
      refine ⟨calls', ?_⟩
      rw [List.cons_append, splitLoop]
      simp only [helig, Bool.false_eq_true, if_false]
      rw [h, List.filter_cons]
      simp [helig]
    | true =>
      have hcopy := copyPages_pageIndices pdf totalPages r hN helig
        (hstart r (List.mem_cons_self _ _) helig)
      have hsave := save_rangePages pdf totalPages r hN helig
        (hstart r (List.mem_cons_self _ _) helig)
      obtain ⟨calls', h⟩ := ih
        (downloads ++ [⟨r.name ++ ".pdf", ⟨rangePages pdf r⟩⟩])
        (calls ++ [.create, .copyPages (pageIndices pdf r), .save]) hpre
      refine ⟨calls', ?_⟩
      rw [List.cons_append, splitLoop]
      simp only [helig, if_true, hcopy, hsave]
      rw [h, List.filter_cons]
      simp [helig, rangeOutput]

/-- The loop never takes back a download. -/
theorem splitLoop_downloads (pdf : PDFDocument) (totalPages : Nat) (ranges : List SplitRange) :
    ∀ (downloads : List Download) (calls : List CodecCall),
      ∃ more, (splitLoop pdf totalPages ranges downloads calls).2.1 = downloads ++ more := by
  induction ranges with
  | nil => intro downloads calls; exact ⟨[], by simp [splitLoop]⟩
  | cons r ranges ih =>
    intro downloads calls
    rw [splitLoop]
    cases helig : eligible totalPages r with
    | false =>
      simp only [Bool.false_eq_true, if_false]
      exact ih downloads calls
    | true =>
      simp only [if_true]
      cases hcopy : pdf.copyPages (pageIndices pdf r) with
      | error e => exact ⟨[], by simp⟩
      | ok copiedPages =>
        obtain ⟨more, h⟩ := ih
          (downloads ++ [⟨r.name ++ ".pdf", (PDFDocument.create.addPages copiedPages).save⟩])
          (calls ++ [.create, .copyPages (pageIndices pdf r), .save])
        exact ⟨[⟨r.name ++ ".pdf", (PDFDocument.create.addPages copiedPages).save⟩] ++ more,
          by rw [h, List.append_assoc]⟩

/-- The downloads after `splitPDF` are those the loop leaves, thrown or not. -/
theorem splitPDF_downloads (s : State) (pdfFile : File) (pdf : PDFDocument)
    (hfile : s.pdfFile = some pdfFile) (hload : pdfFile.content = .ok pdf)
    (hranges : s.splitRanges ≠ []) :
    (splitPDF s).downloads =
      (splitLoop pdf s.totalPages s.splitRanges s.downloads
        (s.calls ++ [.load pdfFile.name])).2.1 := by
  have hlen : s.splitRanges.length ≠ 0 := by simpa using hranges
  unfold splitPDF
  simp only [hfile, hlen, if_false, PDFDocument.load, hload]
  cases h : splitLoop pdf s.totalPages s.splitRanges s.downloads
      (s.calls ++ [.load pdfFile.name]) with
  | mk thrown rest =>
    obtain ⟨downloads, calls⟩ := rest
    cases thrown <;> rfl

/-- When the loop ends without a throw, `splitPDF` reports no error and logs
nothing. -/
theorem splitPDF_of_none (s : State) (pdfFile : File) (pdf : PDFDocument)
    (downloads : List Download) (calls : List CodecCall)
    (hfile : s.pdfFile = some pdfFile) (hload : pdfFile.content = .ok pdf)
    (hranges : s.splitRanges ≠ [])
    (h : splitLoop pdf s.totalPages s.splitRanges s.downloads
      (s.calls ++ [.load pdfFile.name]) = (none, downloads, calls)) :
    splitPDF s =
      { s with isProcessing := false, error := none, downloads := downloads, calls := calls } := by
  have hlen : s.splitRanges.length ≠ 0 := by simpa using hranges
  unfold splitPDF
  simp only [hfile, hlen, if_false, PDFDocument.load, hload, h]

/-! ## `splitPDF` -/

/-- What `splitPDF` does when every range that passes the test starts at page 1
or later. -/
theorem splitPDF_of_starts (s : State) (pdfFile : File) (pdf : PDFDocument)
    (hfile : s.pdfFile = some pdfFile) (hload : pdfFile.content = .ok pdf)
    (hN : s.totalPages = pdf.getPageCount) (hranges : s.splitRanges ≠ [])
    (hstart : ∀ r ∈ s.splitRanges, eligible s.totalPages r = true → 1 ≤ r.start) :
    ∃ calls, splitPDF s =
      { s with
        isProcessing := false
        error := none
        downloads :=
          s.downloads ++ (s.splitRanges.filter (eligible s.totalPages)).map (rangeOutput pdf)
        calls := calls } := by
  obtain ⟨calls, h⟩ := splitLoop_append pdf s.totalPages hN s.splitRanges [] s.downloads
    (s.calls ++ [.load pdfFile.name]) hstart
  rw [List.append_nil] at h
  exact ⟨calls, splitPDF_of_none s pdfFile pdf _ calls hfile hload hranges (by rw [h, splitLoop])⟩

theorem rangePages_getElem? (pdf : PDFDocument) (range : SplitRange) (k : Nat)
    (hk : (k : Int) < range.«end» - range.start + 1) :
    (rangePages pdf range)[k]? = pdf.pages[(range.start - 1).toNat + k]? := by
  simp only [rangePages]
  rw [List.getElem?_take_of_lt (by omega), List.getElem?_drop]

/-- C8, as the code has it. For a source of `N = totalPages` pages and a range
set in which every range that passes the test `start <= end`, `start <= N`,
`end <= N` starts at page 1 or later, `splitPDF` makes a download for exactly
the ranges that pass the test, in order; a range that fails it gets none, and
no error is reported or logged. -/
theorem split_eligibility (s : State) (pdfFile : File) (pdf : PDFDocument)
    (hfile : s.pdfFile = some pdfFile) (hload : pdfFile.content = .ok pdf)
    (hN : s.totalPages = pdf.getPageCount) (hranges : s.splitRanges ≠ [])
    (hstart : ∀ r ∈ s.splitRanges, eligible s.totalPages r = true → 1 ≤ r.start) :
    (∀ r : SplitRange, eligible s.totalPages r = true ↔
        r.start ≤ r.«end» ∧ r.start ≤ (s.totalPages : Int) ∧ r.«end» ≤ (s.totalPages : Int)) ∧
      (splitPDF s).downloads =
        s.downloads ++ (s.splitRanges.filter (eligible s.totalPages)).map (rangeOutput pdf) ∧
      (splitPDF s).error = none ∧
      (splitPDF s).console = s.console := by
  obtain ⟨calls, h⟩ := splitPDF_of_starts s pdfFile pdf hfile hload hN hranges hstart
  rw [h]
  exact ⟨fun r => eligible_iff s.totalPages r, rfl, rfl, rfl⟩

/-- C8 on the range of the specification: `{start = 6, end = 3}` on `N = 10`
gets no output and no error; next to it, `{start = 3, end = 5}` gets one. -/
theorem split_eligibility_witness :
    (sampleState 10 [⟨1, 6, 3, "Part 1"⟩]).splitRanges ≠ [] ∧
      (splitPDF (sampleState 10 [⟨1, 6, 3, "Part 1"⟩])).downloads = [] ∧
      (splitPDF (sampleState 10 [⟨1, 6, 3, "Part 1"⟩])).error = none ∧
      (splitPDF (sampleState 10 [⟨1, 6, 3, "Part 1"⟩, ⟨2, 3, 5, "Part 2"⟩])).downloads =
        [⟨"Part 2.pdf", ⟨[⟨some 3, 612, 792⟩, ⟨some 4, 612, 792⟩, ⟨some 5, 612, 792⟩]⟩⟩] :=
  ⟨by decide,
    (split_eligibility (sampleState 10 [⟨1, 6, 3, "Part 1"⟩]) (sampleFile 10)
      ⟨(List.range 10).map (fun i => ⟨some (i + 1), 612, 792⟩)⟩ rfl rfl rfl (by decide)
      (by decide)).2.1,
    (split_eligibility (sampleState 10 [⟨1, 6, 3, "Part 1"⟩]) (sampleFile 10)
      ⟨(List.range 10).map (fun i => ⟨some (i + 1), 612, 792⟩)⟩ rfl rfl rfl (by decide)
      (by decide)).2.2.1,
    (split_eligibility (sampleState 10 [⟨1, 6, 3, "Part 1"⟩, ⟨2, 3, 5, "Part 2"⟩])
      (sampleFile 10) ⟨(List.range 10).map (fun i => ⟨some (i + 1), 612, 792⟩)⟩ rfl rfl rfl
      (by decide) (by decide)).2.1⟩

/-- C8 fails as stated: on `N = 10` the range `{start = -2, end = 3}` passes the
test, yet `splitPDF` makes no download for it and reports an error: index `-3`
has no page and `copyPages` throws. -/
theorem split_eligibility_counterexample :
    eligible 10 ⟨1, -2, 3, "Part 1"⟩ = true ∧
      (splitPDF (sampleState 10 [⟨1, -2, 3, "Part 1"⟩])).downloads = [] ∧
      (splitPDF (sampleState 10 [⟨1, -2, 3, "Part 1"⟩])).error =
        some "Error splitting PDF. Please try again." ∧
      (splitPDF (sampleState 10 [⟨1, -2, 3, "Part 1"⟩])).console =
        [("Error splitting PDF:", Thrown.undefinedPage (-3))] := by
  decide

/-- C9, as the code has it. For a range `r` that passes the test and starts at
page 1 or later, when the ranges before it that pass the test do so too,
`splitPDF` downloads for `r` (after the downloads of those earlier ranges) a
document of exactly the source pages with 0-based indices
`start - 1, ..., end - 1`, in increasing order: `end - start + 1` pages. -/
theorem split_range_translation (s : State) (pdfFile : File) (pdf : PDFDocument)
    (pre post : List SplitRange) (r : SplitRange)
    (hfile : s.pdfFile = some pdfFile) (hload : pdfFile.content = .ok pdf)
    (hN : s.totalPages = pdf.getPageCount) (hranges : s.splitRanges = pre ++ r :: post)
    (helig : eligible s.totalPages r = true) (hstart : 1 ≤ r.start)
    (hpre : ∀ q ∈ pre, eligible s.totalPages q = true → 1 ≤ q.start) :
    (splitPDF s).downloads[s.downloads.length + (pre.filter (eligible s.totalPages)).length]? =
        some (rangeOutput pdf r) ∧
      pageIndices pdf r =
        (List.range (r.«end» - r.start + 1).toNat).map (fun (k : Nat) => r.start - 1 + (k : Int)) ∧
      (((rangeOutput pdf r).document.pages.length : Nat) : Int) = r.«end» - r.start + 1 ∧
      ∀ k : Nat, (k : Int) < r.«end» - r.start + 1 →
        ∃ page, pdf.pages[(r.start - 1).toNat + k]? = some page ∧
          (rangeOutput pdf r).document.pages[k]? = some page := by
  have hne : s.splitRanges ≠ [] := by rw [hranges]; simp
  have hpre' : ∀ q ∈ pre ++ [r], eligible s.totalPages q = true → 1 ≤ q.start := by
    intro q hq hq'
    rcases List.mem_append.1 hq with h | h
    · exact hpre q h hq'
    · simp at h; rw [h]; exact hstart
  obtain ⟨calls, hloop⟩ := splitLoop_append pdf s.totalPages hN (pre ++ [r]) post s.downloads
    (s.calls ++ [.load pdfFile.name]) hpre'
  obtain ⟨more, hmore⟩ := splitLoop_downloads pdf s.totalPages post
    (s.downloads ++ ((pre ++ [r]).filter (eligible s.totalPages)).map (rangeOutput pdf)) calls
  obtain ⟨h1, h2, h3⟩ := (eligible_iff s.totalPages r).1 helig
  refine ⟨?_, ?_, rangePages_length pdf s.totalPages r hN helig hstart, ?_⟩
  · rw [splitPDF_downloads s pdfFile pdf hfile hload hne, hranges,
      show pre ++ r :: post = (pre ++ [r]) ++ post by simp, hloop, hmore]
    simp only [List.filter_append, List.map_append, List.filter_cons, helig, if_true,
      List.filter_nil, List.map_cons, List.map_nil]
    simp only [List.append_assoc]
    rw [← List.append_assoc, List.getElem?_append_right (by simp)]
    simp
  · rw [pageIndices_eq_range' pdf s.totalPages r hN helig hstart, List.range'_eq_map_range,
      List.map_map]
    apply List.map_congr_left
    intro k _
    simp only [Function.comp_apply, Int.ofNat_eq_coe, Nat.cast_add]
    rw [Int.toNat_of_nonneg (by omega)]
  · intro k hk
    have hlt : (r.start - 1).toNat + k < pdf.pages.length := by
      rw [hN, PDFDocument.getPageCount] at h3
      omega
    refine ⟨pdf.pages[(r.start - 1).toNat + k], List.getElem?_eq_getElem hlt, ?_⟩
    show (rangePages pdf r)[k]? = _
    rw [rangePages_getElem? pdf r k hk, List.getElem?_eq_getElem hlt]

/-- C9 on the range of the specification: `N = 10`, `{start = 3, end = 5}` gives
pages 3, 4, 5, in that order. -/
theorem split_range_translation_witness :
    eligible 10 ⟨1, 3, 5, "Part 1"⟩ = true ∧
      (splitPDF (sampleState 10 [⟨1, 3, 5, "Part 1"⟩])).downloads[0]? =
        some ⟨"Part 1.pdf", ⟨[⟨some 3, 612, 792⟩, ⟨some 4, 612, 792⟩, ⟨some 5, 612, 792⟩]⟩⟩ ∧
      pageIndices ⟨(List.range 10).map (fun i => ⟨some (i + 1), 612, 792⟩)⟩
        ⟨1, 3, 5, "Part 1"⟩ = [2, 3, 4] :=
  ⟨by decide,
    (split_range_translation (sampleState 10 [⟨1, 3, 5, "Part 1"⟩]) (sampleFile 10)
      ⟨(List.range 10).map (fun i => ⟨some (i + 1), 612, 792⟩)⟩ [] [] ⟨1, 3, 5, "Part 1"⟩
      rfl rfl rfl rfl (by decide) (by decide) (by decide)).1,
    (split_range_translation (sampleState 10 [⟨1, 3, 5, "Part 1"⟩]) (sampleFile 10)
      ⟨(List.range 10).map (fun i => ⟨some (i + 1), 612, 792⟩)⟩ [] [] ⟨1, 3, 5, "Part 1"⟩
      rfl rfl rfl rfl (by decide) (by decide) (by decide)).2.1⟩

/-- C9 fails as stated: on `N = 10` the range `{start = -1, end = 1}` passes the
test, and `pageIndices` is `-2, -1, 0`; no source page has index `-2`, and
`splitPDF` makes no download where the claim has one of `end - start + 1 = 3`
pages. -/
theorem split_range_translation_counterexample :
    eligible 10 ⟨1, -1, 1, "Part 1"⟩ = true ∧
      pageIndices ⟨(List.range 10).map (fun i => ⟨some (i + 1), 612, 792⟩)⟩
        ⟨1, -1, 1, "Part 1"⟩ = [-2, -1, 0] ∧
      (splitPDF (sampleState 10 [⟨1, -1, 1, "Part 1"⟩])).downloads = [] := by
  decide

/-- C10, as the code has it. When every range that passes the test starts at
page 1 or later, the downloads `splitPDF` makes form a sequence with exactly
one output per range that passes the test, in the order of `splitRanges`; each
is named after its range and holds what `copyPages` returned for that range's
`pageIndices`. Ranges that overlap each get their own output. -/
theorem split_outputs_in_order (s : State) (pdfFile : File) (pdf : PDFDocument)
    (hfile : s.pdfFile = some pdfFile) (hload : pdfFile.content = .ok pdf)
    (hN : s.totalPages = pdf.getPageCount) (hranges : s.splitRanges ≠ [])
    (hstart : ∀ r ∈ s.splitRanges, eligible s.totalPages r = true → 1 ≤ r.start) :
    ∃ outputs, (splitPDF s).downloads = s.downloads ++ outputs ∧
      List.Forall₂
        (fun (r : SplitRange) (d : Download) =>
          d.name = r.name ++ ".pdf" ∧ pdf.copyPages (pageIndices pdf r) = .ok d.document.pages)
        (s.splitRanges.filter (eligible s.totalPages)) outputs := by
  obtain ⟨calls, h⟩ := splitPDF_of_starts s pdfFile pdf hfile hload hN hranges hstart
  refine ⟨(s.splitRanges.filter (eligible s.totalPages)).map (rangeOutput pdf), by rw [h], ?_⟩
  rw [List.forall₂_map_right_iff, List.forall₂_same]
  intro r hr
  obtain ⟨hmem, helig⟩ := List.mem_filter.1 hr
  exact ⟨rfl, copyPages_pageIndices pdf s.totalPages r hN helig (hstart r hmem helig)⟩

/-- C10 on three ranges of a 10-page source, the first two overlapping and the
third failing the test: two outputs, in the order of the ranges. -/
theorem split_outputs_in_order_witness :
    ∃ outputs,
      (splitPDF (sampleState 10
        [⟨1, 1, 3, "Part 1"⟩, ⟨2, 2, 4, "Part 2"⟩, ⟨3, 6, 3, "Part 3"⟩])).downloads =
        (sampleState 10
          [⟨1, 1, 3, "Part 1"⟩, ⟨2, 2, 4, "Part 2"⟩, ⟨3, 6, 3, "Part 3"⟩]).downloads ++ outputs ∧
      List.Forall₂
        (fun (r : SplitRange) (d : Download) =>
          d.name = r.name ++ ".pdf" ∧
            PDFDocument.copyPages ⟨(List.range 10).map (fun i => ⟨some (i + 1), 612, 792⟩)⟩
              (pageIndices ⟨(List.range 10).map (fun i => ⟨some (i + 1), 612, 792⟩)⟩ r) =
              .ok d.document.pages)
        ((sampleState 10
          [⟨1, 1, 3, "Part 1"⟩, ⟨2, 2, 4, "Part 2"⟩, ⟨3, 6, 3, "Part 3"⟩]).splitRanges.filter
            (eligible 10))
        outputs :=
  split_outputs_in_order
    (sampleState 10 [⟨1, 1, 3, "Part 1"⟩, ⟨2, 2, 4, "Part 2"⟩, ⟨3, 6, 3, "Part 3"⟩])
    (sampleFile 10) ⟨(List.range 10).map (fun i => ⟨some (i + 1), 612, 792⟩)⟩ rfl rfl rfl
    (by decide) (by decide)

/-- C10 fails as stated: on `N = 10` the three ranges `{1, 2}`, `{-2, 3}`,
`{1, 1}` all pass the test, but `splitPDF` makes one download only, that of the
first: the second makes `copyPages` throw, which ends the loop. -/
theorem split_outputs_in_order_counterexample :
    ([⟨1, 1, 2, "Part 1"⟩, ⟨2, -2, 3, "Part 2"⟩, ⟨3, 1, 1, "Part 3"⟩] :
        List SplitRange).filter (eligible 10) =
        [⟨1, 1, 2, "Part 1"⟩, ⟨2, -2, 3, "Part 2"⟩, ⟨3, 1, 1, "Part 3"⟩] ∧
      (splitPDF (sampleState 10
        [⟨1, 1, 2, "Part 1"⟩, ⟨2, -2, 3, "Part 2"⟩, ⟨3, 1, 1, "Part 3"⟩])).downloads =
        [⟨"Part 1.pdf", ⟨[⟨some 1, 612, 792⟩, ⟨some 2, 612, 792⟩]⟩⟩] := by
  decide

end PDFSplitter

/-! ## The name of a split download, and a failing range -/

namespace PDFSplitter

/-- C11 fails on the code. A range named `chapter1.pdf`, which already ends with
`.pdf`, is downloaded as `chapter1.pdf.pdf`: `splitPDF` appends the extension
without looking at the name. -/
theorem split_output_name_doubled :
    eligible 10 ⟨1, 1, 2, "chapter1.pdf"⟩ = true ∧
      jsEndsWith "chapter1.pdf" ".pdf" = true ∧
      (splitPDF (sampleState 10 [⟨1, 1, 2, "chapter1.pdf"⟩])).downloads.map (fun d => d.name) =
        ["chapter1.pdf.pdf"] := by
  decide

/-- When the loop ends with a throw, `splitPDF` reports and logs it. -/
theorem splitPDF_of_some (s : State) (pdfFile : File) (pdf : PDFDocument) (err : Thrown)
    (downloads : List Download) (calls : List CodecCall)
    (hfile : s.pdfFile = some pdfFile) (hload : pdfFile.content = .ok pdf)
    (hranges : s.splitRanges ≠ [])
    (h : splitLoop pdf s.totalPages s.splitRanges s.downloads
      (s.calls ++ [.load pdfFile.name]) = (some err, downloads, calls)) :
    splitPDF s =
      { s with
        isProcessing := false
        error := some "Error splitting PDF. Please try again."
        downloads := downloads
        calls := calls
        console := s.console ++ [("Error splitting PDF:", err)] } := by
  have hlen : s.splitRanges.length ≠ 0 := by simpa using hranges
  unfold splitPDF
  simp only [hfile, hlen, if_false, PDFDocument.load, hload, h]

/-- C12, as the code has it. When composing the output of an eligible range
fails (`copyPages` throws for it), `splitPDF` stops there: the outputs of the
eligible ranges before it have been downloaded, none is produced for the
failing range or for any range after it, and the failure is reported once, for
the whole split. -/
theorem split_failure_aborts (s : State) (pdfFile : File) (pdf : PDFDocument)
    (pre post : List SplitRange) (r : SplitRange) (err : Thrown)
    (hfile : s.pdfFile = some pdfFile) (hload : pdfFile.content = .ok pdf)
    (hN : s.totalPages = pdf.getPageCount) (hranges : s.splitRanges = pre ++ r :: post)
    (hpre : ∀ q ∈ pre, eligible s.totalPages q = true → 1 ≤ q.start)
    (helig : eligible s.totalPages r = true)
    (hfail : pdf.copyPages (pageIndices pdf r) = .error err) :
    (splitPDF s).downloads =
        s.downloads ++ (pre.filter (eligible s.totalPages)).map (rangeOutput pdf) ∧
      (splitPDF s).error = some "Error splitting PDF. Please try again." ∧
      (splitPDF s).console = s.console ++ [("Error splitting PDF:", err)] := by
  have hne : s.splitRanges ≠ [] := by rw [hranges]; simp
  obtain ⟨calls, hloop⟩ := splitLoop_append pdf s.totalPages hN pre (r :: post) s.downloads
    (s.calls ++ [.load pdfFile.name]) hpre
  have hstep : splitLoop pdf s.totalPages (r :: post)
      (s.downloads ++ (pre.filter (eligible s.totalPages)).map (rangeOutput pdf)) calls =
      (some err, s.downloads ++ (pre.filter (eligible s.totalPages)).map (rangeOutput pdf),
        calls ++ [.create, .copyPages (pageIndices pdf r)]) := by
    rw [splitLoop]
    simp only [helig, if_true, hfail]
  rw [splitPDF_of_some s pdfFile pdf err _ _ hfile hload hne
    (by rw [hranges, hloop, hstep])]
  exact ⟨rfl, rfl, rfl⟩

/-- C12 on three ranges of a 10-page source: `{1, 2}` is downloaded, `{-2, 3}`
fails, and `{1, 1}` after it gets nothing. -/
theorem split_failure_aborts_witness :
    eligible 10 ⟨2, -2, 3, "Part 2"⟩ = true ∧
      (splitPDF (sampleState 10
        [⟨1, 1, 2, "Part 1"⟩, ⟨2, -2, 3, "Part 2"⟩, ⟨3, 1, 1, "Part 3"⟩])).downloads =
        [⟨"Part 1.pdf", ⟨[⟨some 1, 612, 792⟩, ⟨some 2, 612, 792⟩]⟩⟩] ∧
      (splitPDF (sampleState 10
        [⟨1, 1, 2, "Part 1"⟩, ⟨2, -2, 3, "Part 2"⟩, ⟨3, 1, 1, "Part 3"⟩])).error =
        some "Error splitting PDF. Please try again." :=
  ⟨by decide,
    (split_failure_aborts
      (sampleState 10 [⟨1, 1, 2, "Part 1"⟩, ⟨2, -2, 3, "Part 2"⟩, ⟨3, 1, 1, "Part 3"⟩])
      (sampleFile 10) ⟨(List.range 10).map (fun i => ⟨some (i + 1), 612, 792⟩)⟩
      [⟨1, 1, 2, "Part 1"⟩] [⟨3, 1, 1, "Part 3"⟩] ⟨2, -2, 3, "Part 2"⟩
      (Thrown.undefinedPage (-3)) rfl rfl rfl rfl (by decide) (by decide) (by decide)).1,
    (split_failure_aborts
      (sampleState 10 [⟨1, 1, 2, "Part 1"⟩, ⟨2, -2, 3, "Part 2"⟩, ⟨3, 1, 1, "Part 3"⟩])
      (sampleFile 10) ⟨(List.range 10).map (fun i => ⟨some (i + 1), 612, 792⟩)⟩
      [⟨1, 1, 2, "Part 1"⟩] [⟨3, 1, 1, "Part 3"⟩] ⟨2, -2, 3, "Part 2"⟩
      (Thrown.undefinedPage (-3)) rfl rfl rfl rfl (by decide) (by decide) (by decide)).2.1⟩

/-- C12 fails as stated: of the two eligible ranges `{-2, 3}` and `{4, 5}` of a
10-page source the first fails to compose; composing the second would succeed
(`copyPages` returns pages 4 and 5 for it), yet `splitPDF` produces no output
for it. -/
theorem split_failure_isolation_counterexample :
    ([⟨1, -2, 3, "Part 1"⟩, ⟨2, 4, 5, "Part 2"⟩] : List SplitRange).all (eligible 10) = true ∧
      PDFDocument.copyPages ⟨(List.range 10).map (fun i => ⟨some (i + 1), 612, 792⟩)⟩
        (pageIndices ⟨(List.range 10).map (fun i => ⟨some (i + 1), 612, 792⟩)⟩
          ⟨1, -2, 3, "Part 1"⟩) = .error (Thrown.undefinedPage (-3)) ∧
      PDFDocument.copyPages ⟨(List.range 10).map (fun i => ⟨some (i + 1), 612, 792⟩)⟩
        (pageIndices ⟨(List.range 10).map (fun i => ⟨some (i + 1), 612, 792⟩)⟩
          ⟨2, 4, 5, "Part 2"⟩) = .ok [⟨some 4, 612, 792⟩, ⟨some 5, 612, 792⟩] ∧
      (splitPDF (sampleState 10 [⟨1, -2, 3, "Part 1"⟩, ⟨2, 4, 5, "Part 2"⟩])).downloads = [] := by
  decide

end PDFSplitter

/-! ## The range set -/

namespace PDFSplitter

/-- Selecting a PDF file that decodes seeds the range set with `Part 1`. -/
theorem handleFileChange_of_ok (s : State) (file : File) (pdf : PDFDocument)
    (htype : file.type = "application/pdf") (hload : file.content = .ok pdf) :
    (handleFileChange s (some file)).splitRanges = [⟨1, 1, pdf.getPageCount, "Part 1"⟩] ∧
      (handleFileChange s (some file)).totalPages = pdf.getPageCount := by
  simp [handleFileChange, handleFileChangeEnd, htype, PDFDocument.load, hload]

theorem addSplitRange_splitRanges (s : State) :
    (addSplitRange s).splitRanges =
      s.splitRanges ++
        [⟨s.splitRanges.length + 1, 1, s.totalPages,
          "Part " ++ toString (s.splitRanges.length + 1)⟩] := rfl

/-- After `k` adds and no remove, the ranges are `Part 1`, ..., `Part (k + 1)`. -/
theorem iterate_addSplitRange (s : State) (n : Nat)
    (hseed : s.splitRanges = [⟨1, 1, n, "Part 1"⟩]) (hN : s.totalPages = n) (k : Nat) :
    (Nat.iterate addSplitRange k s).splitRanges =
        (List.range (k + 1)).map
          (fun i => (⟨i + 1, 1, n, "Part " ++ toString (i + 1)⟩ : SplitRange)) ∧
      (Nat.iterate addSplitRange k s).totalPages = n := by
  induction k with
  | zero => exact ⟨by rw [Function.iterate_zero, id, hseed]; rfl, hN⟩
  | succ k ih =>
    obtain ⟨h1, h2⟩ := ih
    rw [Function.iterate_succ_apply']
    refine ⟨?_, h2⟩
    rw [addSplitRange_splitRanges, h1, h2, List.range_succ (k + 1), List.map_append]
    simp

/-- Adds without a remove. `addSplitRange` appends, at the end of the range
set, a range with `start = 1` and `end = totalPages` whose name is `Part c`,
where `c` is the number of ranges the set holds once the range is added; when
every change since the seeding was an add, `c` is the running count of ranges
ever added, the seeded `Part 1` included. -/
theorem add_split_range (s : State) :
    (addSplitRange s).splitRanges =
        s.splitRanges ++
          [⟨s.splitRanges.length + 1, 1, s.totalPages,
            "Part " ++ toString (s.splitRanges.length + 1)⟩] ∧
      (addSplitRange s).splitRanges.length = s.splitRanges.length + 1 ∧
      ∀ (file : File) (pdf : PDFDocument) (k : Nat),
        file.type = "application/pdf" → file.content = .ok pdf →
        (Nat.iterate addSplitRange k (handleFileChange s (some file))).splitRanges =
          (List.range (k + 1)).map
            (fun i => (⟨i + 1, 1, pdf.getPageCount, "Part " ++ toString (i + 1)⟩ : SplitRange)) := by
  refine ⟨rfl, by simp [addSplitRange_splitRanges], ?_⟩
  intro file pdf k htype hload
  obtain ⟨h1, h2⟩ := handleFileChange_of_ok s file pdf htype hload
  exact (iterate_addSplitRange _ pdf.getPageCount h1 h2 k).1

/-- A 10-page file and two adds: `Part 1`, `Part 2`, `Part 3`, each spanning
pages 1 to 10. -/
theorem add_split_range_witness :
    (Nat.iterate addSplitRange 2 (handleFileChange initialState (some (sampleFile 10)))).splitRanges =
      [⟨1, 1, 10, "Part 1"⟩, ⟨2, 1, 10, "Part 2"⟩, ⟨3, 1, 10, "Part 3"⟩] :=
  (add_split_range initialState).2.2 (sampleFile 10)
    ⟨(List.range 10).map (fun i => ⟨some (i + 1), 612, 792⟩)⟩ 2 rfl rfl

/-- C13 fails on the code. After the seeding of a 10-page file (`Part 1`), an
add (`Part 2`), the removal of `Part 1` and another add, the new range is
appended at the end with `start = 1` and `end = 10`, it is the third range ever
added to the set, and its name is `Part 2`: the name number is
`splitRanges.length + 1 = 2`, the number the range before it, still in the set,
has received. -/
theorem part_name_reused :
    (addSplitRange (handleFileChange initialState (some (sampleFile 10)))).splitRanges =
        [⟨1, 1, 10, "Part 1"⟩, ⟨2, 1, 10, "Part 2"⟩] ∧
      (removeSplitRange (addSplitRange (handleFileChange initialState (some (sampleFile 10))))
        1).splitRanges = [⟨2, 1, 10, "Part 2"⟩] ∧
      (addSplitRange (removeSplitRange
        (addSplitRange (handleFileChange initialState (some (sampleFile 10)))) 1)).splitRanges =
        [⟨2, 1, 10, "Part 2"⟩, ⟨2, 1, 10, "Part 2"⟩] ∧
      (addSplitRange (removeSplitRange
        (addSplitRange (handleFileChange initialState (some (sampleFile 10)))) 1)).splitRanges.map
          (fun r => r.name) ≠ ["Part 2", "Part 3"] := by
  decide

/-- C14 fails on the code. After the seeding, an add, the removal of the range
with id 1 and another add, the set holds two ranges with id 2: the second add
took `splitRanges.length + 1 = 2` for its id, which the first add had taken. -/
theorem range_ids_collide :
    (addSplitRange (handleFileChange initialState (some (sampleFile 10)))).splitRanges.map
        (fun r => r.id) = [1, 2] ∧
      (addSplitRange (removeSplitRange
        (addSplitRange (handleFileChange initialState (some (sampleFile 10)))) 1)).splitRanges.map
          (fun r => r.id) = [2, 2] ∧
      ¬ ((addSplitRange (removeSplitRange
        (addSplitRange (handleFileChange initialState (some (sampleFile 10)))) 1)).splitRanges.map
          (fun r => r.id)).Nodup := by
  decide

end PDFSplitter

/-! ## Committing a page number -/

/-- A number below `2 ^ k` has at most `k` binary digits. -/
theorem bitLength_le (fuel : Nat) : ∀ (n k : Nat), n < 2 ^ k → bitLength fuel n ≤ k := by
  induction fuel with
  | zero => intro n k _; simp [bitLength]
  | succ fuel ih =>
    intro n k hn
    rw [bitLength]
    by_cases h0 : n = 0
    · simp [h0]
    · rw [if_neg h0]
      cases k with
      | zero =>
        simp at hn
        exact absurd hn h0
      | succ k =>
        have hhalf : n / 2 < 2 ^ k := by
          rw [pow_succ] at hn
          omega
        have := ih (n / 2) k hhalf
        omega

/-- A natural number below `2^53` is a double. -/
theorem roundToDouble_of_lt (n : Nat) (hn : n < 9007199254740992) : roundToDouble n = some n := by
  have h := bitLength_le n n 53 (by norm_num; exact hn)
  simp [roundToDouble, h]

/-- An integer of magnitude below `2^53` is its own number value. -/
theorem toNumber_of_lt (value : Int) (hlow : -9007199254740992 < value)
    (hhigh : value < 9007199254740992) : toNumber value = .finite value := by
  unfold toNumber
  rw [roundToDouble_of_lt value.natAbs (by omega)]
  simp only []
  by_cases hneg : value < 0
  · rw [if_pos hneg]
    congr 1
    omega
  · rw [if_neg hneg]
    congr 1
    omega

theorem bitLength_zero (fuel : Nat) : bitLength fuel 0 = 0 := by
  cases fuel <;> simp [bitLength]

/-- The binary digits of a positive number: `2 ^ (bits - 1) <= n < 2 ^ bits`. -/
theorem bitLength_bounds (fuel : Nat) :
    ∀ n : Nat, 0 < n → n < 2 ^ fuel →
      1 ≤ bitLength fuel n ∧ 2 ^ (bitLength fuel n - 1) ≤ n ∧ n < 2 ^ bitLength fuel n := by
  induction fuel with
  | zero =>
    intro n hn hfuel
    simp at hfuel
    omega
  | succ fuel ih =>
    intro n hn hfuel
    have h0 : n ≠ 0 := by omega
    rw [bitLength, if_neg h0]
    by_cases hhalf : n / 2 = 0
    · rw [hhalf, bitLength_zero]
      have h1 : n = 1 := by omega
      subst h1
      simp
    · have hlt : n / 2 < 2 ^ fuel := by
        rw [pow_succ] at hfuel
        omega
      obtain ⟨hb, hlow, hhigh⟩ := ih (n / 2) (by omega) hlt
      refine ⟨by omega, ?_, ?_⟩
      · have hpow : 2 ^ (bitLength fuel (n / 2) + 1 - 1) =
            2 * 2 ^ (bitLength fuel (n / 2) - 1) := by
          have : bitLength fuel (n / 2) + 1 - 1 = (bitLength fuel (n / 2) - 1) + 1 := by omega
          rw [this, pow_succ]
          ring
        rw [hpow]
        omega
      · rw [pow_succ]
        omega

/-- The number `roundToDouble` gives for `n >= 2^53` is a double, `q * 2 ^ k`
with a significand `q` of 53 binary digits (or `2^53` itself), it is within half
a step `2 ^ k` of `n`, and when it is exactly half a step away, `q` is even. -/
theorem roundToDouble_nearest (n m : Nat) (hn : 9007199254740992 ≤ n)
    (h : roundToDouble n = some m) :
    ∃ k q : Nat, m = q * 2 ^ k ∧ 4503599627370496 ≤ q ∧ q ≤ 9007199254740992 ∧
      2 * (m - n) ≤ 2 ^ k ∧ 2 * (n - m) ≤ 2 ^ k ∧
      ((2 * (m - n) = 2 ^ k ∨ 2 * (n - m) = 2 ^ k) → q % 2 = 0) := by
  obtain ⟨_, hlow, hhigh⟩ := bitLength_bounds n n (by omega) (Nat.lt_two_pow n)
  have hbits : 53 < bitLength n n := by
    by_contra hle
    have hpow : 2 ^ bitLength n n ≤ 2 ^ 53 := Nat.pow_le_pow_right (by norm_num) (by omega)
    have h53 : (2 : Nat) ^ 53 = 9007199254740992 := by norm_num
    omega
  obtain ⟨k, hk⟩ : ∃ k, bitLength n n = k + 54 := ⟨bitLength n n - 54, by omega⟩
  have hunit : 1 <<< (bitLength n n - 53) = 2 ^ (k + 1) := by
    rw [Nat.one_shiftLeft]
    congr 1
    omega
  have hupos : 0 < 2 ^ (k + 1) := Nat.pow_pos (by norm_num)
  have hlow' : 4503599627370496 * 2 ^ (k + 1) ≤ n := by
    have : 2 ^ (bitLength n n - 1) = 4503599627370496 * 2 ^ (k + 1) := by
      rw [hk, show k + 54 - 1 = 52 + (k + 1) by omega, pow_add]
      norm_num
    omega
  have hhigh' : n < 9007199254740992 * 2 ^ (k + 1) := by
    have : 2 ^ bitLength n n = 9007199254740992 * 2 ^ (k + 1) := by
      rw [hk, show k + 54 = 53 + (k + 1) by omega, pow_add]
      norm_num
    omega
  have hq1 : 4503599627370496 ≤ n / 2 ^ (k + 1) := (Nat.le_div_iff_mul_le hupos).2 hlow'
  have hq2 : n / 2 ^ (k + 1) < 9007199254740992 := (Nat.div_lt_iff_lt_mul hupos).2 hhigh'
  have hle : n / 2 ^ (k + 1) * 2 ^ (k + 1) ≤ n := Nat.div_mul_le_self n _
  have hlt : n < n / 2 ^ (k + 1) * 2 ^ (k + 1) + 2 ^ (k + 1) := by
    have := Nat.lt_div_mul_add (a := n) hupos
    exact this
  have hsucc : n / 2 ^ (k + 1) * 2 ^ (k + 1) + 2 ^ (k + 1) =
      (n / 2 ^ (k + 1) + 1) * 2 ^ (k + 1) := by ring
  unfold roundToDouble at h
  simp only [show ¬ bitLength n n ≤ 53 by omega, if_false, hunit] at h
  generalize n / 2 ^ (k + 1) = q at h hq1 hq2 hle hlt hsucc
  obtain ⟨unit, hU⟩ : ∃ unit, unit = 2 ^ (k + 1) := ⟨_, rfl⟩
  rw [← hU] at h hle hlt hsucc hupos
  obtain ⟨low, hL⟩ : ∃ low, low = q * unit := ⟨_, rfl⟩
  rw [← hL] at h hle hlt hsucc
  have hkeep : ∀ q' : Nat, m = q' * unit → 4503599627370496 ≤ q' → q' ≤ 9007199254740992 →
      2 * (m - n) ≤ unit → 2 * (n - m) ≤ unit →
      ((2 * (m - n) = unit ∨ 2 * (n - m) = unit) → q' % 2 = 0) →
      ∃ k q : Nat, m = q * 2 ^ k ∧ 4503599627370496 ≤ q ∧ q ≤ 9007199254740992 ∧
        2 * (m - n) ≤ 2 ^ k ∧ 2 * (n - m) ≤ 2 ^ k ∧
        ((2 * (m - n) = 2 ^ k ∨ 2 * (n - m) = 2 ^ k) → q % 2 = 0) := by
    intro q' g1 g2 g3 g4 g5 g6
    refine ⟨k + 1, q', ?_, g2, g3, ?_, ?_, ?_⟩
    · rw [← hU]; exact g1
    · rw [← hU]; exact g4
    · rw [← hU]; exact g5
    · rw [← hU]; exact g6
  have hdown : m = low → 2 * (n - low) ≤ unit → (2 * (n - low) = unit → q % 2 = 0) →
      ∃ k q : Nat, m = q * 2 ^ k ∧ 4503599627370496 ≤ q ∧ q ≤ 9007199254740992 ∧
        2 * (m - n) ≤ 2 ^ k ∧ 2 * (n - m) ≤ 2 ^ k ∧
        ((2 * (m - n) = 2 ^ k ∨ 2 * (n - m) = 2 ^ k) → q % 2 = 0) := by
    intro hm hhalf hties
    apply hkeep q (by rw [hm, hL]) hq1 (by omega) (by omega) (by omega)
    intro hor
    apply hties
    omega
  have hup : m = low + unit → 2 * (low + unit - n) ≤ unit →
      (2 * (low + unit - n) = unit → (q + 1) % 2 = 0) →
      ∃ k q : Nat, m = q * 2 ^ k ∧ 4503599627370496 ≤ q ∧ q ≤ 9007199254740992 ∧
        2 * (m - n) ≤ 2 ^ k ∧ 2 * (n - m) ≤ 2 ^ k ∧
        ((2 * (m - n) = 2 ^ k ∨ 2 * (n - m) = 2 ^ k) → q % 2 = 0) := by
    intro hm hhalf hties
    apply hkeep (q + 1) (by rw [hm, hsucc]) (by omega) (by omega) (by omega) (by omega)
    intro hor
    apply hties
    omega
  split_ifs at h with h1 h2 h3 h4 h5 h6 h7
  all_goals (injection h with h)
  all_goals first
    | exact hdown h.symm (by omega) (by omega)
    | exact hup h.symm (by omega) (by omega)

/-- For a text whose integer has a magnitude below `2^53`, `parseInt` returns
that integer. -/
theorem parseInt_of_mathInt (text : String) (value : Int) (h : mathInt text = some value)
    (hlow : -9007199254740992 < value) (hhigh : value < 9007199254740992) :
    parseInt text = .finite value := by
  unfold parseInt
  rw [h]
  exact toNumber_of_lt value hlow hhigh

namespace PDFSplitter

theorem finalValue_eq (s : State) (id : Nat) (field : Field) :
    finalValue s id field =
      committedValue (currentValue s id field) (defaultValue s.totalPages field) := by
  cases field <;> rfl

theorem parseInt_empty : parseInt "" = .nan := by decide

/-- What `finalValue` is, by the text of the field. -/
theorem finalValue_cases (s : State) (id : Nat) (field : Field) :
    ((currentValue s id field = "" ∨ parseInt (currentValue s id field) = .nan ∨
        parseInt (currentValue s id field) = .finite 0) →
        finalValue s id field = .finite (defaultValue s.totalPages field)) ∧
      (∀ v : Int, parseInt (currentValue s id field) = .finite v → v ≠ 0 →
        finalValue s id field = .finite v) ∧
      ∀ negative : Bool, parseInt (currentValue s id field) = .infinity negative →
        finalValue s id field = .infinity negative := by
  rw [finalValue_eq]
  unfold committedValue
  refine ⟨?_, ?_, ?_⟩
  · intro h
    rcases h with h | h | h
    · simp [h]
    · simp [h]
    · simp [h]
  · intro v hv hv0
    have hne : currentValue s id field ≠ "" := by
      intro h
      rw [h, parseInt_empty] at hv
      simp at hv
    simp [hne, hv, hv0]
  · intro negative hv
    have hne : currentValue s id field ≠ "" := by
      intro h
      rw [h, parseInt_empty] at hv
      simp at hv
    simp [hne, hv]

/-- The ranges after a commit of `value`: those with the id get `value` in the
field, everything else is left alone. -/
theorem commitValue_splitRanges (s : State) (id : Nat) (field : Field) (value : Int) :
    (commitValue s id field value).splitRanges =
      s.splitRanges.map (fun range =>
        if range.id = id then
          (match field with
            | .start => { range with start := value }
            | .«end» => { range with «end» := value })
        else range) := by
  cases field <;> rfl

theorem update_get (range : SplitRange) (field : Field) (value : Int) :
    SplitRange.get
        (match field with
          | .start => { range with start := value }
          | .«end» => { range with «end» := value }) field = value := by
  cases field <;> rfl

/-- A range with the id holds `value` in the field after the commit. -/
theorem commitValue_get (s : State) (id : Nat) (field : Field) (value : Int) (r : SplitRange)
    (hr : r ∈ (commitValue s id field value).splitRanges) (hid : r.id = id) :
    r.get field = value := by
  rw [commitValue_splitRanges] at hr
  obtain ⟨q, _, hq⟩ := List.mem_map.1 hr
  by_cases hqid : q.id = id
  · rw [if_pos hqid] at hq
    rw [← hq]
    exact update_get q field value
  · rw [if_neg hqid] at hq
    rw [hq] at hqid
    exact absurd hid hqid

theorem handleInputBlur_of_finite (s : State) (id : Nat) (field : Field) (value : Int)
    (h : finalValue s id field = .finite value) :
    handleInputBlur s id field = some (commitValue s id field value) := by
  unfold handleInputBlur
  rw [h]

theorem handleInputBlur_of_infinity (s : State) (id : Nat) (field : Field) (negative : Bool)
    (h : finalValue s id field = .infinity negative) :
    handleInputBlur s id field = none := by
  unfold handleInputBlur
  rw [h]

/-- The fallback value lies between 1 and `totalPages`, when there is a page. -/
theorem defaultValue_bounds (totalPages : Nat) (field : Field) (hN : 1 ≤ totalPages) :
    1 ≤ defaultValue totalPages field ∧ defaultValue totalPages field ≤ (totalPages : Int) := by
  have hN' : (1 : Int) ≤ (totalPages : Int) := by exact_mod_cast hN
  cases field
  · exact ⟨le_refl _, hN'⟩
  · exact ⟨hN', le_refl _⟩

/-- C15, as the code has it. For a source of `N = totalPages >= 1` pages:
when the text of the field is empty, does not parse, or parses to a number from
0 to `N`, the value `handleInputBlur` stores in every range of that id lies
between 1 and `N`. A text that parses to a number below 0 or above `N` is not
clamped: that number is stored as it is in the field of every range of the id,
outside the bounds, and nothing else of the range set changes (for a text that
parses to `Infinity` or `-Infinity` what is stored is no integer at all). And
`start <= end` is not enforced: a start typed above the end of the range, or an
end typed below its start, is stored and leaves the range with `end < start`. -/
theorem committed_bounds (s : State) (id : Nat) (field : Field) (hN : 1 ≤ s.totalPages) :
    ((currentValue s id field = "" ∨ parseInt (currentValue s id field) = .nan ∨
        ∃ v : Int, parseInt (currentValue s id field) = .finite v ∧
          0 ≤ v ∧ v ≤ (s.totalPages : Int)) →
      ∃ s', handleInputBlur s id field = some s' ∧
        ∀ r ∈ s'.splitRanges, r.id = id →
          1 ≤ r.get field ∧ r.get field ≤ (s.totalPages : Int)) ∧
      (∀ v : Int, parseInt (currentValue s id field) = .finite v →
        (v < 0 ∨ (s.totalPages : Int) < v) →
        ∃ s', handleInputBlur s id field = some s' ∧
          s'.splitRanges =
            s.splitRanges.map (fun range =>
              if range.id = id then
                (match field with
                  | .start => { range with start := v }
                  | .«end» => { range with «end» := v })
              else range) ∧
          ∀ r ∈ s'.splitRanges, r.id = id →
            r.get field = v ∧ ¬ (1 ≤ r.get field ∧ r.get field ≤ (s.totalPages : Int))) ∧
      (∀ v : Int, parseInt (currentValue s id field) = .finite v → v ≠ 0 →
        ∀ q ∈ s.splitRanges, q.id = id →
          (match field with
            | .start => q.«end» < v
            | .«end» => v < q.start) →
          ∃ s', handleInputBlur s id field = some s' ∧
            ∃ r ∈ s'.splitRanges, r.id = id ∧ r.get field = v ∧ r.«end» < r.start) ∧
      (∀ negative : Bool, parseInt (currentValue s id field) = .infinity negative →
        handleInputBlur s id field = none) := by
  obtain ⟨hdefault, hparsed, hinfinite⟩ := finalValue_cases s id field
  have hdef := defaultValue_bounds s.totalPages field hN
  refine ⟨?_, ?_, ?_, ?_⟩
  · intro htext
    have hfinal : ∃ w : Int, finalValue s id field = .finite w ∧
        1 ≤ w ∧ w ≤ (s.totalPages : Int) := by
      rcases htext with h | h | ⟨v, hv, h0, hle⟩
      · exact ⟨_, hdefault (Or.inl h), hdef⟩
      · exact ⟨_, hdefault (Or.inr (Or.inl h)), hdef⟩
      · by_cases hv0 : v = 0
        · exact ⟨_, hdefault (Or.inr (Or.inr (by rw [hv, hv0]))), hdef⟩
        · exact ⟨v, hparsed v hv hv0, by omega, hle⟩
    obtain ⟨w, hw, h1, h2⟩ := hfinal
    refine ⟨_, handleInputBlur_of_finite s id field w hw, ?_⟩
    intro r hr hid
    rw [commitValue_get s id field w r hr hid]
    exact ⟨h1, h2⟩
  · intro v hv hout
    have hv0 : v ≠ 0 := by omega
    refine ⟨_, handleInputBlur_of_finite s id field v (hparsed v hv hv0),
      commitValue_splitRanges s id field v, ?_⟩
    intro r hr hid
    rw [commitValue_get s id field v r hr hid]
    exact ⟨rfl, by omega⟩
  · intro v hv hv0 q hq hid horder
    have hstored := handleInputBlur_of_finite s id field v (hparsed v hv hv0)
    have hranges := commitValue_splitRanges s id field v
    cases field with
    | start =>
      refine ⟨_, hstored, { q with start := v }, ?_, hid, rfl, horder⟩
      rw [hranges]
      exact List.mem_map.2 ⟨q, hq, by rw [if_pos hid]⟩
    | «end» =>
      refine ⟨_, hstored, { q with «end» := v }, ?_, hid, rfl, horder⟩
      rw [hranges]
      exact List.mem_map.2 ⟨q, hq, by rw [if_pos hid]⟩
  · intro negative hv
    exact handleInputBlur_of_infinity s id field negative (hinfinite negative hv)

/-- C15 on a 10-page file: `7` typed into the end field of `Part 1` is stored,
and lies between 1 and 10. -/
theorem committed_bounds_witness :
    (1 ≤ (handleInputChange (handleFileChange initialState (some (sampleFile 10))) 1 .«end»
        "7").totalPages) ∧
      parseInt (currentValue
        (handleInputChange (handleFileChange initialState (some (sampleFile 10))) 1 .«end» "7")
        1 .«end») = .finite 7 ∧
      (handleInputBlur
        (handleInputChange (handleFileChange initialState (some (sampleFile 10))) 1 .«end» "7")
        1 .«end»).map (fun s' => s'.splitRanges) = some [⟨1, 1, 7, "Part 1"⟩] ∧
      ∃ s', handleInputBlur
          (handleInputChange (handleFileChange initialState (some (sampleFile 10))) 1 .«end» "7")
          1 .«end» = some s' ∧
        ∀ r ∈ s'.splitRanges, r.id = 1 →
          1 ≤ r.get .«end» ∧ r.get .«end» ≤
            ((handleInputChange (handleFileChange initialState (some (sampleFile 10))) 1 .«end»
              "7").totalPages : Int) :=
  ⟨by decide, by decide, by decide,
    (committed_bounds
      (handleInputChange (handleFileChange initialState (some (sampleFile 10))) 1 .«end» "7")
      1 .«end» (by decide)).1 (Or.inr (Or.inr ⟨7, by decide, by decide, by decide⟩))⟩

/-- C15 fails as stated: on a 10-page file, `-2` typed into the start field is
stored as start `-2` (below 1), `99` typed into the end field as end `99`
(above `N`), and `7` typed into the start field next to end `3` leaves
start above end; no value is clamped. -/
theorem committed_bounds_counterexample :
    (handleInputBlur
        (handleInputChange (handleFileChange initialState (some (sampleFile 10))) 1 .start "-2")
        1 .start).map (fun s' => s'.splitRanges) = some [⟨1, -2, 10, "Part 1"⟩] ∧
      (handleInputBlur
        (handleInputChange (handleFileChange initialState (some (sampleFile 10))) 1 .«end» "99")
        1 .«end»).map (fun s' => s'.splitRanges) = some [⟨1, 1, 99, "Part 1"⟩] ∧
      ((handleInputBlur
        (handleInputChange (handleFileChange initialState (some (sampleFile 10))) 1 .«end» "3")
        1 .«end»).bind
          (fun s' => handleInputBlur (handleInputChange s' 1 .start "7") 1 .start)).map
        (fun s' => s'.splitRanges) = some [⟨1, 7, 3, "Part 1"⟩] := by
  decide

/-- C16, as the code has it. `handleInputBlur` stores, in the field of every
range of the id, 1 (field start) or `totalPages` (field end) when the text is
empty, does not parse as an integer or parses to 0, and otherwise exactly the
number `parseInt` returns for the text, whatever its value; the other ranges and
the other fields are left alone. That number is the integer the text denotes
when its magnitude is below `2^53`. (Beyond, it is the nearest double, and for
a text that parses to `Infinity` the range holds no integer any more.) -/
theorem commit_parsing (s : State) (id : Nat) (field : Field) :
    ((currentValue s id field = "" ∨ parseInt (currentValue s id field) = .nan ∨
        parseInt (currentValue s id field) = .finite 0) →
        ∃ s', handleInputBlur s id field = some s' ∧
          s'.splitRanges =
            s.splitRanges.map (fun range =>
              if range.id = id then
                (match field with
                  | .start => { range with start := 1 }
                  | .«end» => { range with «end» := (s.totalPages : Int) })
              else range)) ∧
      (∀ v : Int, parseInt (currentValue s id field) = .finite v → v ≠ 0 →
        ∃ s', handleInputBlur s id field = some s' ∧
          s'.splitRanges =
            s.splitRanges.map (fun range =>
              if range.id = id then
                (match field with
                  | .start => { range with start := v }
                  | .«end» => { range with «end» := v })
              else range)) ∧
      (∀ v : Int, mathInt (currentValue s id field) = some v →
        -9007199254740992 < v → v < 9007199254740992 →
        parseInt (currentValue s id field) = .finite v) ∧
      (∀ negative : Bool, parseInt (currentValue s id field) = .infinity negative →
        handleInputBlur s id field = none) := by
  obtain ⟨hdefault, hparsed, hinfinite⟩ := finalValue_cases s id field
  refine ⟨?_, ?_, ?_, ?_⟩
  · intro htext
    refine ⟨_, handleInputBlur_of_finite s id field _ (hdefault htext), ?_⟩
    rw [commitValue_splitRanges]
    cases field <;> rfl
  · intro v hv hv0
    exact ⟨_, handleInputBlur_of_finite s id field v (hparsed v hv hv0),
      commitValue_splitRanges s id field v⟩
  · intro v hv hlow hhigh
    exact parseInt_of_mathInt _ v hv hlow hhigh
  · intro negative hv
    exact handleInputBlur_of_infinity s id field negative (hinfinite negative hv)

set_option maxRecDepth 10000 in
/-- C16 on a 10-page file: `abc` typed into the end field stores 10, and `25`
stores 25, past the last page; a text of 310 digits `9` parses to `Infinity`,
and what is stored then is no integer. -/
theorem commit_parsing_witness :
    parseInt (currentValue
        (handleInputChange (handleFileChange initialState (some (sampleFile 10))) 1 .«end» "abc")
        1 .«end») = .nan ∧
      (∃ s', handleInputBlur
          (handleInputChange (handleFileChange initialState (some (sampleFile 10))) 1 .«end»
            "abc") 1 .«end» = some s' ∧
        s'.splitRanges = [⟨1, 1, 10, "Part 1"⟩]) ∧
      parseInt (currentValue
        (handleInputChange (handleFileChange initialState (some (sampleFile 10))) 1 .«end» "25")
        1 .«end») = .finite 25 ∧
      (∃ s', handleInputBlur
          (handleInputChange (handleFileChange initialState (some (sampleFile 10))) 1 .«end»
            "25") 1 .«end» = some s' ∧
        s'.splitRanges = [⟨1, 1, 25, "Part 1"⟩]) ∧
      parseInt (currentValue
        (handleInputChange (handleFileChange initialState (some (sampleFile 10))) 1 .«end»
          (String.mk (List.replicate 310 '9')))
        1 .«end») = .infinity false ∧
      handleInputBlur
        (handleInputChange (handleFileChange initialState (some (sampleFile 10))) 1 .«end»
          (String.mk (List.replicate 310 '9')))
        1 .«end» = none :=
  ⟨by decide,
    (commit_parsing
      (handleInputChange (handleFileChange initialState (some (sampleFile 10))) 1 .«end» "abc")
      1 .«end»).1 (Or.inr (Or.inl (by decide))),
    by decide,
    (commit_parsing
      (handleInputChange (handleFileChange initialState (some (sampleFile 10))) 1 .«end» "25")
      1 .«end»).2.1 25 (by decide) (by decide),
    by decide,
    (commit_parsing
      (handleInputChange (handleFileChange initialState (some (sampleFile 10))) 1 .«end»
        (String.mk (List.replicate 310 '9')))
      1 .«end»).2.2.2 false (by decide)⟩

/-- C16 fails as stated. The text `0` parses to the integer 0, but typed into
the start field it stores 1, and typed into the end field of a 10-page file it
stores 10. And the text `9007199254740993` denotes the integer `2^53 + 1`, but
what is stored is the number `parseInt` returns, `9007199254740992`. -/
theorem commit_parsing_counterexample :
    parseInt "0" = .finite 0 ∧
      (handleInputBlur
        (handleInputChange (handleFileChange initialState (some (sampleFile 10))) 1 .start "0")
        1 .start).map (fun s' => s'.splitRanges) = some [⟨1, 1, 10, "Part 1"⟩] ∧
      ((handleInputBlur
        (handleInputChange (handleFileChange initialState (some (sampleFile 10))) 1 .«end» "5")
        1 .«end»).bind
          (fun s' => handleInputBlur (handleInputChange s' 1 .«end» "0") 1 .«end»)).map
        (fun s' => s'.splitRanges) = some [⟨1, 1, 10, "Part 1"⟩] ∧
      mathInt "9007199254740993" = some 9007199254740993 ∧
      parseInt "9007199254740993" = .finite 9007199254740992 ∧
      (handleInputBlur
        (handleInputChange (handleFileChange initialState (some (sampleFile 10))) 1 .«end»
          "9007199254740993")
        1 .«end»).map (fun s' => s'.splitRanges) =
        some [⟨1, 1, 9007199254740992, "Part 1"⟩] := by
  decide

/-- The text written back is `finalValue.toString()`. On a 10-page file,
`1000000000000000000000` typed into the end field stores that number and writes
`1e+21` into the field; when the field is left once more, this text parses to 1,
and 1 is stored. `18446744073709551615` stores the double next to it,
`18446744073709551616`, and writes its shortest digits,
`18446744073709552000`. -/
theorem blur_writes_number_text :
    (typeInto (handleFileChange initialState (some (sampleFile 10))) 1 .«end»
        "1000000000000000000000").map (fun s' => (s'.splitRanges, currentValue s' 1 .«end»)) =
        some ([⟨1, 1, 1000000000000000000000, "Part 1"⟩], "1e+21") ∧
      ((typeInto (handleFileChange initialState (some (sampleFile 10))) 1 .«end»
        "1000000000000000000000").bind (fun s' => handleInputBlur s' 1 .«end»)).map
          (fun s' => (s'.splitRanges, currentValue s' 1 .«end»)) =
        some ([⟨1, 1, 1, "Part 1"⟩], "1") ∧
      (typeInto (handleFileChange initialState (some (sampleFile 10))) 1 .«end»
        "18446744073709551615").map (fun s' => (s'.splitRanges, currentValue s' 1 .«end»)) =
        some ([⟨1, 1, 18446744073709551616, "Part 1"⟩], "18446744073709552000") := by
  decide

end PDFSplitter

/-! ## The source collection -/

theorem findIndex_of_exists {α : Type} (array : List α) (p : α → Bool)
    (h : ∃ x ∈ array, p x = true) :
    findIndex array p = (array.findIdx p : Int) ∧ array.findIdx p < array.length := by
  have hlt : array.findIdx p < array.length := List.findIdx_lt_length_of_exists h
  exact ⟨by simp [findIndex, hlt], hlt⟩

theorem findIndex_of_forall_not {α : Type} (array : List α) (p : α → Bool)
    (h : ∀ x ∈ array, p x = false) : findIndex array p = -1 := by
  have hlen : array.findIdx p = array.length := List.findIdx_eq_length_of_false h
  simp [findIndex, hlen]

theorem spliceStart_le (length : Nat) (start : Int) : spliceStart length start ≤ length := by
  unfold spliceStart
  split
  · omega
  · exact Nat.min_le_right _ _

theorem spliceStart_of_lt (length : Nat) (i : Nat) (h : i ≤ length) :
    spliceStart length (i : Int) = i := by
  unfold spliceStart
  have : ¬ ((i : Int) < 0) := by omega
  simp [this, h]

/-- Putting back the element taken out by `eraseIdx` gives a permutation. -/
theorem cons_eraseIdx_perm {α : Type} (array : List α) (k : Nat) (x : α)
    (h : array[k]? = some x) : (x :: array.eraseIdx k).Perm array := by
  induction array generalizing k with
  | nil => simp at h
  | cons a array ih =>
    cases k with
    | zero =>
      simp at h
      rw [h]
      simp
    | succ k =>
      simp at h
      simp only [List.eraseIdx_cons_succ]
      exact (List.Perm.swap a x _).trans ((ih k h).cons a)

/-- Whatever the indices, `arrayMove` only permutes the array. -/
theorem arrayMove_perm {α : Type} (array result : List α) (fromIndex toIndex : Int)
    (h : arrayMove array fromIndex toIndex = some result) : result.Perm array := by
  unfold arrayMove at h
  cases hmoved : array[spliceStart array.length fromIndex]? with
  | none => simp [hmoved] at h
  | some moved =>
    simp only [hmoved, Option.some.injEq] at h
    rw [← h]
    exact (List.perm_insertIdx moved _ (spliceStart_le _ _)).trans
      (cons_eraseIdx_perm array _ moved hmoved)

/-- With both indices inside the array, `arrayMove` takes the element at
`i` out and puts it in at `j`. -/
theorem arrayMove_of_lt {α : Type} (array : List α) (i j : Nat) (moved : α)
    (hi : array[i]? = some moved) (hj : j < array.length) :
    arrayMove array (i : Int) (j : Int) = some ((array.eraseIdx i).insertIdx j moved) := by
  have hilt : i < array.length := by
    by_contra hge
    rw [List.getElem?_eq_none (by omega)] at hi
    simp at hi
  have hlen : (array.eraseIdx i).length = array.length - 1 := List.length_eraseIdx_of_lt hilt
  unfold arrayMove
  have hj0 : ¬ ((j : Int) < 0) := by omega
  simp only [hj0, if_false, spliceStart_of_lt array.length i (by omega), hi]
  rw [spliceStart_of_lt _ j (by omega)]

namespace PDFMerger

theorem removeFile_pdfFiles (s : State) (id : String) :
    (removeFile s id).pdfFiles = s.pdfFiles.filter (fun file => decide (file.id ≠ id)) := by
  unfold removeFile
  cases s.pdfFiles.find? (fun file => decide (file.id = id)) <;> rfl

/-- C17. `removeFile(id)` keeps exactly the entries whose id is not `id`, in
their order: with no entry of that id the state is left as it was; and when
`f` is the entry of that id, the sequence `pre ++ f :: post` becomes
`pre ++ post`. -/
theorem remove_file (s : State) (id : String) :
    (removeFile s id).pdfFiles = s.pdfFiles.filter (fun file => decide (file.id ≠ id)) ∧
      ((∀ f ∈ s.pdfFiles, f.id ≠ id) → removeFile s id = s) ∧
      (removeFile s id).pdfFiles.Sublist s.pdfFiles ∧
      (∀ f ∈ s.pdfFiles, f.id ≠ id → f ∈ (removeFile s id).pdfFiles) ∧
      (∀ f ∈ (removeFile s id).pdfFiles, f.id ≠ id) ∧
      ∀ (pre post : List PdfFile) (f : PdfFile), s.pdfFiles = pre ++ f :: post → f.id = id →
        (∀ g ∈ pre ++ post, g.id ≠ id) → (removeFile s id).pdfFiles = pre ++ post := by
  refine ⟨removeFile_pdfFiles s id, ?_, ?_, ?_, ?_, ?_⟩
  · intro habsent
    have hfind : s.pdfFiles.find? (fun file => decide (file.id = id)) = none := by
      rw [List.find?_eq_none]
      intro f hf
      simpa using habsent f hf
    have hfilter : s.pdfFiles.filter (fun file => decide (file.id ≠ id)) = s.pdfFiles := by
      rw [List.filter_eq_self]
      intro f hf
      simpa using habsent f hf
    unfold removeFile
    rw [hfind]
    simp only [hfilter]
  · rw [removeFile_pdfFiles]
    exact List.filter_sublist _
  · intro f hf hid
    rw [removeFile_pdfFiles]
    exact List.mem_filter.2 ⟨hf, by simpa using hid⟩
  · intro f hf
    rw [removeFile_pdfFiles] at hf
    simpa using (List.mem_filter.1 hf).2
  · intro pre post f hfiles hid hothers
    rw [removeFile_pdfFiles, hfiles, List.filter_append, List.filter_cons]
    have hpre : pre.filter (fun file => decide (file.id ≠ id)) = pre := by
      rw [List.filter_eq_self]
      intro g hg
      simpa using hothers g (List.mem_append_left _ hg)
    have hpost : post.filter (fun file => decide (file.id ≠ id)) = post := by
      rw [List.filter_eq_self]
      intro g hg
      simpa using hothers g (List.mem_append_right _ hg)
    rw [hpre, hpost]
    simp [hid]

/-- C17 on `[S1, S2]`: removing `S1` leaves `[S2]`, removing an id that is not
there leaves the state as it was. -/
theorem remove_file_witness :
    (removeFile (sampleState [sampleS1, sampleS2] false) "s1.pdf").pdfFiles = [sampleS2] ∧
      removeFile (sampleState [sampleS1, sampleS2] false) "other.pdf" =
        sampleState [sampleS1, sampleS2] false :=
  ⟨(remove_file (sampleState [sampleS1, sampleS2] false) "s1.pdf").2.2.2.2.2 [] [sampleS2]
      sampleS1 rfl rfl (by decide),
    (remove_file (sampleState [sampleS1, sampleS2] false) "other.pdf").2.1 (by decide)⟩

end PDFMerger

namespace PDFMerger

/-- An entry with the id exists exactly when `positionOf` is inside the list,
and then the entry there has the id. -/
theorem positionOf_of_exists (pdfFiles : List PdfFile) (id : String)
    (h : ∃ f ∈ pdfFiles, f.id = id) :
    ∃ f, pdfFiles[positionOf pdfFiles id]? = some f ∧ f.id = id ∧
      positionOf pdfFiles id < pdfFiles.length ∧
      findIndex pdfFiles (fun item => decide (item.id = id)) = (positionOf pdfFiles id : Int) := by
  have hex : ∃ x ∈ pdfFiles, (fun item : PdfFile => decide (item.id = id)) x = true := by
    obtain ⟨f, hf, hid⟩ := h
    exact ⟨f, hf, by simpa using hid⟩
  obtain ⟨hidx, hlt⟩ := findIndex_of_exists pdfFiles _ hex
  refine ⟨pdfFiles[positionOf pdfFiles id], List.getElem?_eq_getElem hlt, ?_, hlt, hidx⟩
  have := List.findIdx_getElem (p := fun item : PdfFile => decide (item.id = id)) (w := hlt)
  simpa [positionOf] using this

/-- C18. Reorder is a pure permutation: when the active and the over id differ
and both are in the collection, `handleDragEnd` takes the active entry out of
its position `i` and puts it in at the position `j` the over entry had. The new
sequence holds the active entry at `j`, is the old one apart from the moved
entry (taking the moved entry out of both gives the same sequence, so the other
entries keep their order), and is a permutation of the old one, ids
included. -/
theorem reorder_is_permutation (s : State) (event : DragEndEvent)
    (hne : event.activeId ≠ event.overId)
    (hactive : ∃ f ∈ s.pdfFiles, f.id = event.activeId)
    (hover : ∃ f ∈ s.pdfFiles, f.id = event.overId) :
    ∃ (moved target : PdfFile) (items : List PdfFile),
      s.pdfFiles[positionOf s.pdfFiles event.activeId]? = some moved ∧
      moved.id = event.activeId ∧
      s.pdfFiles[positionOf s.pdfFiles event.overId]? = some target ∧
      target.id = event.overId ∧
      handleDragEnd s event = some { s with pdfFiles := items } ∧
      items =
        (s.pdfFiles.eraseIdx (positionOf s.pdfFiles event.activeId)).insertIdx
          (positionOf s.pdfFiles event.overId) moved ∧
      items[positionOf s.pdfFiles event.overId]? = some moved ∧
      items.eraseIdx (positionOf s.pdfFiles event.overId) =
        s.pdfFiles.eraseIdx (positionOf s.pdfFiles event.activeId) ∧
      items.Perm s.pdfFiles ∧
      (items.map (fun f => f.id)).Perm (s.pdfFiles.map (fun f => f.id)) := by
  obtain ⟨moved, hmoved, hmid, hi, hfrom⟩ := positionOf_of_exists s.pdfFiles _ hactive
  obtain ⟨target, htarget, htid, hj, hto⟩ := positionOf_of_exists s.pdfFiles _ hover
  have hmove := arrayMove_of_lt s.pdfFiles _ _ moved hmoved hj
  have hlen : (s.pdfFiles.eraseIdx (positionOf s.pdfFiles event.activeId)).length =
      s.pdfFiles.length - 1 := List.length_eraseIdx_of_lt hi
  have hjle : positionOf s.pdfFiles event.overId ≤
      (s.pdfFiles.eraseIdx (positionOf s.pdfFiles event.activeId)).length := by omega
  have hperm := arrayMove_perm s.pdfFiles _ _ _ hmove
  refine ⟨moved, target, _, hmoved, hmid, htarget, htid, ?_, rfl, ?_, ?_, hperm, hperm.map _⟩
  · unfold handleDragEnd
    rw [if_pos hne]
    simp only [hfrom, hto, hmove, Option.map_some']
  · have hlt : positionOf s.pdfFiles event.overId <
        ((s.pdfFiles.eraseIdx (positionOf s.pdfFiles event.activeId)).insertIdx
          (positionOf s.pdfFiles event.overId) moved).length := by
      rw [List.length_insertIdx _ _ hjle]
      omega
    rw [List.getElem?_eq_getElem hlt, List.getElem_insertIdx_self _ _ _ hjle]
  · exact List.eraseIdx_insertIdx _ _

/-- C18 on `[S1, S2, S3]`: dragging `S1` onto `S3` gives `[S2, S3, S1]`. -/
theorem reorder_is_permutation_witness :
    handleDragEnd (sampleState [sampleS1, sampleS2, sampleSource "s3.pdf" []] false)
        ⟨"s1.pdf", "s3.pdf"⟩ =
      some { sampleState [sampleS1, sampleS2, sampleSource "s3.pdf" []] false with
        pdfFiles := [sampleS2, sampleSource "s3.pdf" [], sampleS1] } := by
  obtain ⟨moved, target, items, hmoved, _, _, _, hresult, hitems, _⟩ :=
    reorder_is_permutation
      (sampleState [sampleS1, sampleS2, sampleSource "s3.pdf" []] false) ⟨"s1.pdf", "s3.pdf"⟩
      (by decide) ⟨sampleS1, by decide, rfl⟩ ⟨sampleSource "s3.pdf" [], by decide, rfl⟩
  have hfirst : (sampleState [sampleS1, sampleS2, sampleSource "s3.pdf" []] false).pdfFiles[
      positionOf (sampleState [sampleS1, sampleS2, sampleSource "s3.pdf" []] false).pdfFiles
        "s1.pdf"]? = some sampleS1 := by decide
  rw [hfirst] at hmoved
  simp only [Option.some.injEq] at hmoved
  rw [hresult, hitems, ← hmoved]
  decide

/-- C19, as the code has it. When the id to move is not in the (non-empty)
collection, `handleDragEnd` raises nothing: it returns a state that differs
from the old one in `pdfFiles` at most, the error message is the one from
before, and the new sequence holds exactly the entries of the old one, none
lost or duplicated. -/
theorem reorder_absent_id (s : State) (event : DragEndEvent) (hne : s.pdfFiles ≠ [])
    (habsent : ∀ f ∈ s.pdfFiles, f.id ≠ event.activeId) :
    ∃ items, handleDragEnd s event = some { s with pdfFiles := items } ∧
      ({ s with pdfFiles := items } : State).error = s.error ∧
      items.Perm s.pdfFiles := by
  by_cases hid : event.activeId = event.overId
  · exact ⟨s.pdfFiles, by simp [handleDragEnd, hid], rfl, List.Perm.refl _⟩
  · have hfrom : findIndex s.pdfFiles (fun item => decide (item.id = event.activeId)) = -1 :=
      findIndex_of_forall_not _ _ (fun f hf => by simpa using habsent f hf)
    have hpos : 0 < s.pdfFiles.length := List.length_pos.2 hne
    have hstart : spliceStart s.pdfFiles.length (-1) = s.pdfFiles.length - 1 := by
      unfold spliceStart
      simp only [Int.reduceNeg, Int.neg_neg_iff_pos, Int.one_pos, if_true]
      omega
    have hlast : ∃ moved, s.pdfFiles[s.pdfFiles.length - 1]? = some moved :=
      ⟨s.pdfFiles[s.pdfFiles.length - 1], List.getElem?_eq_getElem (by omega)⟩
    obtain ⟨moved, hmoved⟩ := hlast
    cases hmove : arrayMove s.pdfFiles (-1)
        (findIndex s.pdfFiles (fun item => decide (item.id = event.overId))) with
    | none =>
      unfold arrayMove at hmove
      simp [hstart, hmoved] at hmove
    | some items =>
      refine ⟨items, ?_, rfl, arrayMove_perm _ _ _ _ hmove⟩
      unfold handleDragEnd
      rw [if_pos hid]
      simp only [hfrom, hmove, Option.map_some']

/-- C19 on `[S1, S2]` and an id that is not there, dropped on `S2`: nothing is
raised, and the sequence holds the entries it held. -/
theorem reorder_absent_id_witness :
    (sampleState [sampleS1, sampleS2] false).pdfFiles ≠ [] ∧
      ∃ items,
        handleDragEnd (sampleState [sampleS1, sampleS2] false) ⟨"gone.pdf", "s2.pdf"⟩ =
          some { sampleState [sampleS1, sampleS2] false with pdfFiles := items } ∧
        ({ sampleState [sampleS1, sampleS2] false with pdfFiles := items } : State).error =
          (sampleState [sampleS1, sampleS2] false).error ∧
        items.Perm (sampleState [sampleS1, sampleS2] false).pdfFiles :=
  ⟨by decide,
    reorder_absent_id (sampleState [sampleS1, sampleS2] false) ⟨"gone.pdf", "s2.pdf"⟩
      (by decide) (by decide)⟩

/-- C19 fails as stated: on `[S1, S2, S3]`, a drag of an id that is not in the
collection onto `S1` raises nothing and sets no error, and the sequence does
not stay as it was: it becomes `[S3, S1, S2]` (`findIndex` gives `-1`, and
`splice(-1, 1)` takes the last entry out). -/
theorem reorder_absent_id_counterexample :
    ("gone.pdf" ∉
        (sampleState [sampleS1, sampleS2, sampleSource "s3.pdf" []] false).pdfFiles.map
          (fun f => f.id)) ∧
      handleDragEnd (sampleState [sampleS1, sampleS2, sampleSource "s3.pdf" []] false)
        ⟨"gone.pdf", "s1.pdf"⟩ =
        some { sampleState [sampleS1, sampleS2, sampleSource "s3.pdf" []] false with
          pdfFiles := [sampleSource "s3.pdf" [], sampleS1, sampleS2] } ∧
      (handleDragEnd (sampleState [sampleS1, sampleS2, sampleSource "s3.pdf" []] false)
        ⟨"gone.pdf", "s1.pdf"⟩).map (fun st => st.error) = some none := by
  decide

theorem foldl_createPreviewUrl_pdfFiles (entries : List PdfFile) :
    ∀ s : State,
      (entries.foldl (fun st entry => createPreviewUrl st entry.file) s).pdfFiles =
        s.pdfFiles := by
  induction entries with
  | nil => intro s; rfl
  | cons entry entries ih =>
    intro s
    rw [List.foldl_cons, ih]
    rfl

theorem cleanupPreviewUrls_pdfFiles (previous : List (String × Nat)) (s : State) :
    (cleanupPreviewUrls previous s).pdfFiles = s.pdfFiles := rfl

theorem toPdfFiles_file (randomId : Nat → String) (files : List File) :
    ∀ k, (toPdfFiles randomId k files).map (fun entry => entry.file) = files := by
  induction files with
  | nil => intro k; rfl
  | cons file files ih => intro k; simp [toPdfFiles, ih]

theorem toPdfFiles_name_size (randomId : Nat → String) (files : List File) :
    ∀ k, ∀ entry ∈ toPdfFiles randomId k files,
      entry.name = entry.file.name ∧ entry.size = entry.file.size := by
  induction files with
  | nil => intro k entry h; simp [toPdfFiles] at h
  | cons file files ih =>
    intro k entry h
    simp only [toPdfFiles, List.mem_cons] at h
    rcases h with h | h
    · rw [h]; exact ⟨rfl, rfl⟩
    · exact ih (k + 1) entry h

/-- C20. Source add appends: after `handleFileChange` and after `handleDrop` the
collection is the previous sequence, unchanged, followed by the new entries;
these are one per input of type `application/pdf`, in input order, each with
that input's name and size. Without a file list `handleFileChange` changes
nothing. -/
theorem add_appends (s : State) (files : List File) (randomId : Nat → String) :
    (handleFileChange s (some files) randomId).pdfFiles =
        s.pdfFiles ++ newFiles randomId files ∧
      (handleDrop s files randomId).pdfFiles = s.pdfFiles ++ newFiles randomId files ∧
      handleFileChange s none randomId = s ∧
      (newFiles randomId files).map (fun entry => entry.file) =
        files.filter (fun file => decide (file.type = "application/pdf")) ∧
      ∀ entry ∈ newFiles randomId files,
        entry.name = entry.file.name ∧ entry.size = entry.file.size := by
  refine ⟨?_, ?_, rfl, toPdfFiles_file _ _ 0, toPdfFiles_name_size _ _ 0⟩
  · simp only [handleFileChange]
    by_cases hnew : (newFiles randomId files).length = 0
    · rw [if_pos hnew, foldl_createPreviewUrl_pdfFiles]
    · rw [if_neg hnew, cleanupPreviewUrls_pdfFiles, foldl_createPreviewUrl_pdfFiles]
  · unfold handleDrop
    by_cases hfiles : files.length = 0
    · have hnil : files = [] := List.length_eq_zero.1 hfiles
      simp [hnil, newFiles, toPdfFiles]
    · rw [if_neg hfiles]
      by_cases hnew : (newFiles randomId files).length = 0
      · rw [if_pos hnew]
        have hnil : newFiles randomId files = [] := List.length_eq_zero.1 hnew
        simp [hnil]
      · rw [if_neg hnew]
        simp only []
        rw [cleanupPreviewUrls_pdfFiles, foldl_createPreviewUrl_pdfFiles]

/-- C20 on a collection `[S1]` and a batch of a PDF file, a text file and
another PDF file: the two PDF files are appended, in that order. -/
theorem add_appends_witness :
    (handleFileChange (sampleState [sampleS1] false)
        (some [sampleS2.file, ⟨"notes.txt", 12, "text/plain", .error "No PDF header found"⟩,
          (sampleSource "s3.pdf" []).file])
        (fun k => "id" ++ toString k)).pdfFiles =
      [sampleS1, ⟨"id0", sampleS2.file, "s2.pdf", 1024⟩,
        ⟨"id1", (sampleSource "s3.pdf" []).file, "s3.pdf", 1024⟩] :=
  (add_appends (sampleState [sampleS1] false)
    [sampleS2.file, ⟨"notes.txt", 12, "text/plain", .error "No PDF header found"⟩,
      (sampleSource "s3.pdf" []).file]
    (fun k => "id" ++ toString k)).1

end PDFMerger

/-! ## Adding sources, and their previews -/

namespace PDFMerger

theorem newFiles_file (randomId : Nat → String) (files : List File) :
    (newFiles randomId files).map (fun entry => entry.file) =
      files.filter (fun file => decide (file.type = "application/pdf")) :=
  toPdfFiles_file randomId _ 0

theorem newFiles_eq_nil_iff (randomId : Nat → String) (files : List File) :
    newFiles randomId files = [] ↔
      files.filter (fun file => decide (file.type = "application/pdf")) = [] := by
  rw [← newFiles_file randomId files]
  simp

theorem handleFileChange_pdfFiles (s : State) (files : List File) (randomId : Nat → String) :
    (handleFileChange s (some files) randomId).pdfFiles =
      s.pdfFiles ++ newFiles randomId files := by
  simp only [handleFileChange]
  by_cases hnew : (newFiles randomId files).length = 0
  · rw [if_pos hnew, foldl_createPreviewUrl_pdfFiles]
  · rw [if_neg hnew, cleanupPreviewUrls_pdfFiles, foldl_createPreviewUrl_pdfFiles]

theorem handleDrop_pdfFiles (s : State) (files : List File) (randomId : Nat → String) :
    (handleDrop s files randomId).pdfFiles = s.pdfFiles ++ newFiles randomId files := by
  unfold handleDrop
  by_cases hfiles : files.length = 0
  · have hnil : files = [] := List.length_eq_zero.1 hfiles
    simp [hnil, newFiles, toPdfFiles]
  · rw [if_neg hfiles]
    by_cases hnew : (newFiles randomId files).length = 0
    · rw [if_pos hnew]
      have hnil : newFiles randomId files = [] := List.length_eq_zero.1 hnew
      simp [hnil]
    · rw [if_neg hnew]
      simp only []
      rw [cleanupPreviewUrls_pdfFiles, foldl_createPreviewUrl_pdfFiles]

/-- C21, as the code has it. Source add looks at the declared type only: after
`handleFileChange` and after `handleDrop` the files of the collection are those
from before followed by exactly the inputs of type `application/pdf`, in input
order, whether their bytes load or not. No error is reported per input:
`handleFileChange` clears the error, and `handleDrop` clears it when an input
was accepted and reports `Please drop valid PDF files only` when the batch is
not empty and none was. -/
theorem add_filters_by_type (s : State) (files : List File) (randomId : Nat → String) :
    (handleFileChange s (some files) randomId).pdfFiles.map (fun entry => entry.file) =
        s.pdfFiles.map (fun entry => entry.file) ++
          files.filter (fun file => decide (file.type = "application/pdf")) ∧
      (handleFileChange s (some files) randomId).error = none ∧
      (handleDrop s files randomId).pdfFiles.map (fun entry => entry.file) =
        s.pdfFiles.map (fun entry => entry.file) ++
          files.filter (fun file => decide (file.type = "application/pdf")) ∧
      (files.filter (fun file => decide (file.type = "application/pdf")) ≠ [] →
        (handleDrop s files randomId).error = none) ∧
      (files ≠ [] → files.filter (fun file => decide (file.type = "application/pdf")) = [] →
        (handleDrop s files randomId).error = some "Please drop valid PDF files only") := by
  refine ⟨?_, rfl, ?_, ?_, ?_⟩
  · rw [handleFileChange_pdfFiles, List.map_append, newFiles_file]
  · rw [handleDrop_pdfFiles, List.map_append, newFiles_file]
  · intro haccepted
    have hnew : (newFiles randomId files).length ≠ 0 := by
      intro h
      exact haccepted ((newFiles_eq_nil_iff randomId files).1 (List.length_eq_zero.1 h))
    have hfiles : files.length ≠ 0 := by
      intro h
      rw [List.length_eq_zero.1 h] at haccepted
      exact haccepted rfl
    unfold handleDrop
    rw [if_neg hfiles, if_neg hnew]
  · intro hne hnone
    have hnew : (newFiles randomId files).length = 0 := by
      rw [(newFiles_eq_nil_iff randomId files).2 hnone]
      rfl
    have hfiles : files.length ≠ 0 := by
      intro h
      exact hne (List.length_eq_zero.1 h)
    unfold handleDrop
    rw [if_neg hfiles, if_pos hnew]

/-- C21 on a dropped batch of one text file: it is left out, and the one error
of the batch is reported. -/
theorem add_filters_by_type_witness :
    (handleDrop (sampleState [sampleS1] false)
        [⟨"notes.txt", 12, "text/plain", .error "No PDF header found"⟩]
        (fun k => "id" ++ toString k)).error = some "Please drop valid PDF files only" ∧
      (handleDrop (sampleState [sampleS1] false)
        [⟨"notes.txt", 12, "text/plain", .error "No PDF header found"⟩]
        (fun k => "id" ++ toString k)).pdfFiles.map (fun entry => entry.file) =
        [sampleS1.file] :=
  ⟨(add_filters_by_type (sampleState [sampleS1] false)
      [⟨"notes.txt", 12, "text/plain", .error "No PDF header found"⟩]
      (fun k => "id" ++ toString k)).2.2.2.2 (by decide) (by decide),
    (add_filters_by_type (sampleState [sampleS1] false)
      [⟨"notes.txt", 12, "text/plain", .error "No PDF header found"⟩]
      (fun k => "id" ++ toString k)).2.2.1⟩

/-- C21 fails as stated: a file of type `application/pdf` whose bytes do not
load is appended to the collection like any other, by `handleFileChange` and by
`handleDrop`, and no error is reported for it. -/
theorem add_unsupported_counterexample :
    decodable (sampleBrokenSource "broken.pdf") = false ∧
      (handleFileChange (sampleState [sampleS1] false)
        (some [(sampleBrokenSource "broken.pdf").file]) (fun _ => "id0")).pdfFiles =
        [sampleS1, ⟨"id0", (sampleBrokenSource "broken.pdf").file, "broken.pdf", 0⟩] ∧
      (handleFileChange (sampleState [sampleS1] false)
        (some [(sampleBrokenSource "broken.pdf").file]) (fun _ => "id0")).error = none ∧
      (handleDrop (sampleState [sampleS1] false)
        [(sampleBrokenSource "broken.pdf").file] (fun _ => "id0")).pdfFiles =
        [sampleS1, ⟨"id0", (sampleBrokenSource "broken.pdf").file, "broken.pdf", 0⟩] ∧
      (handleDrop (sampleState [sampleS1] false)
        [(sampleBrokenSource "broken.pdf").file] (fun _ => "id0")).error = none := by
  decide

/-- C23 fails on the code. The same file `s1.pdf` is added twice (ids `id1`,
`id2`): the previews are kept under the file name, so both entries share the
one entry of `previewUrls`. Both have their preview registered; after
`removeFile("id1")` the entry `id2` remains in the collection and its preview is
gone: the URL it showed is revoked and `previewUrls` is empty. -/
theorem remove_file_releases_namesake :
    (handleFileChange
        (handleFileChange (sampleState [] false) (some [sampleS1.file]) (fun _ => "id1"))
        (some [sampleS1.file]) (fun _ => "id2")).pdfFiles.map (fun entry => entry.id) =
        ["id1", "id2"] ∧
      (handleFileChange
        (handleFileChange (sampleState [] false) (some [sampleS1.file]) (fun _ => "id1"))
        (some [sampleS1.file]) (fun _ => "id2")).pdfFiles.map
          (hasPreview (handleFileChange
            (handleFileChange (sampleState [] false) (some [sampleS1.file]) (fun _ => "id1"))
            (some [sampleS1.file]) (fun _ => "id2"))) = [true, true] ∧
      (removeFile (handleFileChange
        (handleFileChange (sampleState [] false) (some [sampleS1.file]) (fun _ => "id1"))
        (some [sampleS1.file]) (fun _ => "id2")) "id1").pdfFiles.map (fun entry => entry.id) =
        ["id2"] ∧
      (removeFile (handleFileChange
        (handleFileChange (sampleState [] false) (some [sampleS1.file]) (fun _ => "id1"))
        (some [sampleS1.file]) (fun _ => "id2")) "id1").pdfFiles.map
          (hasPreview (removeFile (handleFileChange
            (handleFileChange (sampleState [] false) (some [sampleS1.file]) (fun _ => "id1"))
            (some [sampleS1.file]) (fun _ => "id2")) "id1")) = [false] ∧
      (removeFile (handleFileChange
        (handleFileChange (sampleState [] false) (some [sampleS1.file]) (fun _ => "id1"))
        (some [sampleS1.file]) (fun _ => "id2")) "id1").previewUrls = [] := by
  decide

end PDFMerger

/-! ## Previews of sources with different names -/

theorem objGet_cons {κ ν : Type} [DecidableEq κ] (entry : κ × ν) (obj : List (κ × ν))
    (key : κ) :
    objGet (entry :: obj) key = if entry.1 = key then some entry.2 else objGet obj key := by
  unfold objGet
  by_cases h : entry.1 = key
  · rw [if_pos h, List.find?_cons_of_pos _ (by simpa using h)]
    rfl
  · rw [if_neg h, List.find?_cons_of_neg _ (by simpa using h)]

theorem objDelete_cons {κ ν : Type} [DecidableEq κ] (entry : κ × ν) (obj : List (κ × ν))
    (key : κ) :
    objDelete (entry :: obj) key =
      if entry.1 = key then objDelete obj key else entry :: objDelete obj key := by
  unfold objDelete
  by_cases h : entry.1 = key
  · rw [if_pos h, List.filter_cons_of_neg (by simpa using h)]
  · rw [if_neg h, List.filter_cons_of_pos (by simpa using h)]

theorem objGet_objDelete {κ ν : Type} [DecidableEq κ] (obj : List (κ × ν)) (key key' : κ) :
    objGet (objDelete obj key) key' = if key' = key then none else objGet obj key' := by
  induction obj with
  | nil => simp [objGet, objDelete]
  | cons entry obj ih =>
    rw [objDelete_cons, objGet_cons]
    by_cases hk : entry.1 = key
    · rw [if_pos hk, ih]
      by_cases hk' : key' = key
      · rw [if_pos hk', if_pos hk']
      · rw [if_neg hk', if_neg hk']
        have hne : ¬ entry.1 = key' := by
          intro h
          exact hk' (h ▸ hk)
        rw [if_neg hne]
    · rw [if_neg hk, objGet_cons, ih]
      by_cases he : entry.1 = key'
      · have hk' : ¬ key' = key := by
          intro h
          exact hk (he.trans h)
        rw [if_pos he, if_pos he, if_neg hk']
      · rw [if_neg he, if_neg he]

theorem objGet_of_not_any {κ ν : Type} [DecidableEq κ] (obj : List (κ × ν)) (key : κ)
    (h : obj.any (fun entry => decide (entry.1 = key)) = false) : objGet obj key = none := by
  induction obj with
  | nil => rfl
  | cons entry obj ih =>
    rw [List.any_cons, Bool.or_eq_false_iff] at h
    rw [objGet_cons, if_neg (by simpa using h.1), ih h.2]

theorem objGet_append_singleton {κ ν : Type} [DecidableEq κ] (obj : List (κ × ν)) (key : κ)
    (value : ν) (key' : κ) (h : obj.any (fun entry => decide (entry.1 = key)) = false) :
    objGet (obj ++ [(key, value)]) key' = if key' = key then some value else objGet obj key' := by
  induction obj with
  | nil =>
    rw [List.nil_append, objGet_cons]
    by_cases hk : key' = key
    · rw [if_pos hk, if_pos hk.symm]
    · rw [if_neg hk, if_neg (fun h' => hk h'.symm)]
  | cons entry obj ih =>
    rw [List.any_cons, Bool.or_eq_false_iff] at h
    have hentry : ¬ entry.1 = key := by simpa using h.1
    rw [List.cons_append, objGet_cons, objGet_cons, ih h.2]
    by_cases he : entry.1 = key'
    · have hk : ¬ key' = key := fun h' => hentry (he.trans h')
      rw [if_pos he, if_pos he, if_neg hk]
    · rw [if_neg he, if_neg he]

theorem objGet_map_set {κ ν : Type} [DecidableEq κ] (obj : List (κ × ν)) (key : κ)
    (value : ν) (key' : κ) (h : obj.any (fun entry => decide (entry.1 = key)) = true) :
    objGet (obj.map (fun entry => if entry.1 = key then (key, value) else entry)) key' =
      if key' = key then some value else objGet obj key' := by
  induction obj with
  | nil => simp at h
  | cons entry obj ih =>
    rw [List.map_cons, objGet_cons, objGet_cons]
    by_cases hentry : entry.1 = key
    · rw [if_pos hentry]
      by_cases hk : key' = key
      · rw [if_pos hk, if_pos hk.symm]
      · rw [if_neg hk, if_neg (fun h' : key = key' => hk h'.symm),
          if_neg (fun h' : entry.1 = key' => hk (h'.symm.trans hentry))]
        by_cases hany : obj.any (fun entry => decide (entry.1 = key)) = true
        · rw [ih hany, if_neg hk]
        · have hnone : obj.any (fun entry => decide (entry.1 = key)) = false :=
            Bool.eq_false_iff.2 hany
          rw [List.any_eq_false] at hnone
          have hmap : obj.map (fun entry => if entry.1 = key then (key, value) else entry) =
              obj.map id := by
            apply List.map_congr_left
            intro e he
            have hne : ¬ e.1 = key := by
              intro hk'
              exact hnone e he (by simpa using hk')
            rw [if_neg hne]
            rfl
          rw [hmap, List.map_id]
    · rw [if_neg hentry]
      have hany : obj.any (fun entry => decide (entry.1 = key)) = true := by
        rw [List.any_cons] at h
        simpa [hentry] using h
      rw [ih hany]
      by_cases he : entry.1 = key'
      · have hk : ¬ key' = key := fun h' => hentry (he.trans h')
        rw [if_pos he, if_pos he, if_neg hk]
      · rw [if_neg he, if_neg he]

theorem objGet_objSet {κ ν : Type} [DecidableEq κ] (obj : List (κ × ν)) (key : κ)
    (value : ν) (key' : κ) :
    objGet (objSet obj key value) key' = if key' = key then some value else objGet obj key' := by
  unfold objSet
  by_cases hany : obj.any (fun entry => decide (entry.1 = key)) = true
  · rw [if_pos hany]
    exact objGet_map_set obj key value key' hany
  · rw [if_neg hany]
    exact objGet_append_singleton obj key value key' (Bool.eq_false_iff.2 hany)

namespace PDFMerger

/-- The effect cleanup reaches further than `removeFile` itself: `s1.pdf` and
`s2.pdf` are added in one batch and both have a preview; after `s1.pdf` is
removed, `previewUrls` still holds the URL of `s2.pdf`, yet that URL has been
revoked with all the others: no URL is left and `s2.pdf` has no preview. -/
theorem removeFile_revokes_all_previews :
    (handleFileChange (sampleState [] false) (some [sampleS1.file, sampleS2.file])
        (fun k => "id" ++ toString k)).pdfFiles.map
          (hasPreview (handleFileChange (sampleState [] false)
            (some [sampleS1.file, sampleS2.file]) (fun k => "id" ++ toString k))) =
        [true, true] ∧
      (removeFile (handleFileChange (sampleState [] false)
        (some [sampleS1.file, sampleS2.file]) (fun k => "id" ++ toString k)) "id0").previewUrls =
        [("s2.pdf", 1)] ∧
      (removeFile (handleFileChange (sampleState [] false)
        (some [sampleS1.file, sampleS2.file]) (fun k => "id" ++ toString k)) "id0").urls.live =
        [] ∧
      (removeFile (handleFileChange (sampleState [] false)
        (some [sampleS1.file, sampleS2.file]) (fun k => "id" ++ toString k)) "id0").pdfFiles.map
          (hasPreview (removeFile (handleFileChange (sampleState [] false)
            (some [sampleS1.file, sampleS2.file]) (fun k => "id" ++ toString k)) "id0")) =
        [false] := by
  decide

end PDFMerger

/-! ## Binding a file to the splitter -/

namespace PDFSplitter

/-- `splitPDF` leaves the bound file and `totalPages` alone. -/
theorem splitPDF_frame (s : State) :
    (splitPDF s).pdfFile = s.pdfFile ∧ (splitPDF s).totalPages = s.totalPages := by
  unfold splitPDF
  cases hfile : s.pdfFile with
  | none => exact ⟨rfl, rfl⟩
  | some pdfFile =>
    simp only []
    by_cases hlen : s.splitRanges.length = 0
    · rw [if_pos hlen]; exact ⟨rfl, rfl⟩
    · rw [if_neg hlen]
      cases hload : PDFDocument.load pdfFile with
      | error err => exact ⟨rfl, rfl⟩
      | ok pdf =>
        simp only []
        cases hloop : splitLoop pdf s.totalPages s.splitRanges s.downloads
            (s.calls ++ [.load pdfFile.name]) with
        | mk thrown rest =>
          obtain ⟨downloads, calls⟩ := rest
          cases thrown <;> exact ⟨rfl, rfl⟩

/-- `generateSplitPreviews` leaves the bound file and `totalPages` alone. -/
theorem generateSplitPreviews_frame (s : State) :
    (generateSplitPreviews s).pdfFile = s.pdfFile ∧
      (generateSplitPreviews s).totalPages = s.totalPages := by
  unfold generateSplitPreviews
  cases hfile : s.pdfFile with
  | none => exact ⟨hfile, rfl⟩
  | some pdfFile =>
    simp only []
    by_cases hlen : s.splitRanges.length = 0
    · rw [if_pos hlen]; exact ⟨hfile, rfl⟩
    · rw [if_neg hlen]
      cases hload : PDFDocument.load pdfFile with
      | error err => exact ⟨rfl, rfl⟩
      | ok pdf =>
        simp only []
        cases hloop : previewLoop pdf s.totalPages s.splitRanges
            { newPreviews := [], urls := s.urls, blobs := s.blobs
              calls := s.calls ++ [.load pdfFile.name] } with
        | mk thrown run =>
          cases thrown <;> exact ⟨rfl, rfl⟩

/-- C22, as the code has it. `handleFileChange` and `handleDrop` bind the new
file first and decode it afterwards. When decoding fails, `totalPages`, the
range set and the texts of its fields are left exactly as they were and an error
is reported, but the bound file is the new one. And whether the file decodes or
not, the handler first puts the component into the state in which the new file
is bound next to `totalPages` and the ranges from before; only its second part
replaces them, by the page count of the new file and the range `Part 1`, when
the file decodes; whatever has happened to the component in between, a second
part that fails leaves the bound file, `totalPages` and the ranges as it finds
them. -/
theorem bind_failure (s : State) (file : File) (rest : List File)
    (htype : file.type = "application/pdf") :
    (∀ msg : String, file.content = .error msg →
      ((handleFileChange s (some file)).pdfFile = some file ∧
        (handleFileChange s (some file)).totalPages = s.totalPages ∧
        (handleFileChange s (some file)).splitRanges = s.splitRanges ∧
        (handleFileChange s (some file)).inputValues = s.inputValues ∧
        (handleFileChange s (some file)).error =
          some "Error processing file. Please try again.") ∧
      ((handleDrop s (file :: rest)).pdfFile = some file ∧
        (handleDrop s (file :: rest)).totalPages = s.totalPages ∧
        (handleDrop s (file :: rest)).splitRanges = s.splitRanges ∧
        (handleDrop s (file :: rest)).inputValues = s.inputValues ∧
        (handleDrop s (file :: rest)).error =
          some "Error processing dropped file. Please try again.")) ∧
      (handleFileChange s (some file) = handleFileChangeEnd (handleFileChangeBegin s file) file ∧
        (handleFileChangeBegin s file).pdfFile = some file ∧
        (handleFileChangeBegin s file).totalPages = s.totalPages ∧
        (handleFileChangeBegin s file).splitRanges = s.splitRanges) ∧
      (handleDrop s (file :: rest) = handleDropEnd (handleDropBegin s file) file ∧
        (handleDropBegin s file).pdfFile = some file ∧
        (handleDropBegin s file).totalPages = s.totalPages ∧
        (handleDropBegin s file).splitRanges = s.splitRanges) ∧
      (∀ (t : State) (msg : String), file.content = .error msg →
        ((handleFileChangeEnd t file).pdfFile = t.pdfFile ∧
          (handleFileChangeEnd t file).totalPages = t.totalPages ∧
          (handleFileChangeEnd t file).splitRanges = t.splitRanges ∧
          (handleFileChangeEnd t file).inputValues = t.inputValues ∧
          (handleFileChangeEnd t file).error =
            some "Error processing file. Please try again.") ∧
        ((handleDropEnd t file).pdfFile = t.pdfFile ∧
          (handleDropEnd t file).totalPages = t.totalPages ∧
          (handleDropEnd t file).splitRanges = t.splitRanges ∧
          (handleDropEnd t file).inputValues = t.inputValues ∧
          (handleDropEnd t file).error =
            some "Error processing dropped file. Please try again.")) ∧
      ∀ (t : State) (pdf : PDFDocument), file.content = .ok pdf →
        ((handleFileChangeEnd t file).totalPages = pdf.getPageCount ∧
          (handleFileChangeEnd t file).splitRanges = [⟨1, 1, pdf.getPageCount, "Part 1"⟩] ∧
          (handleFileChangeEnd t file).pdfFile = t.pdfFile) ∧
        ((handleDropEnd t file).totalPages = pdf.getPageCount ∧
          (handleDropEnd t file).splitRanges = [⟨1, 1, pdf.getPageCount, "Part 1"⟩] ∧
          (handleDropEnd t file).pdfFile = t.pdfFile) := by
  refine ⟨?_, ⟨?_, rfl, rfl, rfl⟩, ⟨?_, rfl, rfl, rfl⟩, ?_, ?_⟩
  · intro msg hfail
    constructor
    · simp [handleFileChange, handleFileChangeEnd, handleFileChangeBegin, htype,
        PDFDocument.load, hfail, createPreviewUrl]
    · simp [handleDrop, handleDropEnd, handleDropBegin, htype, PDFDocument.load, hfail,
        createPreviewUrl]
  · simp [handleFileChange, htype]
  · simp [handleDrop, htype]
  · intro t msg hfail
    constructor
    · simp [handleFileChangeEnd, PDFDocument.load, hfail]
    · simp [handleDropEnd, PDFDocument.load, hfail]
  · intro t pdf hload
    constructor
    · simp [handleFileChangeEnd, PDFDocument.load, hload]
    · simp [handleDropEnd, PDFDocument.load, hload]

/-- C22 on a splitter bound to a 10-page file, when a file that does not load is
selected: `totalPages` stays 10 and `Part 1` stays, the bound file is the new
one. -/
theorem bind_failure_witness :
    sampleBrokenFile.type = "application/pdf" ∧
      sampleBrokenFile.content = .error "No PDF header found" ∧
      (handleFileChange (handleFileChange initialState (some (sampleFile 10)))
        (some sampleBrokenFile)).totalPages =
        (handleFileChange initialState (some (sampleFile 10))).totalPages ∧
      (handleFileChange (handleFileChange initialState (some (sampleFile 10)))
        (some sampleBrokenFile)).splitRanges =
        (handleFileChange initialState (some (sampleFile 10))).splitRanges ∧
      (handleFileChange initialState (some (sampleFile 10))).splitRanges =
        [⟨1, 1, 10, "Part 1"⟩] :=
  ⟨rfl, rfl,
    ((bind_failure (handleFileChange initialState (some (sampleFile 10))) sampleBrokenFile []
      rfl).1 "No PDF header found" rfl).1.2.1,
    ((bind_failure (handleFileChange initialState (some (sampleFile 10))) sampleBrokenFile []
      rfl).1 "No PDF header found" rfl).1.2.2.1,
    by decide⟩

/-- C22 fails as stated. With a 10-page file bound, selecting (or dropping) a
file that does not load replaces the bound file by it, while `totalPages` and
the ranges are still those of the file from before: the bound file is not left
as it was. And while a 3-page file is being bound, after the first part of
`handleFileChange` (or `handleDrop`), the ranges are bound to a file that
decodes to 3 pages and `totalPages` is still 10. -/
theorem bind_failure_counterexample :
    (handleFileChange initialState (some (sampleFile 10))).pdfFile = some (sampleFile 10) ∧
      (handleFileChange (handleFileChange initialState (some (sampleFile 10)))
        (some sampleBrokenFile)).pdfFile = some sampleBrokenFile ∧
      (handleDrop (handleFileChange initialState (some (sampleFile 10)))
        [sampleBrokenFile]).pdfFile = some sampleBrokenFile ∧
      (handleDrop (handleFileChange initialState (some (sampleFile 10)))
        [sampleBrokenFile]).totalPages = 10 ∧
      sampleShortFile.content.map PDFDocument.getPageCount = .ok 3 ∧
      (handleFileChangeBegin (handleFileChange initialState (some (sampleFile 10)))
        sampleShortFile).pdfFile = some sampleShortFile ∧
      (handleFileChangeBegin (handleFileChange initialState (some (sampleFile 10)))
        sampleShortFile).totalPages = 10 ∧
      (handleFileChangeBegin (handleFileChange initialState (some (sampleFile 10)))
        sampleShortFile).splitRanges = [⟨1, 1, 10, "Part 1"⟩] ∧
      (handleDropBegin (handleFileChange initialState (some (sampleFile 10)))
        sampleShortFile).totalPages = 10 := by
  decide

end PDFSplitter

/-! ## Previews and downloads -/

namespace PDFSplitter

theorem composedDocument_of_ok {pdf : PDFDocument} {range : SplitRange}
    {copiedPages : List PDFPage}
    (h : pdf.copyPages (pageIndices pdf range) = .ok copiedPages) :
    composedDocument pdf range = (PDFDocument.create.addPages copiedPages).save := by
  simp [composedDocument, h]

/-- The two loops go the same way: they throw the same, make the same codec
calls, and compose a document for the same ranges, `composedRanges`. -/
theorem loops_agree (pdf : PDFDocument) (totalPages : Nat) (ranges : List SplitRange) :
    ∀ (downloads : List Download) (run : PreviewRun),
      (previewLoop pdf totalPages ranges run).1 =
          (splitLoop pdf totalPages ranges downloads run.calls).1 ∧
        (previewLoop pdf totalPages ranges run).2.calls =
          (splitLoop pdf totalPages ranges downloads run.calls).2.2 ∧
        (splitLoop pdf totalPages ranges downloads run.calls).2.1 =
          downloads ++ (composedRanges pdf totalPages ranges).map
            (fun r => (⟨r.name ++ ".pdf", composedDocument pdf r⟩ : Download)) ∧
        (previewLoop pdf totalPages ranges run).2.blobs.map Prod.snd =
          run.blobs.map Prod.snd ++
            (composedRanges pdf totalPages ranges).map (composedDocument pdf) := by
  induction ranges with
  | nil => intro downloads run; simp [previewLoop, splitLoop, composedRanges]
  | cons r ranges ih =>
    intro downloads run
    rw [previewLoop, splitLoop, composedRanges]
    cases helig : eligible totalPages r with
    | false =>
      simp only [Bool.false_eq_true, if_false]
      exact ih downloads run
    | true =>
      simp only [if_true]
      cases hcopy : pdf.copyPages (pageIndices pdf r) with
      | error e => simp
      | ok copiedPages =>
        simp only []
        obtain ⟨h1, h2, h3, h4⟩ := ih
          (downloads ++ [⟨r.name ++ ".pdf", (PDFDocument.create.addPages copiedPages).save⟩])
          { newPreviews := objSet run.newPreviews r.id run.urls.createObjectURL.1
            urls := run.urls.createObjectURL.2
            blobs := run.blobs ++
              [(run.urls.createObjectURL.1, (PDFDocument.create.addPages copiedPages).save)]
            calls := run.calls ++ [.create, .copyPages (pageIndices pdf r), .save] }
        refine ⟨h1, h2, ?_, ?_⟩
        · rw [h3, List.map_cons, composedDocument_of_ok hcopy]
          simp
        · rw [h4, List.map_cons, composedDocument_of_ok hcopy]
          simp

/-- The downloads of `splitPDF` are the documents of `composed`. -/
theorem splitPDF_composed (s : State) :
    (splitPDF s).downloads =
      s.downloads ++ (composed s).map (fun c => (⟨c.1.name ++ ".pdf", c.2⟩ : Download)) := by
  unfold splitPDF composed
  cases hfile : s.pdfFile with
  | none => simp
  | some pdfFile =>
    simp only []
    cases hload : pdfFile.content with
    | error msg =>
      by_cases hlen : s.splitRanges.length = 0
      · simp [hlen]
      · simp [hlen, PDFDocument.load, hload]
    | ok pdf =>
      by_cases hlen : s.splitRanges.length = 0
      · have hnil : s.splitRanges = [] := List.length_eq_zero.1 hlen
        simp [hnil, composedRanges]
      · rw [if_neg hlen]
        simp only [PDFDocument.load, hload]
        have h := (loops_agree pdf s.totalPages s.splitRanges s.downloads
          { newPreviews := [], urls := s.urls, blobs := s.blobs
            calls := s.calls ++ [.load pdfFile.name] }).2.2.1
        simp only [] at h
        cases hloop : splitLoop pdf s.totalPages s.splitRanges s.downloads
            (s.calls ++ [.load pdfFile.name]) with
        | mk thrown rest =>
          obtain ⟨downloads, calls⟩ := rest
          rw [hloop] at h
          simp only [] at h
          cases thrown <;> simp [h, List.map_map, Function.comp_def]

/-- The documents `generateSplitPreviews` makes URLs for are those of
`composed`. -/
theorem generateSplitPreviews_composed (s : State) :
    (generateSplitPreviews s).blobs.map Prod.snd =
      s.blobs.map Prod.snd ++ (composed s).map Prod.snd := by
  unfold generateSplitPreviews composed
  cases hfile : s.pdfFile with
  | none => simp
  | some pdfFile =>
    simp only []
    cases hload : pdfFile.content with
    | error msg =>
      by_cases hlen : s.splitRanges.length = 0
      · simp [hlen]
      · simp [hlen, PDFDocument.load, hload]
    | ok pdf =>
      by_cases hlen : s.splitRanges.length = 0
      · have hnil : s.splitRanges = [] := List.length_eq_zero.1 hlen
        simp [hnil, composedRanges]
      · rw [if_neg hlen]
        simp only [PDFDocument.load, hload]
        have h := (loops_agree pdf s.totalPages s.splitRanges s.downloads
          { newPreviews := [], urls := s.urls, blobs := s.blobs
            calls := s.calls ++ [.load pdfFile.name] }).2.2.2
        simp only [] at h
        cases hloop : previewLoop pdf s.totalPages s.splitRanges
            { newPreviews := [], urls := s.urls, blobs := s.blobs
              calls := s.calls ++ [.load pdfFile.name] } with
        | mk thrown run =>
          rw [hloop] at h
          simp only [] at h
          cases thrown <;> simp [h, List.map_map, Function.comp_def]

/-- `generateSplitPreviews` and `splitPDF` make the same codec calls. -/
theorem calls_agree (s : State) : (generateSplitPreviews s).calls = (splitPDF s).calls := by
  unfold generateSplitPreviews splitPDF
  cases hfile : s.pdfFile with
  | none => rfl
  | some pdfFile =>
    simp only []
    by_cases hlen : s.splitRanges.length = 0
    · rw [if_pos hlen, if_pos hlen]
    · rw [if_neg hlen, if_neg hlen]
      cases hload : PDFDocument.load pdfFile with
      | error err => rfl
      | ok pdf =>
        simp only []
        obtain ⟨h1, h2, _, _⟩ := loops_agree pdf s.totalPages s.splitRanges s.downloads
          { newPreviews := [], urls := s.urls, blobs := s.blobs
            calls := s.calls ++ [.load pdfFile.name] }
        simp only [] at h1 h2
        cases hp : previewLoop pdf s.totalPages s.splitRanges
            { newPreviews := [], urls := s.urls, blobs := s.blobs
              calls := s.calls ++ [.load pdfFile.name] } with
        | mk thrown run =>
          cases hs : splitLoop pdf s.totalPages s.splitRanges s.downloads
              (s.calls ++ [.load pdfFile.name]) with
          | mk thrown' rest =>
            obtain ⟨downloads, calls⟩ := rest
            rw [hp, hs] at h1 h2
            simp only [] at h1 h2
            subst h1
            cases thrown <;> exact h2

end PDFSplitter

namespace PDFSplitter

/-- Calls already made stay in the log of the loop. -/
theorem splitLoop_calls_mono (pdf : PDFDocument) (totalPages : Nat) (ranges : List SplitRange) :
    ∀ (downloads : List Download) (calls : List CodecCall) (c : CodecCall), c ∈ calls →
      c ∈ (splitLoop pdf totalPages ranges downloads calls).2.2 := by
  induction ranges with
  | nil => intro downloads calls c hc; simpa [splitLoop] using hc
  | cons r ranges ih =>
    intro downloads calls c hc
    rw [splitLoop]
    cases helig : eligible totalPages r with
    | false =>
      simp only [Bool.false_eq_true, if_false]
      exact ih downloads calls c hc
    | true =>
      simp only [if_true]
      cases hcopy : pdf.copyPages (pageIndices pdf r) with
      | error e => simp [hc]
      | ok copiedPages => exact ih _ _ c (List.mem_append_left _ hc)

/-- Every index list the loop passes to `copyPages` is the `pageIndices` of a
range that passes the test. -/
theorem splitLoop_copyPages_calls (pdf : PDFDocument) (totalPages : Nat)
    (ranges : List SplitRange) :
    ∀ (downloads : List Download) (calls : List CodecCall) (indices : List Int),
      CodecCall.copyPages indices ∈ (splitLoop pdf totalPages ranges downloads calls).2.2 →
      CodecCall.copyPages indices ∈ calls ∨
        ∃ r ∈ ranges, eligible totalPages r = true ∧ indices = pageIndices pdf r := by
  induction ranges with
  | nil => intro downloads calls indices h; exact Or.inl (by simpa [splitLoop] using h)
  | cons r ranges ih =>
    intro downloads calls indices h
    rw [splitLoop] at h
    cases helig : eligible totalPages r with
    | false =>
      simp only [helig, Bool.false_eq_true, if_false] at h
      rcases ih downloads calls indices h with h' | ⟨q, hq, hq'⟩
      · exact Or.inl h'
      · exact Or.inr ⟨q, List.mem_cons_of_mem _ hq, hq'⟩
    | true =>
      simp only [helig, if_true] at h
      cases hcopy : pdf.copyPages (pageIndices pdf r) with
      | error e =>
        simp only [hcopy, List.mem_append, List.mem_cons, CodecCall.copyPages.injEq,
          List.mem_singleton, reduceCtorEq, false_or, List.not_mem_nil, or_false] at h
        rcases h with h | h
        · exact Or.inl h
        · exact Or.inr ⟨r, List.mem_cons_self _ _, helig, h⟩
      | ok copiedPages =>
        simp only [hcopy] at h
        rcases ih _ _ indices h with h' | ⟨q, hq, hq'⟩
        · simp only [List.mem_append, List.mem_cons, CodecCall.copyPages.injEq,
            List.mem_singleton, reduceCtorEq, false_or, List.not_mem_nil, or_false] at h'
          rcases h' with h' | h'
          · exact Or.inl h'
          · exact Or.inr ⟨r, List.mem_cons_self _ _, helig, h'⟩
        · exact Or.inr ⟨q, List.mem_cons_of_mem _ hq, hq'⟩

/-- For every range the loop composes, it has passed the `pageIndices` of the
range to `copyPages`. -/
theorem splitLoop_composed_calls (pdf : PDFDocument) (totalPages : Nat)
    (ranges : List SplitRange) :
    ∀ (downloads : List Download) (calls : List CodecCall),
      ∀ r ∈ composedRanges pdf totalPages ranges,
        CodecCall.copyPages (pageIndices pdf r) ∈
          (splitLoop pdf totalPages ranges downloads calls).2.2 := by
  induction ranges with
  | nil => intro downloads calls r hr; simp [composedRanges] at hr
  | cons q ranges ih =>
    intro downloads calls r hr
    rw [composedRanges] at hr
    rw [splitLoop]
    cases helig : eligible totalPages q with
    | false =>
      simp only [helig, Bool.false_eq_true, if_false] at hr ⊢
      exact ih downloads calls r hr
    | true =>
      simp only [helig, if_true] at hr ⊢
      cases hcopy : pdf.copyPages (pageIndices pdf q) with
      | error e => simp [hcopy] at hr
      | ok copiedPages =>
        simp only [hcopy, List.mem_cons] at hr ⊢
        rcases hr with hr | hr
        · rw [hr]
          exact splitLoop_calls_mono pdf totalPages ranges _ _ _ (by simp)
        · exact ih _ _ r hr

/-- The codec calls of `splitPDF`, when a file that decodes is bound: what the
loop logs. -/
theorem splitPDF_calls (s : State) (pdfFile : File) (pdf : PDFDocument)
    (hfile : s.pdfFile = some pdfFile) (hload : pdfFile.content = .ok pdf)
    (hranges : s.splitRanges ≠ []) :
    (splitPDF s).calls =
      (splitLoop pdf s.totalPages s.splitRanges s.downloads
        (s.calls ++ [.load pdfFile.name])).2.2 := by
  have hlen : s.splitRanges.length ≠ 0 := by simpa using hranges
  unfold splitPDF
  simp only [hfile, hlen, if_false, PDFDocument.load, hload]
  cases h : splitLoop pdf s.totalPages s.splitRanges s.downloads
      (s.calls ++ [.load pdfFile.name]) with
  | mk thrown rest =>
    obtain ⟨downloads, calls⟩ := rest
    cases thrown <;> rfl

theorem composed_of_ok (s : State) (pdfFile : File) (pdf : PDFDocument)
    (hfile : s.pdfFile = some pdfFile) (hload : pdfFile.content = .ok pdf) :
    composed s =
      (composedRanges pdf s.totalPages s.splitRanges).map
        (fun range => (range, composedDocument pdf range)) := by
  simp [composed, hfile, hload]

/-- The ids under which the loop of `generateSplitPreviews` holds a URL: those
from before and those of the ranges it composes. -/
theorem previewLoop_newPreviews (pdf : PDFDocument) (totalPages : Nat)
    (ranges : List SplitRange) :
    ∀ (run : PreviewRun) (id : Nat),
      (objGet (previewLoop pdf totalPages ranges run).2.newPreviews id).isSome = true ↔
        ((objGet run.newPreviews id).isSome = true ∨
          ∃ r ∈ composedRanges pdf totalPages ranges, r.id = id) := by
  induction ranges with
  | nil => intro run id; simp [previewLoop, composedRanges]
  | cons r ranges ih =>
    intro run id
    rw [previewLoop, composedRanges]
    cases helig : eligible totalPages r with
    | false =>
      simp only [Bool.false_eq_true, if_false]
      exact ih run id
    | true =>
      simp only [if_true]
      cases hcopy : pdf.copyPages (pageIndices pdf r) with
      | error e => simp
      | ok copiedPages =>
        simp only []
        rw [ih, objGet_objSet]
        by_cases hid : id = r.id
        · simp [hid]
        · have hid' : ¬ r.id = id := fun h => hid h.symm
          simp [hid, hid']

/-- When `splitPDF` reports no error, `generateSplitPreviews` leaves a URL in
`splitPreviews` under the id of exactly the ranges of `composed`. -/
theorem generateSplitPreviews_registered (s : State) (hok : (splitPDF s).error = none)
    (id : Nat) :
    (objGet (generateSplitPreviews s).splitPreviews id).isSome = true ↔
      ∃ c ∈ composed s, c.1.id = id := by
  cases hfile : s.pdfFile with
  | none => simp [splitPDF, hfile] at hok
  | some pdfFile =>
    by_cases hlen : s.splitRanges.length = 0
    · simp [splitPDF, hfile, hlen] at hok
    · cases hload : pdfFile.content with
      | error msg => simp [splitPDF, hfile, hlen, PDFDocument.load, hload] at hok
      | ok pdf =>
        obtain ⟨h1, _, _, _⟩ := loops_agree pdf s.totalPages s.splitRanges s.downloads
          { newPreviews := [], urls := s.urls, blobs := s.blobs
            calls := s.calls ++ [.load pdfFile.name] }
        simp only [] at h1
        have hnone : (splitLoop pdf s.totalPages s.splitRanges s.downloads
            (s.calls ++ [.load pdfFile.name])).1 = none := by
          cases hs : splitLoop pdf s.totalPages s.splitRanges s.downloads
              (s.calls ++ [.load pdfFile.name]) with
          | mk thrown rest =>
            obtain ⟨downloads, calls⟩ := rest
            cases thrown with
            | none => rfl
            | some err => simp [splitPDF, hfile, hlen, PDFDocument.load, hload, hs] at hok
        rw [hnone] at h1
        have hprev : (generateSplitPreviews s).splitPreviews =
            (previewLoop pdf s.totalPages s.splitRanges
              { newPreviews := [], urls := s.urls, blobs := s.blobs
                calls := s.calls ++ [.load pdfFile.name] }).2.newPreviews := by
          unfold generateSplitPreviews
          simp only [hfile, hlen, if_false, PDFDocument.load, hload]
          cases hp : previewLoop pdf s.totalPages s.splitRanges
              { newPreviews := [], urls := s.urls, blobs := s.blobs
                calls := s.calls ++ [.load pdfFile.name] } with
          | mk thrown run =>
            rw [hp] at h1
            simp only [] at h1
            rw [h1]
        rw [hprev, previewLoop_newPreviews, composed_of_ok s pdfFile pdf hfile hload]
        simp [objGet]

/-- C24. Preview and download agree, for every bound file, `totalPages` and
range set: `generateSplitPreviews` composes a document for exactly the ranges
`splitPDF` produces an output for (the ranges of `composed`, in order, each
with the same document), the two make the same codec calls in the same order,
and for each such range both have passed the `pageIndices` of the range to
`copyPages`. When `splitPDF` reports no error, `splitPreviews` then holds a URL
under the id of exactly these ranges. -/
theorem preview_and_download_agree (s : State) :
    (splitPDF s).downloads =
        s.downloads ++ (composed s).map (fun c => (⟨c.1.name ++ ".pdf", c.2⟩ : Download)) ∧
      (generateSplitPreviews s).blobs.map Prod.snd =
        s.blobs.map Prod.snd ++ (composed s).map Prod.snd ∧
      (generateSplitPreviews s).calls = (splitPDF s).calls ∧
      (∀ (pdfFile : File) (pdf : PDFDocument), s.pdfFile = some pdfFile →
        pdfFile.content = .ok pdf → ∀ c ∈ composed s,
          CodecCall.copyPages (pageIndices pdf c.1) ∈ (splitPDF s).calls ∧
            CodecCall.copyPages (pageIndices pdf c.1) ∈ (generateSplitPreviews s).calls) ∧
      ((splitPDF s).error = none → ∀ id : Nat,
        ((objGet (generateSplitPreviews s).splitPreviews id).isSome = true ↔
          ∃ c ∈ composed s, c.1.id = id)) := by
  refine ⟨splitPDF_composed s, generateSplitPreviews_composed s, calls_agree s, ?_,
    generateSplitPreviews_registered s⟩
  intro pdfFile pdf hfile hload c hc
  rw [composed_of_ok s pdfFile pdf hfile hload] at hc
  obtain ⟨r, hr, hrc⟩ := List.mem_map.1 hc
  have hne : s.splitRanges ≠ [] := by
    intro hnil
    rw [hnil] at hr
    simp [composedRanges] at hr
  have hmem : CodecCall.copyPages (pageIndices pdf c.1) ∈ (splitPDF s).calls := by
    rw [splitPDF_calls s pdfFile pdf hfile hload hne, ← hrc]
    exact splitLoop_composed_calls pdf s.totalPages s.splitRanges _ _ r hr
  exact ⟨hmem, by rw [calls_agree]; exact hmem⟩

/-- C24 on three ranges of a 10-page file, the second failing the test: both
compose pages 1-2 and pages 2-4, and both pass `[0, 1]` and `[1, 2, 3]` to
`copyPages`. -/
theorem preview_and_download_agree_witness :
    (splitPDF (sampleState 10
        [⟨1, 1, 2, "Part 1"⟩, ⟨2, 6, 3, "Part 2"⟩, ⟨3, 2, 4, "Part 3"⟩])).downloads.map
          (fun d => d.document.pages.map (fun page => page.content)) =
        [[some 1, some 2], [some 2, some 3, some 4]] ∧
      (generateSplitPreviews (sampleState 10
        [⟨1, 1, 2, "Part 1"⟩, ⟨2, 6, 3, "Part 2"⟩, ⟨3, 2, 4, "Part 3"⟩])).blobs.map
          (fun b => b.2.pages.map (fun page => page.content)) =
        [[some 1, some 2], [some 2, some 3, some 4]] ∧
      (generateSplitPreviews (sampleState 10
        [⟨1, 1, 2, "Part 1"⟩, ⟨2, 6, 3, "Part 2"⟩, ⟨3, 2, 4, "Part 3"⟩])).calls =
        (splitPDF (sampleState 10
          [⟨1, 1, 2, "Part 1"⟩, ⟨2, 6, 3, "Part 2"⟩, ⟨3, 2, 4, "Part 3"⟩])).calls :=
  ⟨by decide, by decide,
    (preview_and_download_agree (sampleState 10
      [⟨1, 1, 2, "Part 1"⟩, ⟨2, 6, 3, "Part 2"⟩, ⟨3, 2, 4, "Part 3"⟩])).2.2.1⟩

end PDFSplitter

/-! ## Page indices and page counts -/

namespace PDFSplitter

/-- Every index list `splitPDF` passes to `copyPages` is either in the log from
before or the `pageIndices` of a range of the set that passes the test. -/
theorem splitPDF_copyPages_calls (s : State) (pdfFile : File) (pdf : PDFDocument)
    (hfile : s.pdfFile = some pdfFile) (hload : pdfFile.content = .ok pdf)
    (indices : List Int) (h : CodecCall.copyPages indices ∈ (splitPDF s).calls) :
    CodecCall.copyPages indices ∈ s.calls ∨
      ∃ q ∈ s.splitRanges, eligible s.totalPages q = true ∧ indices = pageIndices pdf q := by
  by_cases hne : s.splitRanges = []
  · left
    have hstate : (splitPDF s).calls = s.calls := by
      simp [splitPDF, hfile, hne]
    rw [← hstate]
    exact h
  · rw [splitPDF_calls s pdfFile pdf hfile hload hne] at h
    rcases splitLoop_copyPages_calls pdf s.totalPages s.splitRanges _ _ indices h with h' | h'
    · left
      simpa using h'
    · exact Or.inr h'

/-- C25. Split page indices are always valid: when `totalPages` is the page
count of the decoded file, for every range with `1 <= start` that passes the
test, every index of `pageIndices` lies in `[0, pageCount)` and the inner guard
drops none (`pageIndices` is the whole run `start - 1, ..., end - 1`), so
`copyPages` succeeds; and `pageIndices` of the ranges that pass the test is all
`splitPDF` and `generateSplitPreviews` ever pass to `copyPages`. -/
theorem split_indices_valid (s : State) (pdfFile : File) (pdf : PDFDocument)
    (r : SplitRange)
    (hfile : s.pdfFile = some pdfFile) (hload : pdfFile.content = .ok pdf)
    (hN : s.totalPages = pdf.getPageCount)
    (helig : eligible s.totalPages r = true) (hstart : 1 ≤ r.start) :
    (∀ i ∈ pageIndices pdf r, 0 ≤ i ∧ i < (pdf.getPageCount : Int)) ∧
      pageIndices pdf r =
        (List.range (r.«end» - (r.start - 1)).toNat).map
          (fun (k : Nat) => r.start - 1 + (k : Int)) ∧
      (∃ copiedPages, pdf.copyPages (pageIndices pdf r) = .ok copiedPages) ∧
      (∀ indices, CodecCall.copyPages indices ∈ (splitPDF s).calls →
        CodecCall.copyPages indices ∈ s.calls ∨
          ∃ q ∈ s.splitRanges, eligible s.totalPages q = true ∧ indices = pageIndices pdf q) ∧
      (∀ indices, CodecCall.copyPages indices ∈ (generateSplitPreviews s).calls →
        CodecCall.copyPages indices ∈ s.calls ∨
          ∃ q ∈ s.splitRanges, eligible s.totalPages q = true ∧ indices = pageIndices pdf q) := by
  obtain ⟨h1, h2, h3⟩ := (eligible_iff s.totalPages r).1 helig
  have hwhole : pageIndices pdf r =
      (List.range (r.«end» - (r.start - 1)).toNat).map
        (fun (k : Nat) => r.start - 1 + (k : Int)) := by
    unfold pageIndices
    rw [List.filter_eq_self]
    intro i hi
    simp only [List.mem_map, List.mem_range] at hi
    obtain ⟨k, hk, rfl⟩ := hi
    simp only [decide_eq_true_eq]
    rw [← hN]
    have hk' : (k : Int) < r.«end» - (r.start - 1) := by omega
    omega
  refine ⟨?_, hwhole, ⟨rangePages pdf r, copyPages_pageIndices pdf s.totalPages r hN helig hstart⟩,
    fun indices h => splitPDF_copyPages_calls s pdfFile pdf hfile hload indices h,
    fun indices h => splitPDF_copyPages_calls s pdfFile pdf hfile hload indices
      (by rw [← calls_agree]; exact h)⟩
  intro i hi
  rw [hwhole] at hi
  simp only [List.mem_map, List.mem_range] at hi
  obtain ⟨k, hk, rfl⟩ := hi
  rw [← hN]
  have hk' : (k : Int) < r.«end» - (r.start - 1) := by omega
  constructor <;> omega

/-- C25 on a 10-page file and the range `{3, 5}`: the indices are 2, 3, 4. -/
theorem split_indices_valid_witness :
    eligible 10 ⟨1, 3, 5, "Part 1"⟩ = true ∧
      pageIndices ⟨(List.range 10).map (fun i => ⟨some (i + 1), 612, 792⟩)⟩
        ⟨1, 3, 5, "Part 1"⟩ = [2, 3, 4] ∧
      ∀ i ∈ pageIndices ⟨(List.range 10).map (fun i => ⟨some (i + 1), 612, 792⟩)⟩
          ⟨1, 3, 5, "Part 1"⟩,
        0 ≤ i ∧ i < ((PDFDocument.getPageCount
          ⟨(List.range 10).map (fun i => ⟨some (i + 1), 612, 792⟩)⟩ : Nat) : Int) :=
  ⟨by decide, by decide,
    (split_indices_valid (sampleState 10 [⟨1, 3, 5, "Part 1"⟩]) (sampleFile 10)
      ⟨(List.range 10).map (fun i => ⟨some (i + 1), 612, 792⟩)⟩ ⟨1, 3, 5, "Part 1"⟩
      rfl rfl (by decide) (by decide) (by decide)).1⟩

/-- The download `splitPDF` makes for a range that passes the test and starts at
page 1 or later, when the ranges before it do so too. -/
theorem splitPDF_download_at (s : State) (pdfFile : File) (pdf : PDFDocument)
    (pre post : List SplitRange) (r : SplitRange)
    (hfile : s.pdfFile = some pdfFile) (hload : pdfFile.content = .ok pdf)
    (hN : s.totalPages = pdf.getPageCount) (hranges : s.splitRanges = pre ++ r :: post)
    (helig : eligible s.totalPages r = true) (hstart : 1 ≤ r.start)
    (hpre : ∀ q ∈ pre, eligible s.totalPages q = true → 1 ≤ q.start) :
    (splitPDF s).downloads[s.downloads.length + (pre.filter (eligible s.totalPages)).length]? =
      some (rangeOutput pdf r) := by
  have hne : s.splitRanges ≠ [] := by rw [hranges]; simp
  have hpre' : ∀ q ∈ pre ++ [r], eligible s.totalPages q = true → 1 ≤ q.start := by
    intro q hq hq'
    rcases List.mem_append.1 hq with h | h
    · exact hpre q h hq'
    · simp at h; rw [h]; exact hstart
  obtain ⟨calls, hloop⟩ := splitLoop_append pdf s.totalPages hN (pre ++ [r]) post s.downloads
    (s.calls ++ [.load pdfFile.name]) hpre'
  obtain ⟨more, hmore⟩ := splitLoop_downloads pdf s.totalPages post
    (s.downloads ++ ((pre ++ [r]).filter (eligible s.totalPages)).map (rangeOutput pdf)) calls
  rw [splitPDF_downloads s pdfFile pdf hfile hload hne, hranges,
    show pre ++ r :: post = (pre ++ [r]) ++ post by simp, hloop, hmore]
  simp only [List.filter_append, List.map_append, List.filter_cons, helig, if_true,
    List.filter_nil, List.map_cons, List.map_nil]
  simp only [List.append_assoc]
  rw [← List.append_assoc, List.getElem?_append_right (by simp)]
  simp

/-- C26, as the code has it. When `totalPages` is the page count of the decoded
file, for every range with `1 <= start` that passes the test, the page count
displayed for the range, `end - start + 1`, is the number of pages `copyPages`
returns for it; and when the ranges before it that pass the test start at page 1
or later too, `splitPDF` makes a download for the range, named after it, that
holds exactly these pages, as many as displayed. -/
theorem displayed_page_count (s : State) (pdfFile : File)
    (pdf : PDFDocument) (pre post : List SplitRange) (r : SplitRange)
    (hfile : s.pdfFile = some pdfFile) (hload : pdfFile.content = .ok pdf)
    (hN : s.totalPages = pdf.getPageCount)
    (hranges : s.splitRanges = pre ++ r :: post)
    (helig : eligible s.totalPages r = true) (hstart : 1 ≤ r.start) :
    ∃ copiedPages, pdf.copyPages (pageIndices pdf r) = .ok copiedPages ∧
      ((copiedPages.length : Nat) : Int) = displayedPageCount r ∧
      ((∀ q ∈ pre, eligible s.totalPages q = true → 1 ≤ q.start) →
        (splitPDF s).downloads[
            s.downloads.length + (pre.filter (eligible s.totalPages)).length]? =
          some ⟨r.name ++ ".pdf", ⟨copiedPages⟩⟩) := by
  have hlen := rangePages_length pdf s.totalPages r hN helig hstart
  refine ⟨rangePages pdf r, copyPages_pageIndices pdf s.totalPages r hN helig hstart, hlen, ?_⟩
  intro hpre
  exact splitPDF_download_at s pdfFile pdf pre post r hfile hload hN hranges helig hstart hpre

/-- C26 on a 10-page file whose `Part 1` has been edited to pages 3 to 5: the
card displays 3 pages, and the download has the 3 pages with labels 3, 4, 5. -/
theorem displayed_page_count_witness :
    (sampleState 10 [⟨1, 3, 5, "Part 1"⟩]).totalPages = 10 ∧
      eligible 10 ⟨1, 3, 5, "Part 1"⟩ = true ∧
      displayedPageCount ⟨1, 3, 5, "Part 1"⟩ = 3 ∧
      (splitPDF (sampleState 10 [⟨1, 3, 5, "Part 1"⟩])).downloads =
        [⟨"Part 1.pdf", ⟨[⟨some 3, 612, 792⟩, ⟨some 4, 612, 792⟩, ⟨some 5, 612, 792⟩]⟩⟩] ∧
      ∃ copiedPages,
        PDFDocument.copyPages ⟨(List.range 10).map (fun i => ⟨some (i + 1), 612, 792⟩)⟩
          (pageIndices ⟨(List.range 10).map (fun i => ⟨some (i + 1), 612, 792⟩)⟩
            ⟨1, 3, 5, "Part 1"⟩) = .ok copiedPages ∧
        ((copiedPages.length : Nat) : Int) = displayedPageCount ⟨1, 3, 5, "Part 1"⟩ ∧
        ((∀ q ∈ ([] : List SplitRange),
            eligible (sampleState 10 [⟨1, 3, 5, "Part 1"⟩]).totalPages q = true → 1 ≤ q.start) →
          (splitPDF (sampleState 10 [⟨1, 3, 5, "Part 1"⟩])).downloads[
              (sampleState 10 [⟨1, 3, 5, "Part 1"⟩]).downloads.length +
                (([] : List SplitRange).filter
                  (eligible (sampleState 10 [⟨1, 3, 5, "Part 1"⟩]).totalPages)).length]? =
            some ⟨"Part 1" ++ ".pdf", ⟨copiedPages⟩⟩) :=
  ⟨rfl, by decide, by decide, by decide,
    displayed_page_count (sampleState 10 [⟨1, 3, 5, "Part 1"⟩]) (sampleFile 10)
      ⟨(List.range 10).map (fun i => ⟨some (i + 1), 612, 792⟩)⟩ [] []
      ⟨1, 3, 5, "Part 1"⟩ rfl rfl (by decide) rfl (by decide) (by decide)⟩

/-- C26 fails as stated, in two ways. On a 10-page file with the ranges
`{-2, 3}` and `{4, 5}` (typed into the fields of `Part 1` and `Part 2`), the
range `{4, 5}` starts at page 4 and passes the test, and its card displays 2
pages; but `splitPDF` stops at `{-2, 3}`, whose copy throws, and makes no output
for `{4, 5}`, nor any other. And while a 3-page file is being bound to a
splitter that held a 10-page file, after the first part of `handleFileChange`,
`Part 1` is still `{1, 10}` and `totalPages` still 10: the range passes the
test, its card displays 10 pages, and `splitPDF` copies 3 pages into its
output. -/
theorem displayed_page_count_counterexample :
    sampleTyped.map (fun s => (s.pdfFile, s.totalPages, s.splitRanges)) =
        some (some (sampleFile 10), 10, [⟨1, -2, 3, "Part 1"⟩, ⟨2, 4, 5, "Part 2"⟩]) ∧
      eligible 10 ⟨2, 4, 5, "Part 2"⟩ = true ∧
      displayedPageCount ⟨2, 4, 5, "Part 2"⟩ = 2 ∧
      sampleTyped.map (fun s => (splitPDF s).downloads) = some [] ∧
      sampleTyped.map (fun s => (splitPDF s).error) =
        some (some "Error splitting PDF. Please try again.") ∧
      (handleFileChangeBegin (handleFileChange initialState (some (sampleFile 10)))
        sampleShortFile).splitRanges = [⟨1, 1, 10, "Part 1"⟩] ∧
      eligible (handleFileChangeBegin (handleFileChange initialState (some (sampleFile 10)))
        sampleShortFile).totalPages ⟨1, 1, 10, "Part 1"⟩ = true ∧
      displayedPageCount ⟨1, 1, 10, "Part 1"⟩ = 10 ∧
      (splitPDF (handleFileChangeBegin (handleFileChange initialState (some (sampleFile 10)))
        sampleShortFile)).downloads =
        [⟨"Part 1.pdf",
          ⟨[⟨some 101, 612, 792⟩, ⟨some 102, 612, 792⟩, ⟨some 103, 612, 792⟩]⟩⟩] ∧
      (splitPDF (handleFileChangeBegin (handleFileChange initialState (some (sampleFile 10)))
        sampleShortFile)).calls.filter (fun call => decide (call ≠ .load "source.pdf")) =
        [.load "short.pdf", .create, .copyPages [0, 1, 2], .save] := by
  decide

end PDFSplitter

end PDFTools
